import Mathlib

/-! # srxe-texter: ring buffer (`cbuffer.h`) and RF transport (`rf.h`)

A shallow embedding of the circular byte buffer and of the radio driver built on it,
for the ATmega128RFA1 target.  On that target `int` and `unsigned short` are 16 bits
wide, so `unsigned short` arithmetic is carried out modulo `2^16`.
-/

namespace Srxe

/-! ## Machine integers -/

/-- An `unsigned char` / `uint8_t` value. -/
abbrev uint8_t := Fin 256

/-- Number of values of an `unsigned short` / `unsigned int` on the AVR target. -/
def USHORT : Nat := 65536

/-! ## cbuffer.h -/

/-- The `cBuffer` structure.  The pointer `data` is identified with the array it addresses:
`data i` is `data[i]`.  The three `unsigned short` fields are naturals; the operations
reduce modulo `2^16` wherever the C arithmetic does. -/
structure cBuffer where
  data : Nat → uint8_t
  size : Nat
  length : Nat
  current : Nat

/-- Storing one byte: `data[i] = v`. -/
def store (data : Nat → uint8_t) (i : Nat) (v : uint8_t) : Nat → uint8_t :=
  fun j => if j = i then v else data j

/-- `bufferReset(buffer, data, size)`. -/
def bufferReset (_buffer : cBuffer) (data : Nat → uint8_t) (size : Nat) : cBuffer :=
  { data := data, size := size, current := 0, length := 0 }

/-- `bufferPeek(buffer)`: the returned `int`. The buffer is not written. -/
def bufferPeek (buffer : cBuffer) : Int :=
  if buffer.length ≠ 0 then ((buffer.data buffer.current).val : Int) else -1

/-- `bufferGet(buffer)`: the returned `int` and the buffer afterwards. -/
def bufferGet (buffer : cBuffer) : Int × cBuffer :=
  if buffer.length ≠ 0 then
    let rtn : Int := ((buffer.data buffer.current).val : Int)
    let cur := (buffer.current + 1) % USHORT
    let cur := if cur ≥ buffer.size then (cur - buffer.size) % USHORT else cur
    (rtn, { buffer with current := cur, length := (buffer.length - 1) % USHORT })
  else
    (-1, buffer)

/-- `bufferPut(buffer, data)`: the returned `int` and the buffer afterwards.
The index `(current + length) % size` is computed in 16-bit unsigned arithmetic. -/
def bufferPut (buffer : cBuffer) (data : uint8_t) : Int × cBuffer :=
  if buffer.length < buffer.size then
    let idx := ((buffer.current + buffer.length) % USHORT) % buffer.size
    ((data.val : Int),
      { buffer with data := store buffer.data idx data,
                    length := (buffer.length + 1) % USHORT })
  else
    (-1, buffer)

/-- The loop of `bufferPutWait` with `attempts` tries left.  `env k` is what interrupt
handlers do to the buffer during the `k`-th call of `_delay_ms(5)`; `k` counts the delays
made so far.  Returns the result, the buffer and the number of delays made. -/
def bufferPutWaitLoop (env : Nat → cBuffer → cBuffer) :
    Nat → Nat → cBuffer → uint8_t → Int × cBuffer × Nat
  | 0, k, buffer, _ => (-1, buffer, k)
  | attempts + 1, k, buffer, data =>
    let r := bufferPut buffer data
    if r.1 < 0 then
      if attempts = 0 then (r.1, r.2, k)
      else bufferPutWaitLoop env attempts (k + 1) (env k r.2) data
    else (r.1, r.2, k)

/-- `bufferPutWait(buffer, data)` with `attempts = 50`. -/
def bufferPutWait (env : Nat → cBuffer → cBuffer) (buffer : cBuffer) (data : uint8_t) :
    Int × cBuffer × Nat :=
  bufferPutWaitLoop env 50 0 buffer data

/-- `bufferCapacity(buffer)`: `size - length` as an `unsigned short`. -/
def bufferCapacity (buffer : cBuffer) : Nat :=
  (buffer.size + USHORT - buffer.length % USHORT) % USHORT

/-- `bufferEmpty(buffer)`. -/
def bufferEmpty (buffer : cBuffer) : Nat :=
  if buffer.length ≠ 0 then 0 else 1

/-- `bufferFlush(buffer)`. -/
def bufferFlush (buffer : cBuffer) : cBuffer :=
  { buffer with length := 0 }

/-! ### The abstract view of a buffer -/

/-- The invariant of a ring buffer: a non-empty storage, `length ≤ size`, `current < size`,
all within the range of `unsigned short`. -/
def cBuffer.Inv (b : cBuffer) : Prop :=
  0 < b.size ∧ b.size < USHORT ∧ b.length ≤ b.size ∧ b.current < b.size

instance (b : cBuffer) : Decidable b.Inv := by
  unfold cBuffer.Inv; infer_instance

/-- The bytes held by a buffer, oldest first: the `length` bytes read from index `current`
onward, wrapping modulo `size`. -/
def cBuffer.contents (b : cBuffer) : List uint8_t :=
  (List.range b.length).map (fun i => b.data ((b.current + i) % b.size))

/-- The calls on a ring buffer. `putWait` runs with no interrupt handler touching the buffer. -/
inductive BufOp where
  | put (d : uint8_t)
  | get
  | peek
  | flush
  | putWait (d : uint8_t)

/-- The value returned by a call (`0` for the `void` call) and the buffer afterwards. -/
def BufOp.apply : BufOp → cBuffer → Int × cBuffer
  | .put d, b => bufferPut b d
  | .get, b => bufferGet b
  | .peek, b => (bufferPeek b, b)
  | .flush, b => (0, bufferFlush b)
  | .putWait d, b =>
    let r := bufferPutWait (fun _ x => x) b d
    (r.1, r.2.1)

/-- Running a sequence of calls: the returned values in order and the final buffer. -/
def runOps : List BufOp → cBuffer → List Int × cBuffer
  | [], b => ([], b)
  | op :: ops, b =>
    let r := op.apply b
    let rs := runOps ops r.2
    (r.1 :: rs.1, rs.2)

/-- The abstract bounded FIFO queue of the specification: a call on the list of queued
bytes, for a queue of capacity `cap`. -/
def BufOp.spec (cap : Nat) : BufOp → List uint8_t → Int × List uint8_t
  | .put d, q => if q.length < cap then ((d.val : Int), q ++ [d]) else (-1, q)
  | .get, q =>
    match q with
    | [] => (-1, [])
    | x :: t => ((x.val : Int), t)
  | .peek, q =>
    match q with
    | [] => (-1, [])
    | x :: t => ((x.val : Int), x :: t)
  | .flush, _ => (0, [])
  | .putWait d, q => if q.length < cap then ((d.val : Int), q ++ [d]) else (-1, q)

/-- Running a sequence of calls on the abstract queue. -/
def runSpec (cap : Nat) : List BufOp → List uint8_t → List Int × List uint8_t
  | [], q => ([], q)
  | op :: ops, q =>
    let r := op.spec cap q
    let rs := runSpec cap ops r.2
    (r.1 :: rs.1, rs.2)

/-! ## rf.h -/

def RF_CHANNEL_MIN : Nat := 1
def RF_CHANNEL_MAX : Nat := 16
def HW_FRAME_RX_SIZE : Nat := 128
def HW_FRAME_TX_SIZE : Nat := 127
def RF_TX_BUFFER_SIZE : Nat := HW_FRAME_TX_SIZE + 1
def RF_RX_BUFFER_SIZE : Nat := HW_FRAME_RX_SIZE * 2

/-! ### Names of the device header

`rf.h` takes these names from the device header `avr/io.h` (ATmega128RFA1), which is not a
file of the repository.  The header gives state and command codes as values and bit names
as bit numbers; `rf.h` shifts the bit names itself (`1 << SLPTR`, `1 << RX_END_EN`) and
repeats the codes in its own `STAT_` and `CMD_` definitions. -/

/-- State code `TRX_OFF` (`STAT_TRX_OFF 0x08`). -/
def TRX_OFF : Nat := 8
/-- State code `PLL_ON` (`STAT_PLL_ON 0x09`). -/
def PLL_ON : Nat := 9
/-- State code `RX_ON` (`STAT_RX_ON 0x06`). -/
def RX_ON : Nat := 6
/-- State code `SLEEP` (`STAT_SLEEP 0x0F`). -/
def SLEEP : Nat := 15
/-- State code `STATE_TRANSITION_IN_PROGRESS` (`0x1F`). -/
def STATE_TRANSITION_IN_PROGRESS : Nat := 31
/-- Command code `CMD_TX_START` (`0x02`). -/
def CMD_TX_START : Nat := 2
/-- Command code `CMD_FORCE_TRX_OFF` (`0x03`). -/
def CMD_FORCE_TRX_OFF : Nat := 3
/-- Bit number of `TRXRST` in `TRXPR`. -/
def TRXRST : Nat := 0
/-- Bit number of `SLPTR` in `TRXPR`. -/
def SLPTR : Nat := 1
/-- Bit number of `TX_AUTO_CRC_ON` in `TRX_CTRL_1` (`CTRL_TX_AUTO_CRC_ON 0x20`). -/
def TX_AUTO_CRC_ON : Nat := 5
/-- Bit number of `RX_START_EN` in `IRQ_MASK` (`INT_RX_START 0x04`). -/
def RX_START_EN : Nat := 2
/-- Bit number of `RX_END_EN` in `IRQ_MASK` (`INT_RX_END 0x08`). -/
def RX_END_EN : Nat := 3
/-- Bit number of `TX_END_EN` in `IRQ_MASK` (`INT_TX_END 0x40`). -/
def TX_END_EN : Nat := 6
/-- Bit number of `TX_PWR0` in `PHY_TX_PWR`. -/
def TX_PWR0 : Nat := 0
/-- Bit number of `TX_PWR1` in `PHY_TX_PWR`. -/
def TX_PWR1 : Nat := 1
/-- Bit number of `TX_PWR2` in `PHY_TX_PWR`. -/
def TX_PWR2 : Nat := 2
/-- Bit number of `TX_PWR3` in `PHY_TX_PWR`. -/
def TX_PWR3 : Nat := 3
/-- Bit number of `RX_CRC_VALID` in `PHY_RSSI`: the flag is the high bit, bit 7, above the
five signal-strength bits and the two random bits. -/
def RX_CRC_VALID : Nat := 7

/-- The `cBufferObj` structure. -/
structure cBufferObj where
  id : Nat
  rxBuffer : cBuffer
  txBuffer : cBuffer
  rxOverflow : Nat
  txIdle : Nat
  inited : Nat

/-- The state of the RF module: its static variables, the transceiver registers it writes,
and what the transceiver presents to it.  A register the module writes reads back the value
last written to it.

* `rfRxData` and `rfTxData` are the `data` arrays of the two buffers of `_rf_obj`: they are
  the only storage ever bound to them.
* `TRX_STATUS` is read-only and volatile: `TRX_STATUS n` is the value the `n`-th read from
  now will return.
* `TRXFB` is the hardware frame buffer, `TRXFB 0` being `TRXFBST`.
* `txFrames` records every frame put on air: the 128 bytes of the frame buffer at each
  pulse of `SLPTR`, most recent last. -/
structure RfState where
  _rf_obj : cBufferObj
  _rf_signal : uint8_t
  TRX_STATE : Nat
  TRX_STATUS : Nat → Nat
  TRXPR : Nat
  IRQ_MASK : Nat
  TRX_CTRL_1 : Nat
  PHY_CC_CCA : Nat
  PHY_TX_PWR : Nat
  PHY_RSSI : uint8_t
  TST_RX_LENGTH : uint8_t
  TRXFB : Nat → uint8_t
  txFrames : List (List uint8_t)

/-- Conversion of an `int` to `uint8_t`. -/
def toU8 (c : Int) : uint8_t := Fin.ofNat (c % 256).toNat

/-- Conversion of an `unsigned short` to the 16-bit `int`. -/
def toInt16 (n : Nat) : Int :=
  if n % USHORT < 32768 then ((n % USHORT : Nat) : Int) else ((n % USHORT : Nat) : Int) - 65536

/-- Bitwise complement of an `int` value, within 16 bits. -/
def bnot (x : Nat) : Nat := 65535 ^^^ (x % USHORT)

/-- One read of `TRX_STATUS`: the value read and the state afterwards. -/
def readStatus (s : RfState) : Nat × RfState :=
  (s.TRX_STATUS 0 % 256, { s with TRX_STATUS := fun n => s.TRX_STATUS (n + 1) })

/-- The drain loop of `RF_LOAD_FRAME`, `bp` being `&TRXFBST + 1`; at most `fuel` rounds.
Returns `length`, the transmit buffer and the frame buffer. -/
def RF_LOAD_FRAME_loop : Nat → Nat → cBuffer → (Nat → uint8_t) → Nat × cBuffer × (Nat → uint8_t)
  | 0, length, tx, fb => (length, tx, fb)
  | fuel + 1, length, tx, fb =>
    if length < HW_FRAME_TX_SIZE - 1 then
      let r := bufferGet tx
      if r.1 < 0 then (length, r.2, fb)
      else RF_LOAD_FRAME_loop fuel ((length + 1) % 256) r.2 (store fb (1 + length) (toU8 r.1))
    else (length, tx, fb)

/-- `RF_LOAD_FRAME()`.  `length` starts at 0 and grows by one each round, so
`HW_FRAME_TX_SIZE - 1` rounds are all the loop can make. -/
def RF_LOAD_FRAME (s : RfState) : RfState :=
  let r := RF_LOAD_FRAME_loop (HW_FRAME_TX_SIZE - 1) 0 s._rf_obj.txBuffer s.TRXFB
  let length := r.1
  let fb := store r.2.2 (1 + length) 0
  let length := (length + 1) % 256
  let fb := store fb 0 (toU8 (2 + (length : Int)))
  { s with _rf_obj := { s._rf_obj with txBuffer := r.2.1 }, TRXFB := fb }

/-- The wait `while (!(TRX_STATUS & PLL_ON));`, at most `fuel` reads. -/
def waitPllLock : Nat → RfState → Option RfState
  | 0, _ => none
  | fuel + 1, s =>
    let r := readStatus s
    if r.1 &&& PLL_ON ≠ 0 then some r.2 else waitPllLock fuel r.2

/-- `RF_TX_FRAME()`; `none` when the wait for the PLL outlasts `fuel` reads. -/
def RF_TX_FRAME (fuel : Nat) (s : RfState) : Option RfState :=
  let s := { s with TRX_STATE := ((s.TRX_STATE &&& 0xE0) ||| PLL_ON) % 256 }
  match waitPllLock fuel s with
  | none => none
  | some s =>
    let s := RF_LOAD_FRAME s
    let s := { s with TRX_STATE := (s.TRX_STATE ||| CMD_TX_START) % 256 }
    let s := { s with TRXPR := (s.TRXPR ||| (1 <<< SLPTR)) % 256,
                      txFrames := s.txFrames ++ [(List.range 128).map s.TRXFB] }
    let s := { s with TRXPR := (s.TRXPR &&& bnot (1 <<< SLPTR)) % 256 }
    some { s with TRX_STATE := ((s.TRX_STATE &&& 0xE0) ||| RX_ON) % 256 }

/-- `ISR(TRX24_TX_END_vect)`. -/
def TRX24_TX_END_vect (s : RfState) : RfState := s

/-- `ISR(TRX24_RX_START_vect)`. -/
def TRX24_RX_START_vect (s : RfState) : RfState :=
  { s with _rf_signal := s.PHY_RSSI }

/-- The copy loop of `ISR(TRX24_RX_END_vect)`: rounds `i, i + 1, ...` below `i + n`. -/
def rxEndLoop (frame : Nat → uint8_t) : Nat → Nat → cBufferObj → cBufferObj
  | 0, _, obj => obj
  | n + 1, i, obj =>
    let r := bufferPut obj.rxBuffer (frame i)
    let obj := { obj with rxBuffer := r.2 }
    let obj := if r.1 < 0 then { obj with rxOverflow := (obj.rxOverflow + 1) % USHORT } else obj
    rxEndLoop frame n (i + 1) obj

/-- `ISR(TRX24_RX_END_vect)`.  `frame` is the local scratch array after the `memcpy` of
`length` bytes from `&TRXFBST`; the loop bound `length - 2` is an `int`. -/
def TRX24_RX_END_vect (s : RfState) : RfState :=
  if s._rf_signal.val &&& RX_CRC_VALID ≠ 0 then
    let length := s.TST_RX_LENGTH
    let frame : Nat → uint8_t := fun i => if i < length.val then s.TRXFB i else 0
    let bound : Int := (length.val : Int) - 2
    { s with _rf_obj := rxEndLoop frame bound.toNat 0 s._rf_obj }
  else s

/-- `_rf_off_state()`: the returned `bool` and the state afterwards. -/
def _rf_off_state (s : RfState) : Bool × RfState :=
  let s := { s with TRX_STATE := ((s.TRX_STATE &&& 0xE0) ||| TRX_OFF) % 256 }
  let r := readStatus s
  if r.1 &&& 0x1F ≠ TRX_OFF then
    let s := r.2
    let s := { s with
      TRX_STATE := (s.TRX_STATE ||| ((s.TRX_STATE &&& 0xE0) ||| CMD_FORCE_TRX_OFF)) % 256 }
    let r := readStatus s
    if r.1 &&& 0x1F ≠ TRX_OFF then
      let s := r.2
      let s := { s with TRXPR := (s.TRXPR &&& bnot (1 <<< SLPTR)) % 256 }
      let r := readStatus s
      if r.1 &&& 0x1F ≠ TRX_OFF then (false, r.2) else (true, r.2)
    else (true, r.2)
  else (true, r.2)

/-- The wait `while (TRX_STATUS == STATE_TRANSITION_IN_PROGRESS) _delay_ms(1);`,
at most `fuel` reads. -/
def waitTransition : Nat → RfState → Option RfState
  | 0, _ => none
  | fuel + 1, s =>
    let r := readStatus s
    if r.1 = STATE_TRANSITION_IN_PROGRESS then waitTransition fuel r.2 else some r.2

/-- `rfInit(channel)`; `none` when the wait for the end of a state transition outlasts
`fuel` reads. -/
def rfInit (fuel : Nat) (s : RfState) (channel : uint8_t) : Option RfState :=
  let s := { s with _rf_obj := { s._rf_obj with inited := 0 } }
  let channel : Nat :=
    if channel.val < RF_CHANNEL_MIN ∨ channel.val > RF_CHANNEL_MAX then 1 else channel.val
  let physical_channel := (channel + 10) % 256
  let s := { s with _rf_obj := { s._rf_obj with
    rxBuffer := bufferReset s._rf_obj.rxBuffer s._rf_obj.rxBuffer.data RF_RX_BUFFER_SIZE } }
  let s := { s with _rf_obj := { s._rf_obj with
    txBuffer := bufferReset s._rf_obj.txBuffer s._rf_obj.txBuffer.data RF_TX_BUFFER_SIZE } }
  match waitTransition fuel s with
  | none => none
  | some s =>
    let r := readStatus s
    let s := r.2
    let s := if r.1 &&& 0x1F = SLEEP
      then { s with TRXPR := (s.TRXPR &&& bnot (1 <<< SLPTR)) % 256 } else s
    let s := { s with TRXPR := (s.TRXPR ||| (1 <<< TRXRST)) % 256 }
    let s := { s with IRQ_MASK := 0 }
    let r := _rf_off_state s
    if !r.1 then some r.2
    else
      let s := r.2
      let s := { s with TRX_CTRL_1 := (s.TRX_CTRL_1 ||| (1 <<< TX_AUTO_CRC_ON)) % 256 }
      let s := { s with
        IRQ_MASK := ((1 <<< RX_START_EN) ||| (1 <<< RX_END_EN) ||| (1 <<< TX_END_EN)) % 256 }
      let s := { s with PHY_CC_CCA := ((s.PHY_CC_CCA &&& 0xE0) ||| physical_channel) % 256 }
      let s := { s with
        PHY_TX_PWR := (s.PHY_TX_PWR &&& bnot (TX_PWR3 ||| TX_PWR2 ||| TX_PWR1 ||| TX_PWR0)) % 256 }
      let s := { s with TRX_STATE := ((s.TRX_STATE &&& 0xE0) ||| RX_ON) % 256 }
      some { s with _rf_obj := { s._rf_obj with rxOverflow := 0, txIdle := 1, inited := channel } }

/-- `rfTerm()`. -/
def rfTerm (s : RfState) : RfState :=
  if s._rf_obj.inited = 0 then s
  else
    let s := { s with _rf_obj := { s._rf_obj with inited := 0 } }
    let s := { s with _rf_obj := { s._rf_obj with rxOverflow := 0 } }
    let s := { s with _rf_obj := { s._rf_obj with txIdle := 1 } }
    let s := (_rf_off_state s).2
    let s := { s with TRXPR := (1 <<< SLPTR) % 256 }
    { s with IRQ_MASK := 0 }

/-- `rfInited()`. -/
def rfInited (s : RfState) : Nat := s._rf_obj.inited % 256

/-- `rfFlushReceiveBuffer()`. -/
def rfFlushReceiveBuffer (s : RfState) : RfState :=
  { s with _rf_obj := { s._rf_obj with
    rxBuffer := bufferFlush s._rf_obj.rxBuffer, rxOverflow := 0 } }

/-- `rfReceiveBufferOverflow()`: the `unsigned short` counter returned as `uint8_t`. -/
def rfReceiveBufferOverflow (s : RfState) : Nat := s._rf_obj.rxOverflow % 256

/-- `rfAvailable()`. -/
def rfAvailable (s : RfState) : Int :=
  if s._rf_obj.inited = 0 then -1 else toInt16 s._rf_obj.rxBuffer.length

/-- `rfGetByte()`: the returned `int` and the state afterwards. -/
def rfGetByte (s : RfState) : Int × RfState :=
  if s._rf_obj.inited = 0 then (-1, s)
  else
    let r := bufferGet s._rf_obj.rxBuffer
    (r.1, { s with _rf_obj := { s._rf_obj with rxBuffer := r.2 } })

/-- The copy loop of `rfGetBuffer`: rounds `i, i + 1, ...` below `i + n`. -/
def rfGetBuffer_loop : Nat → Nat → cBuffer → (Nat → uint8_t) → cBuffer × (Nat → uint8_t)
  | 0, _, rx, data => (rx, data)
  | n + 1, i, rx, data =>
    let r := bufferGet rx
    rfGetBuffer_loop n (i + 1) r.2 (store data i (toU8 r.1))

/-- `rfGetBuffer(data, maxlen)`: the returned `int`, the state and the array `data`
afterwards. -/
def rfGetBuffer (s : RfState) (data : Nat → uint8_t) (maxlen : uint8_t) :
    Int × RfState × (Nat → uint8_t) :=
  if s._rf_obj.inited = 0 then (-1, s, data)
  else
    let data : Nat → uint8_t := fun i => if i < maxlen.val then 0 else data i
    let avail := rfAvailable s
    let avail := if avail > (maxlen.val : Int) then (maxlen.val : Int) else avail
    let r := rfGetBuffer_loop avail.toNat 0 s._rf_obj.rxBuffer data
    (avail, { s with _rf_obj := { s._rf_obj with rxBuffer := r.1 } }, r.2)

/-- `rfTransmitNow()`. -/
def rfTransmitNow (fuel : Nat) (s : RfState) : Option RfState :=
  if s._rf_obj.inited = 0 then some s else RF_TX_FRAME fuel s

/-- `rfPutByte(txData)`: the returned `int` and the state afterwards. -/
def rfPutByte (fuel : Nat) (s : RfState) (txData : uint8_t) : Option (Int × RfState) :=
  if s._rf_obj.inited = 0 then some (-1, s)
  else
    let r := bufferPut s._rf_obj.txBuffer txData
    let s := { s with _rf_obj := { s._rf_obj with txBuffer := r.2 } }
    if s._rf_obj.txBuffer.length ≥ HW_FRAME_TX_SIZE then
      (RF_TX_FRAME fuel s).map (fun s => (r.1, s))
    else some (r.1, s)

/-- The loop of `rfPutBuffer` with the `uint8_t` counter `i`: rounds `i, i + 1, ...`
below `i + n`. -/
def rfPutBuffer_loop (data : Nat → uint8_t) : Nat → Nat → cBuffer → cBuffer
  | 0, _, tx => tx
  | n + 1, i, tx => rfPutBuffer_loop data n (i + 1) (bufferPut tx (data i)).2

/-- `rfPutBuffer(data, len)`: the returned `int`, the state and the array `data`
afterwards (the function stores nothing through `data`). -/
def rfPutBuffer (fuel : Nat) (s : RfState) (data : Nat → uint8_t) (len : uint8_t) :
    Option (Int × RfState × (Nat → uint8_t)) :=
  if s._rf_obj.inited = 0 then some (-1, s, data)
  else
    let tx := rfPutBuffer_loop data len.val 0 s._rf_obj.txBuffer
    let s := { s with _rf_obj := { s._rf_obj with txBuffer := tx } }
    if s._rf_obj.txBuffer.length ≥ HW_FRAME_TX_SIZE then
      (RF_TX_FRAME fuel s).map (fun s => ((len.val : Int), s, data))
    else some ((len.val : Int), s, data)

/-- The length `strlen(data)` of the NUL-terminated string in `data`, given that a NUL
lies within the first `fuel` bytes. -/
def strlen (data : Nat → uint8_t) : Nat → Nat → Nat
  | 0, i => i
  | fuel + 1, i => if data i = 0 then i else strlen data fuel (i + 1)

/-- `rfPutString(data)`: `n` bounds the position of the terminating NUL. -/
def rfPutString (fuel : Nat) (s : RfState) (data : Nat → uint8_t) (n : Nat) :
    Option (Int × RfState) :=
  if s._rf_obj.inited = 0 then some (-1, s)
  else
    let len : uint8_t := Fin.ofNat (strlen data n 0)
    match rfPutBuffer fuel s data len with
    | none => none
    | some r =>
      match rfTransmitNow fuel r.2.1 with
      | none => none
      | some s => some (r.1, s)

/-! ### Well-formed states and runs of calls -/

/-- The buffers of an initialised radio instance: `rfInit` binds the receive buffer to the
256 bytes of `rfRxData` and the transmit buffer to the 128 bytes of `rfTxData`, and no
other function changes a binding or a size. -/
def RfState.Wf (s : RfState) : Prop :=
  s._rf_obj.rxBuffer.Inv ∧ s._rf_obj.rxBuffer.size = RF_RX_BUFFER_SIZE ∧
    s._rf_obj.txBuffer.Inv ∧ s._rf_obj.txBuffer.size = RF_TX_BUFFER_SIZE

instance (s : RfState) : Decidable s.Wf := by
  unfold RfState.Wf; infer_instance

/-- Successive calls `rfPutByte(b)` for the bytes of a list: the returned values and the
final state. -/
def rfPutBytes (fuel : Nat) : RfState → List uint8_t → Option (List Int × RfState)
  | s, [] => some ([], s)
  | s, b :: bs =>
    match rfPutByte fuel s b with
    | none => none
    | some r =>
      match rfPutBytes fuel r.2 bs with
      | none => none
      | some rs => some (r.1 :: rs.1, rs.2)

/-- The values returned by `n` successive calls of `rfGetByte()` and the final state. -/
def rfGetBytes : Nat → RfState → List Int × RfState
  | 0, s => ([], s)
  | n + 1, s =>
    let r := rfGetByte s
    let rs := rfGetBytes n r.2
    (r.1 :: rs.1, rs.2)

/-! ### Concrete states -/

/-- A buffer of 65535 bytes holding the two bytes 1, 2 at indices 65534 and 0. -/
def wrapBuffer : cBuffer :=
  { data := fun i => if i = 65534 then 1 else if i = 0 then 2 else 0,
    size := 65535, length := 2, current := 65534 }

/-- An empty buffer of 65535 bytes that starts at index 65534. -/
def wrapEmpty : cBuffer :=
  { data := fun _ => 0, size := 65535, length := 0, current := 65534 }

/-- An empty buffer of four bytes that starts at its last index. -/
def smallBuffer : cBuffer :=
  { data := fun _ => 0, size := 4, length := 0, current := 3 }

/-- A full buffer of two bytes. -/
def fullBuffer : cBuffer :=
  { data := fun i => if i = 0 then 7 else 8, size := 2, length := 2, current := 1 }

/-- An active radio instance on channel 1 with both buffers empty, a transceiver whose
status always reads `PLL_ON`, and a cleared frame buffer. -/
def idleRadio : RfState :=
  { _rf_obj :=
      { id := 0,
        rxBuffer := { data := fun _ => 0, size := 256, length := 0, current := 0 },
        txBuffer := { data := fun _ => 0, size := 128, length := 0, current := 0 },
        rxOverflow := 0, txIdle := 1, inited := 1 },
    _rf_signal := 0,
    TRX_STATE := 6, TRX_STATUS := fun _ => 9, TRXPR := 0, IRQ_MASK := 76,
    TRX_CTRL_1 := 32, PHY_CC_CCA := 11, PHY_TX_PWR := 0, PHY_RSSI := 0,
    TST_RX_LENGTH := 0, TRXFB := fun _ => 0, txFrames := [] }

/-- The idle radio when a frame of reported length 5 has arrived: payload `A`, `B`, `C`, then
the two trailer bytes; the captured signal byte has the CRC-valid bit and strength 10. -/
def validFrame : RfState :=
  { idleRadio with
    _rf_signal := 0x8A, TST_RX_LENGTH := 5,
    TRXFB := fun i => if i = 0 then 0x41 else if i = 1 then 0x42 else if i = 2 then 0x43
      else if i = 3 then 0xF0 else 0x01 }

/-- The same frame arriving with the CRC-valid bit clear: the captured signal byte is `0x0A`,
strength 10. -/
def invalidFrame : RfState :=
  { validFrame with _rf_signal := 0x0A }

/-- The frame of `validFrame` arriving while the receive buffer is full and `rxOverflow`
stands at 65534. -/
def fullRxFrame : RfState :=
  { validFrame with
    _rf_obj := { validFrame._rf_obj with
      rxBuffer := { data := fun _ => 0x20, size := 256, length := 256, current := 5 },
      rxOverflow := 65534 } }

/-- An active radio whose receive buffer holds `A`, `B`, `C` across the end of its
storage. -/
def threeBytes : RfState :=
  { idleRadio with
    _rf_obj := { idleRadio._rf_obj with
      rxBuffer :=
        { data := fun i => if i = 254 then 0x41 else if i = 255 then 0x42
            else if i = 0 then 0x43 else 0x99,
          size := 256, length := 3, current := 254 } } }

/-- The radio of `threeBytes` with `inited` cleared. -/
def offRadio : RfState :=
  { threeBytes with _rf_obj := { threeBytes._rf_obj with inited := 0 } }

/-- The radio of `fullRxFrame` (256 bytes received, `rxOverflow` at 65534) with a
transceiver whose status always reads 0, so that it never reports `TRX_OFF`. -/
def stuckRadio : RfState :=
  { fullRxFrame with TRX_STATUS := fun _ => 0 }

/-! ### The parts of `rfInit` -/

/-- The channel `rfInit` works with: `channel` when it lies in
`RF_CHANNEL_MIN .. RF_CHANNEL_MAX`, otherwise 1. -/
def rfInit_channel (channel : uint8_t) : Nat :=
  if channel.val < RF_CHANNEL_MIN ∨ channel.val > RF_CHANNEL_MAX then 1 else channel.val

/-- The first statements of `rfInit`, up to the wait for the end of a state transition:
`inited` is cleared and both buffers are reset. -/
def rfInit_reset (s : RfState) : RfState :=
  let s := { s with _rf_obj := { s._rf_obj with inited := 0 } }
  let s := { s with _rf_obj := { s._rf_obj with
    rxBuffer := bufferReset s._rf_obj.rxBuffer s._rf_obj.rxBuffer.data RF_RX_BUFFER_SIZE } }
  { s with _rf_obj := { s._rf_obj with
    txBuffer := bufferReset s._rf_obj.txBuffer s._rf_obj.txBuffer.data RF_TX_BUFFER_SIZE } }

/-- The statements of `rfInit` between the wait and the call of `_rf_off_state`: the wake
from `SLEEP`, the reset pulse and the clearing of `IRQ_MASK`. -/
def rfInit_wake (s : RfState) : RfState :=
  let r := readStatus s
  let s := r.2
  let s := if r.1 &&& 0x1F = SLEEP
    then { s with TRXPR := (s.TRXPR &&& bnot (1 <<< SLPTR)) % 256 } else s
  let s := { s with TRXPR := (s.TRXPR ||| (1 <<< TRXRST)) % 256 }
  { s with IRQ_MASK := 0 }

/-- The statements of `rfInit` after a successful `_rf_off_state`, for the channel
`channel` already brought into range. -/
def rfInit_finish (channel : Nat) (s : RfState) : RfState :=
  let physical_channel := (channel + 10) % 256
  let s := { s with TRX_CTRL_1 := (s.TRX_CTRL_1 ||| (1 <<< TX_AUTO_CRC_ON)) % 256 }
  let s := { s with
    IRQ_MASK := ((1 <<< RX_START_EN) ||| (1 <<< RX_END_EN) ||| (1 <<< TX_END_EN)) % 256 }
  let s := { s with PHY_CC_CCA := ((s.PHY_CC_CCA &&& 0xE0) ||| physical_channel) % 256 }
  let s := { s with
    PHY_TX_PWR := (s.PHY_TX_PWR &&& bnot (TX_PWR3 ||| TX_PWR2 ||| TX_PWR1 ||| TX_PWR0)) % 256 }
  let s := { s with TRX_STATE := ((s.TRX_STATE &&& 0xE0) ||| RX_ON) % 256 }
  { s with _rf_obj := { s._rf_obj with rxOverflow := 0, txIdle := 1, inited := channel } }

/-- An inactive radio with three stale received bytes, `rxOverflow` at 7 and the channel
register at `0x6B`, whose transceiver reads `STATE_TRANSITION_IN_PROGRESS` once and
`TRX_OFF` from then on. -/
def readyRadio : RfState :=
  { offRadio with
    _rf_obj := { offRadio._rf_obj with rxOverflow := 7, txIdle := 0 },
    TRX_STATUS := fun n => if n = 0 then 31 else 8,
    PHY_CC_CCA := 0x6B, IRQ_MASK := 0 }

/-! ### The parts of `RF_TX_FRAME` -/

/-- The statements of `RF_TX_FRAME` after the wait for the PLL: the frame is loaded, the
transmission is started by the pulse on `SLPTR`, and the transceiver is set back to
`RX_ON`. -/
def RF_TX_FRAME_send (s : RfState) : RfState :=
  let s := RF_LOAD_FRAME s
  let s := { s with TRX_STATE := (s.TRX_STATE ||| CMD_TX_START) % 256 }
  let s := { s with TRXPR := (s.TRXPR ||| (1 <<< SLPTR)) % 256,
                    txFrames := s.txFrames ++ [(List.range 128).map s.TRXFB] }
  let s := { s with TRXPR := (s.TRXPR &&& bnot (1 <<< SLPTR)) % 256 }
  { s with TRX_STATE := ((s.TRX_STATE &&& 0xE0) ||| RX_ON) % 256 }

/-- The radio state with the bytes of `xs` pushed, by `bufferPut`, onto the transmit
buffer. -/
def pushed (s : RfState) (xs : List uint8_t) : RfState :=
  { s with _rf_obj := { s._rf_obj with
      txBuffer := (runOps (xs.map BufOp.put) s._rf_obj.txBuffer).2 } }

/-- A string of 256 letters `A` followed by NULs. -/
def longString : Nat → uint8_t :=
  fun i => if i < 256 then 0x41 else 0

/-! ### States and environments for the later theorems -/

/-- The frame of `validFrame` (three payload bytes) arriving while the receive buffer is
full and `rxOverflow` stands at 253. -/
def droppedFrame : RfState :=
  { fullRxFrame with _rf_obj := { fullRxFrame._rf_obj with rxOverflow := 253 } }

/-- The frame of `validFrame` reported with length 1, into a radio that holds `A`, `B`, `C`
and has counted 7 dropped bytes. -/
def shortFrame : RfState :=
  { validFrame with
    _rf_obj := { threeBytes._rf_obj with rxOverflow := 7 },
    TST_RX_LENGTH := 1 }

/-- The frame of `validFrame` arriving with the signal byte `0x88`: the CRC-valid bit is
set, the signal strength is 8 and the three low bits are 0. -/
def flaggedFrame : RfState :=
  { validFrame with _rf_signal := 0x88 }

/-- The frame of `flaggedFrame` arriving while the receive buffer is full and `rxOverflow`
stands at 65534. -/
def flaggedFullFrame : RfState :=
  { fullRxFrame with _rf_signal := 0x88 }

/-- The frame of `shortFrame` arriving with the signal byte `0x88`. -/
def flaggedShortFrame : RfState :=
  { shortFrame with _rf_signal := 0x88 }

/-- The buffer met by the attempt of `bufferPutWait` that follows `j` delays, the delays
being numbered from `k`: what the interrupt handlers `env k`, ..., `env (k + j - 1)` make
of `b`. -/
def bufferAfterDelays (env : Nat → cBuffer → cBuffer) : Nat → Nat → cBuffer → cBuffer
  | _, 0, b => b
  | k, j + 1, b => bufferAfterDelays env (k + 1) j (env k b)

/-- An interrupt handler that takes one byte out of the buffer during the delay numbered
2, the third, and does nothing during the others. -/
def drainAtThird : Nat → cBuffer → cBuffer :=
  fun k b => if k = 2 then (bufferGet b).2 else b

/-- An active radio whose transmit buffer is full: 128 bytes, byte `i` of the storage being
`i`, the oldest at index 100. -/
def fullTx : RfState :=
  { idleRadio with
    _rf_obj := { idleRadio._rf_obj with
      txBuffer := { data := fun i => Fin.ofNat i, size := 128, length := 128, current := 100 } } }

/-! ### Runs of calls on the radio -/

/-- The calls of the public interface made on a running radio, and the interrupts.  An
interrupt comes with what the transceiver has put in its registers: `rxStart` with the
value of `PHY_RSSI`, `rxEnd` with `TST_RX_LENGTH` and the frame buffer. -/
inductive RfCall where
  | putByte (txData : uint8_t)
  | putBuffer (data : Nat → uint8_t) (len : uint8_t)
  | putString (data : Nat → uint8_t) (n : Nat)
  | transmitNow
  | available
  | getByte
  | getBuffer (data : Nat → uint8_t) (maxlen : uint8_t)
  | flushReceiveBuffer
  | receiveBufferOverflow
  | inited
  | rxStart (rssi : uint8_t)
  | rxEnd (length : uint8_t) (frame : Nat → uint8_t)
  | txEnd

/-- The state after a call or an interrupt; `none` when a wait for the PLL outlasts `fuel`
reads. -/
def RfCall.apply (fuel : Nat) : RfCall → RfState → Option RfState
  | .putByte txData, s => (rfPutByte fuel s txData).map (fun r => r.2)
  | .putBuffer data len, s => (rfPutBuffer fuel s data len).map (fun r => r.2.1)
  | .putString data n, s => (rfPutString fuel s data n).map (fun r => r.2)
  | .transmitNow, s => rfTransmitNow fuel s
  | .available, s => some s
  | .getByte, s => some (rfGetByte s).2
  | .getBuffer data maxlen, s => some (rfGetBuffer s data maxlen).2.1
  | .flushReceiveBuffer, s => some (rfFlushReceiveBuffer s)
  | .receiveBufferOverflow, s => some s
  | .inited, s => some s
  | .rxStart rssi, s => some (TRX24_RX_START_vect { s with PHY_RSSI := rssi })
  | .rxEnd length frame, s =>
    some (TRX24_RX_END_vect { s with TST_RX_LENGTH := length, TRXFB := frame })
  | .txEnd, s => some (TRX24_TX_END_vect s)

/-- A sequence of calls and interrupts, one after the other. -/
def runCalls (fuel : Nat) : List RfCall → RfState → Option RfState
  | [], s => some s
  | c :: cs, s =>
    match c.apply fuel s with
    | none => none
    | some t => runCalls fuel cs t

/-- The transceiver keeps locking its PLL: from every read of `TRX_STATUS` on, one of the
next `fuel` reads has a bit of `PLL_ON` set. -/
def pllLocks (fuel : Nat) (s : RfState) : Prop :=
  ∀ k, ∃ m, m < fuel ∧ (s.TRX_STATUS (k + m) % 256) &&& PLL_ON ≠ 0

/-- The radio of `readyRadio` after `rfInit(3)`, which succeeds there. -/
def startedRadio : RfState :=
  (rfInit 2 readyRadio 3).getD readyRadio

/-! # Theorems -/

/-! ## Ring buffer -/


theorem contents_length (b : cBuffer) : b.contents.length = b.length := by
  simp [cBuffer.contents]

theorem bufferPut_full (b : cBuffer) (d : uint8_t) (h : ¬ b.length < b.size) :
    bufferPut b d = (-1, b) := by
  simp [bufferPut, h]

theorem bufferPut_room (b : cBuffer) (d : uint8_t) (h : b.length < b.size) :
    bufferPut b d = ((d.val : Int),
      { b with data := store b.data (((b.current + b.length) % USHORT) % b.size) d,
               length := (b.length + 1) % USHORT }) := by
  simp [bufferPut, h]

theorem bufferPut_inv (b : cBuffer) (d : uint8_t) (h : b.Inv) : (bufferPut b d).2.Inv := by
  obtain ⟨h1, h2, h3, h4⟩ := h
  by_cases hl : b.length < b.size
  · rw [bufferPut_room b d hl]
    have : (b.length + 1) % USHORT = b.length + 1 := Nat.mod_eq_of_lt (by omega)
    refine ⟨h1, h2, ?_, h4⟩
    simp only [this]; omega
  · rw [bufferPut_full b d hl]; exact ⟨h1, h2, h3, h4⟩

theorem contents_put (b : cBuffer) (d : uint8_t) (h : b.Inv) (hs : b.size ≤ 32768)
    (hl : b.length < b.size) : (bufferPut b d).2.contents = b.contents ++ [d] := by
  obtain ⟨h1, h2, h3, h4⟩ := h
  rw [bufferPut_room b d hl]
  have e1 : (b.length + 1) % USHORT = b.length + 1 := Nat.mod_eq_of_lt (by omega)
  have e2 : (b.current + b.length) % USHORT = b.current + b.length :=
    Nat.mod_eq_of_lt (by unfold USHORT; omega)
  simp only [cBuffer.contents, e1, e2, List.range_succ, List.map_append, List.map_cons,
    List.map_nil]
  clear e1 e2
  congr 1
  · apply List.map_congr_left
    intro i hi
    have hi : i < b.length := List.mem_range.mp hi
    have hne : (b.current + i) % b.size ≠ (b.current + b.length) % b.size := by
      intro heq
      have h5 : (b.current + i) % b.size = (b.current + i) ∨
          (b.size ≤ b.current + i ∧ (b.current + i) % b.size = b.current + i - b.size) := by
        rcases Nat.lt_or_ge (b.current + i) b.size with h | h
        · left; exact Nat.mod_eq_of_lt h
        · right; rw [Nat.mod_eq_sub_mod h]; exact ⟨h, Nat.mod_eq_of_lt (by omega)⟩
      have h6 : (b.current + b.length) % b.size = (b.current + b.length) ∨
          (b.size ≤ b.current + b.length ∧
            (b.current + b.length) % b.size = b.current + b.length - b.size) := by
        rcases Nat.lt_or_ge (b.current + b.length) b.size with h | h
        · left; exact Nat.mod_eq_of_lt h
        · right; rw [Nat.mod_eq_sub_mod h]; exact ⟨h, Nat.mod_eq_of_lt (by omega)⟩
      have h7 := Nat.mod_lt (b.current + i) h1
      have h8 := Nat.mod_lt (b.current + b.length) h1
      omega
    simp [store, hne]
  · simp [store]

theorem bufferGet_empty (b : cBuffer) (h : b.length = 0) : bufferGet b = (-1, b) := by
  simp [bufferGet, h]

theorem bufferGet_some (b : cBuffer) (h : b.Inv) (hl : b.length ≠ 0) :
    bufferGet b = (((b.data b.current).val : Int),
      { b with current := (b.current + 1) % b.size, length := b.length - 1 }) := by
  obtain ⟨h1, h2, h3, h4⟩ := h
  have e1 : (b.current + 1) % USHORT = b.current + 1 := Nat.mod_eq_of_lt (by omega)
  have e2 : (b.length - 1) % USHORT = b.length - 1 := Nat.mod_eq_of_lt (by omega)
  simp only [bufferGet, hl, ne_eq, not_false_eq_true, if_true, e1, e2]
  by_cases hc : b.current + 1 ≥ b.size
  · have : b.current + 1 = b.size := by omega
    simp [this, USHORT]
  · have hlt : b.current + 1 < b.size := by omega
    simp [hc, Nat.mod_eq_of_lt hlt]

theorem bufferGet_inv (b : cBuffer) (h : b.Inv) : (bufferGet b).2.Inv := by
  by_cases hl : b.length = 0
  · rw [bufferGet_empty b hl]; exact h
  · rw [bufferGet_some b h hl]
    obtain ⟨h1, h2, h3, h4⟩ := h
    exact ⟨h1, h2, by simp only; omega, Nat.mod_lt _ h1⟩

theorem contents_get (b : cBuffer) (h : b.Inv) (hl : b.length ≠ 0) :
    b.contents = b.data b.current :: (bufferGet b).2.contents := by
  rw [bufferGet_some b h hl]
  obtain ⟨h1, h2, h3, h4⟩ := h
  obtain ⟨n, hn⟩ : ∃ n, b.length = n + 1 := ⟨b.length - 1, by omega⟩
  clear h2
  simp only [cBuffer.contents, hn, List.range_succ_eq_map, List.map_cons, List.map_map,
    Nat.add_zero, Nat.mod_eq_of_lt h4, Nat.add_sub_cancel]
  congr 1
  apply List.map_congr_left
  intro i _
  simp only [Function.comp, Nat.succ_eq_add_one]
  rw [Nat.mod_add_mod, Nat.add_assoc, Nat.add_comm 1 i]


theorem contents_eq_nil (b : cBuffer) (h : b.length = 0) : b.contents = [] := by
  simp [cBuffer.contents, h]

theorem bufferPeek_eq (b : cBuffer) (h : b.Inv) :
    bufferPeek b = (BufOp.spec b.size BufOp.peek b.contents).1 ∧
      b.contents = (BufOp.spec b.size BufOp.peek b.contents).2 := by
  by_cases hl : b.length = 0
  · simp [bufferPeek, hl, contents_eq_nil b hl, BufOp.spec]
  · rw [contents_get b h hl]
    simp [bufferPeek, hl, BufOp.spec]

theorem putWaitLoop_seq (n : Nat) (k : Nat) (b : cBuffer) (d : uint8_t) :
    (bufferPutWaitLoop (fun _ x => x) (n + 1) k b d).1 = (bufferPut b d).1 ∧
      (bufferPutWaitLoop (fun _ x => x) (n + 1) k b d).2.1 = (bufferPut b d).2 := by
  induction n generalizing k with
  | zero =>
    simp only [bufferPutWaitLoop]
    split <;> simp
  | succ n ih =>
    rw [bufferPutWaitLoop]
    by_cases hl : b.length < b.size
    · have hr := bufferPut_room b d hl
      have hneg : ¬ ((bufferPut b d).1 < 0) := by
        rw [hr]; simp
      simp only [hneg, if_false, and_self]
    · have hr := bufferPut_full b d hl
      have hneg : (bufferPut b d).1 < 0 := by rw [hr]; show (-1 : Int) < 0; decide
      simp only [hneg, if_true, Nat.succ_ne_zero, if_false, Nat.add_one_ne_zero]
      have := ih (k + 1)
      rw [hr] at this ⊢
      exact this

/-- One call on the buffer is one call on the abstract queue. -/
theorem step_sim (op : BufOp) (b : cBuffer) (h : b.Inv) (hs : b.size ≤ 32768) :
    (op.apply b).1 = (op.spec b.size b.contents).1 ∧
      (op.apply b).2.contents = (op.spec b.size b.contents).2 ∧
      (op.apply b).2.Inv ∧ (op.apply b).2.size = b.size := by
  have hput : ∀ d, (bufferPut b d).1 = (BufOp.spec b.size (BufOp.put d) b.contents).1 ∧
      (bufferPut b d).2.contents = (BufOp.spec b.size (BufOp.put d) b.contents).2 ∧
      (bufferPut b d).2.Inv ∧ (bufferPut b d).2.size = b.size := by
    intro d
    refine ⟨?_, ?_, bufferPut_inv b d h, ?_⟩
    · by_cases hl : b.length < b.size
      · simp [BufOp.spec, contents_length, hl, bufferPut_room b d hl]
      · simp [BufOp.spec, contents_length, hl, bufferPut_full b d hl]
    · by_cases hl : b.length < b.size
      · rw [contents_put b d h hs hl]; simp [BufOp.spec, contents_length, hl]
      · simp [BufOp.spec, contents_length, hl, bufferPut_full b d hl]
    · by_cases hl : b.length < b.size
      · simp [bufferPut_room b d hl]
      · simp [bufferPut_full b d hl]
  cases op with
  | put d => exact hput d
  | get =>
    simp only [BufOp.apply]
    by_cases hl : b.length = 0
    · rw [bufferGet_empty b hl]
      simp [BufOp.spec, contents_eq_nil b hl, h]
    · have hc := contents_get b h hl
      have hi := bufferGet_inv b h
      rw [hc]
      rw [bufferGet_some b h hl] at hi ⊢
      simp only [BufOp.spec, true_and]
      exact ⟨hi, trivial⟩
  | peek =>
    have hp := bufferPeek_eq b h
    simp only [BufOp.apply]
    exact ⟨hp.1, hp.2, h, trivial⟩
  | flush =>
    refine ⟨rfl, contents_eq_nil _ rfl, ⟨h.1, h.2.1, Nat.zero_le _, h.2.2.2⟩, rfl⟩
  | putWait d =>
    have hw := putWaitLoop_seq 49 0 b d
    simp only [BufOp.apply, bufferPutWait]
    rw [hw.1, hw.2]
    exact hput d

/-- A sequence of calls on the buffer is the same sequence on the abstract queue. -/
theorem run_sim (ops : List BufOp) (b : cBuffer) (h : b.Inv) (hs : b.size ≤ 32768) :
    (runOps ops b).1 = (runSpec b.size ops b.contents).1 ∧
      (runOps ops b).2.contents = (runSpec b.size ops b.contents).2 ∧
      (runOps ops b).2.Inv ∧ (runOps ops b).2.size = b.size := by
  induction ops generalizing b with
  | nil => exact ⟨rfl, rfl, h, rfl⟩
  | cons op ops ih =>
    obtain ⟨s1, s2, s3, s4⟩ := step_sim op b h hs
    obtain ⟨r1, r2, r3, r4⟩ := ih (op.apply b).2 s3 (by rw [s4]; exact hs)
    simp only [runOps, runSpec]
    rw [s4, s2] at r1 r2
    exact ⟨by rw [s1, r1], r2, r3, by rw [r4, s4]⟩

theorem runOps_append (o1 o2 : List BufOp) (b : cBuffer) :
    runOps (o1 ++ o2) b =
      ((runOps o1 b).1 ++ (runOps o2 (runOps o1 b).2).1, (runOps o2 (runOps o1 b).2).2) := by
  induction o1 generalizing b with
  | nil => simp [runOps]
  | cons op o1 ih => simp [runOps, ih]

theorem runSpec_append (cap : Nat) (o1 o2 : List BufOp) (q : List uint8_t) :
    runSpec cap (o1 ++ o2) q =
      ((runSpec cap o1 q).1 ++ (runSpec cap o2 (runSpec cap o1 q).2).1,
        (runSpec cap o2 (runSpec cap o1 q).2).2) := by
  induction o1 generalizing q with
  | nil => simp [runSpec]
  | cons op o1 ih => simp [runSpec, ih]

theorem runSpec_puts (cap : Nat) (bs q : List uint8_t) (h : q.length + bs.length ≤ cap) :
    runSpec cap (bs.map BufOp.put) q = (bs.map (fun x => (x.val : Int)), q ++ bs) := by
  induction bs generalizing q with
  | nil => simp [runSpec]
  | cons x bs ih =>
    have hq : q.length < cap := by simp only [List.length_cons] at h; omega
    have := ih (q ++ [x]) (by simp only [List.length_append, List.length_cons,
      List.length_nil] at h ⊢; omega)
    simp [runSpec, BufOp.spec, hq, this]

theorem runSpec_gets (cap : Nat) (q : List uint8_t) :
    runSpec cap (List.replicate q.length BufOp.get) q = (q.map (fun x => (x.val : Int)), []) := by
  induction q with
  | nil => simp [runSpec]
  | cons x q ih => simp [runSpec, BufOp.spec, List.replicate_succ, ih]

/-- A call keeps the invariant and the size, and writes no byte at or beyond index `size`. -/
theorem step_inv (op : BufOp) (b : cBuffer) (h : b.Inv) :
    (op.apply b).2.Inv ∧ (op.apply b).2.size = b.size ∧
      ∀ i, b.size ≤ i → (op.apply b).2.data i = b.data i := by
  have hput : ∀ d, (bufferPut b d).2.Inv ∧ (bufferPut b d).2.size = b.size ∧
      ∀ i, b.size ≤ i → (bufferPut b d).2.data i = b.data i := by
    intro d
    refine ⟨bufferPut_inv b d h, ?_, ?_⟩
    · by_cases hl : b.length < b.size
      · simp [bufferPut_room b d hl]
      · simp [bufferPut_full b d hl]
    · intro i hi
      by_cases hl : b.length < b.size
      · have hlt := Nat.mod_lt ((b.current + b.length) % USHORT) h.1
        have hne : i ≠ (b.current + b.length) % USHORT % b.size := by omega
        simp [bufferPut_room b d hl, store, hne]
      · simp [bufferPut_full b d hl]
  cases op with
  | put d => exact hput d
  | get =>
    refine ⟨bufferGet_inv b h, ?_, ?_⟩
    · by_cases hl : b.length = 0
      · simp [BufOp.apply, bufferGet_empty b hl]
      · simp [BufOp.apply, bufferGet_some b h hl]
    · intro i _
      by_cases hl : b.length = 0
      · simp [BufOp.apply, bufferGet_empty b hl]
      · simp [BufOp.apply, bufferGet_some b h hl]
  | peek => exact ⟨h, rfl, fun _ _ => rfl⟩
  | flush => exact ⟨⟨h.1, h.2.1, Nat.zero_le _, h.2.2.2⟩, rfl, fun _ _ => rfl⟩
  | putWait d =>
    have hw := putWaitLoop_seq 49 0 b d
    simp only [BufOp.apply, bufferPutWait]
    rw [hw.2]
    exact hput d

theorem run_inv (ops : List BufOp) (b : cBuffer) (h : b.Inv) :
    (runOps ops b).2.Inv ∧ (runOps ops b).2.size = b.size ∧
      ∀ i, b.size ≤ i → (runOps ops b).2.data i = b.data i := by
  induction ops generalizing b with
  | nil => exact ⟨h, rfl, fun _ _ => rfl⟩
  | cons op ops ih =>
    obtain ⟨s1, s2, s3⟩ := step_inv op b h
    obtain ⟨r1, r2, r3⟩ := ih (op.apply b).2 s1
    simp only [runOps]
    refine ⟨r1, by rw [r2, s2], ?_⟩
    intro i hi
    rw [r3 i (by rw [s2]; exact hi), s3 i hi]

/-- C1, as amended: for a buffer state with `0 < size ≤ 32768`, `length ≤ size` and
`current < size`, read as the list of its `length` bytes from index `current` onward modulo
`size`: `bufferPut` on a non-full buffer returns the byte and appends it to the list, on a
full buffer it returns -1 and leaves the list; `bufferGet` and `bufferPeek` on a non-empty
buffer return the head, which `bufferGet` removes; on an empty buffer both return -1 and
the buffer is unchanged; `bufferFlush` empties the list; and every sequence of calls, from
that state or from `bufferReset` with that size, returns what the abstract bounded FIFO
queue returns and ends with the queue's list. -/
theorem ring_buffer_refines_fifo (b : cBuffer) (h : b.Inv) (hs : b.size ≤ 32768) :
    (∀ d, b.length < b.size →
      (bufferPut b d).1 = (d.val : Int) ∧ (bufferPut b d).2.contents = b.contents ++ [d]) ∧
    (∀ d, b.length = b.size → bufferPut b d = (-1, b)) ∧
    (∀ x t, b.contents = x :: t →
      (bufferGet b).1 = (x.val : Int) ∧ (bufferGet b).2.contents = t ∧
        bufferPeek b = (x.val : Int)) ∧
    (b.contents = [] → bufferGet b = (-1, b) ∧ bufferPeek b = -1) ∧
    (bufferFlush b).contents = [] ∧
    (∀ ops, (runOps ops b).1 = (runSpec b.size ops b.contents).1 ∧
      (runOps ops b).2.contents = (runSpec b.size ops b.contents).2) ∧
    (∀ b0 storage ops,
      (runOps ops (bufferReset b0 storage b.size)).1 = (runSpec b.size ops []).1 ∧
      (runOps ops (bufferReset b0 storage b.size)).2.contents =
        (runSpec b.size ops []).2) := by
  refine ⟨?_, ?_, ?_, ?_, contents_eq_nil _ rfl, ?_, ?_⟩
  · intro d hl
    exact ⟨by rw [bufferPut_room b d hl], contents_put b d h hs hl⟩
  · intro d hl
    exact bufferPut_full b d (by omega)
  · intro x t hc
    have hl : b.length ≠ 0 := by
      intro h0
      rw [contents_eq_nil b h0] at hc
      exact List.noConfusion hc
    have hg := contents_get b h hl
    rw [hc] at hg
    injection hg with hx ht
    refine ⟨?_, ht.symm, ?_⟩
    · rw [bufferGet_some b h hl, hx]
    · simp [bufferPeek, hl, hx]
  · intro hc
    have hl : b.length = 0 := by
      have := contents_length b
      rw [hc] at this
      exact this.symm
    exact ⟨bufferGet_empty b hl, by simp [bufferPeek, hl]⟩
  · intro ops
    exact ⟨(run_sim ops b h hs).1, (run_sim ops b h hs).2.1⟩
  · intro b0 storage ops
    have hr : (bufferReset b0 storage b.size).Inv := ⟨h.1, h.2.1, Nat.zero_le _, h.1⟩
    have := run_sim ops (bufferReset b0 storage b.size) hr hs
    exact ⟨this.1, this.2.1⟩

/-- Witness of C1 on a four-byte buffer that starts at its last index: two puts, a get,
a peek and two more gets return 5, 6, 5, 6, 6 and -1. -/
theorem ring_buffer_refines_fifo_witness :
    smallBuffer.Inv ∧ smallBuffer.size ≤ 32768 ∧
      (runOps [BufOp.put 5, BufOp.put 6, BufOp.get, BufOp.peek, BufOp.get, BufOp.get]
        smallBuffer).1 = [5, 6, 5, 6, 6, -1] :=
  ⟨by decide, by decide,
    (((ring_buffer_refines_fifo smallBuffer (by decide) (by decide)).2.2.2.2.2.1
      [BufOp.put 5, BufOp.put 6, BufOp.get, BufOp.peek, BufOp.get, BufOp.get]).1).trans
      (by decide)⟩

/-- Counterexample to C1 as stated: a buffer of 65535 bytes with `current = 65534` holds
1, 2; it satisfies the invariant and is not full, yet `bufferPut` of 3 stores at index 0,
over the 2, because `current + length` wraps at 65536: the list becomes 1, 3, 0 and not
1, 2, 3. -/
theorem ring_buffer_put_wraps_at_65536 :
    wrapBuffer.Inv ∧ wrapBuffer.length < wrapBuffer.size ∧ wrapBuffer.contents = [1, 2] ∧
      (bufferPut wrapBuffer 3).1 = 3 ∧ (bufferPut wrapBuffer 3).2.contents = [1, 3, 0] ∧
      (bufferPut wrapBuffer 3).2.contents ≠ wrapBuffer.contents ++ [3] := by
  decide

/-- C2: after `bufferReset(buffer, storage, size)` with `0 < size` and any sequence of
`bufferPut`, `bufferGet`, `bufferPeek`, `bufferPutWait` and `bufferFlush` calls, the buffer
has `length ≤ size` and `current < size`, its size is still `size`, and it is still the
storage given to `bufferReset`: no byte at or beyond index `size` has been written. -/
theorem buffer_invariant_after_reset (b0 : cBuffer) (storage : Nat → uint8_t) (size : Nat)
    (h0 : 0 < size) (hs : size < 65536) (ops : List BufOp) :
    (runOps ops (bufferReset b0 storage size)).2.length ≤
        (runOps ops (bufferReset b0 storage size)).2.size ∧
      (runOps ops (bufferReset b0 storage size)).2.current <
        (runOps ops (bufferReset b0 storage size)).2.size ∧
      (runOps ops (bufferReset b0 storage size)).2.size = size ∧
      ∀ i, size ≤ i → (runOps ops (bufferReset b0 storage size)).2.data i = storage i := by
  have hr : (bufferReset b0 storage size).Inv := ⟨h0, hs, Nat.zero_le _, h0⟩
  obtain ⟨r1, r2, r3⟩ := run_inv ops (bufferReset b0 storage size) hr
  exact ⟨r1.2.2.1, r1.2.2.2, r2, r3⟩

/-- Witness of C2: a two-byte buffer after three puts, a get, a waiting put and a flush. -/
theorem buffer_invariant_after_reset_witness :
    0 < 2 ∧ 2 < 65536 ∧
      (runOps [BufOp.put 1, BufOp.put 2, BufOp.put 3, BufOp.get, BufOp.putWait 4,
        BufOp.flush] (bufferReset fullBuffer (fun _ => 0) 2)).2.size = 2 :=
  ⟨by decide, by decide,
    (buffer_invariant_after_reset fullBuffer (fun _ => 0) 2 (by decide) (by decide)
      [BufOp.put 1, BufOp.put 2, BufOp.put 3, BufOp.get, BufOp.putWait 4,
        BufOp.flush]).2.2.1⟩

/-- C3, as amended: on an empty buffer satisfying the invariant with `size ≤ 32768`, for
any start index `current < size`, putting `b1..bn` with `n ≤ size` and then getting `n`
times returns `b1..bn` from the puts and `b1..bn`, in that order, from the gets, and the
buffer is empty afterwards. -/
theorem fifo_order (b : cBuffer) (h : b.Inv) (hs : b.size ≤ 32768) (he : b.length = 0)
    (bs : List uint8_t) (hn : bs.length ≤ b.size) :
    (runOps (bs.map BufOp.put ++ List.replicate bs.length BufOp.get) b).1 =
        bs.map (fun x => (x.val : Int)) ++ bs.map (fun x => (x.val : Int)) ∧
      (runOps (bs.map BufOp.put ++ List.replicate bs.length BufOp.get) b).2.length = 0 := by
  obtain ⟨r1, r2, -, -⟩ :=
    run_sim (bs.map BufOp.put ++ List.replicate bs.length BufOp.get) b h hs
  have hspec : runSpec b.size (bs.map BufOp.put ++ List.replicate bs.length BufOp.get)
      b.contents = (bs.map (fun x => (x.val : Int)) ++ bs.map (fun x => (x.val : Int)), []) := by
    rw [contents_eq_nil b he, runSpec_append, runSpec_puts b.size bs [] (by simpa using hn)]
    have := runSpec_gets b.size bs
    simp only [List.nil_append]
    rw [this]
  rw [hspec] at r1 r2
  refine ⟨r1, ?_⟩
  rw [← contents_length, r2]
  rfl

/-- Witness of C3 on a four-byte buffer that starts at its last index. -/
theorem fifo_order_witness :
    smallBuffer.Inv ∧ smallBuffer.size ≤ 32768 ∧ smallBuffer.length = 0 ∧
      (runOps ([10, 20, 30].map BufOp.put ++ List.replicate 3 BufOp.get) smallBuffer).1 =
        [10, 20, 30, 10, 20, 30] :=
  ⟨by decide, by decide, rfl,
    (fifo_order smallBuffer (by decide) (by decide) rfl [10, 20, 30] (by decide)).1⟩

/-- Counterexample to C3 as stated: on an empty buffer of 65535 bytes with
`current = 65534`, putting 1, 2, 3 and getting three times returns 1, 3, 0: the third put
stores at index 0, over the second byte, because `current + length` wraps at 65536. -/
theorem wrapped_put_breaks_fifo :
    wrapEmpty.Inv ∧ wrapEmpty.length = 0 ∧ [1, 2, 3].length ≤ wrapEmpty.size ∧
      (runOps ([1, 2, 3].map BufOp.put ++ List.replicate 3 BufOp.get) wrapEmpty).1 =
        [1, 2, 3, 1, 3, 0] := by
  decide

/-- C4: on a buffer with `length = size`, `bufferPut` returns -1 and leaves the whole
buffer as it was: `length`, `current` and every stored byte. -/
theorem full_buffer_rejects_put (b : cBuffer) (d : uint8_t) (h : b.length = b.size) :
    bufferPut b d = (-1, b) :=
  bufferPut_full b d (by omega)

/-- Witness of C4 on a full two-byte buffer. -/
theorem full_buffer_rejects_put_witness :
    fullBuffer.length = fullBuffer.size ∧ bufferPut fullBuffer 5 = (-1, fullBuffer) :=
  ⟨rfl, full_buffer_rejects_put fullBuffer 5 rfl⟩

/-! ## Radio: transmit path -/

theorem toU8_val (x : uint8_t) : toU8 ((x.val : Nat) : Int) = x := by
  apply Fin.ext
  have h := x.isLt
  simp only [toU8, Fin.ofNat]
  have e : ((x.val : Nat) : Int) % 256 = ((x.val : Nat) : Int) := by omega
  rw [e, Int.toNat_ofNat]
  omega

/-- The drain loop of the frame assembler takes `min fuel length` bytes from the head of the
transmit buffer, in order, into the frame buffer behind the length byte. -/
theorem load_loop_spec (fuel : Nat) (length : Nat) (tx : cBuffer) (fb : Nat → uint8_t)
    (h : tx.Inv) (hf : length + fuel ≤ 126) :
    (RF_LOAD_FRAME_loop fuel length tx fb).1 = length + min fuel tx.length ∧
      (RF_LOAD_FRAME_loop fuel length tx fb).2.1.contents =
        tx.contents.drop (min fuel tx.length) ∧
      (RF_LOAD_FRAME_loop fuel length tx fb).2.1.Inv ∧
      (RF_LOAD_FRAME_loop fuel length tx fb).2.1.size = tx.size ∧
      (RF_LOAD_FRAME_loop fuel length tx fb).2.1.length = tx.length - min fuel tx.length ∧
      (∀ j, (RF_LOAD_FRAME_loop fuel length tx fb).2.2 j =
        if 1 + length ≤ j ∧ j < 1 + length + min fuel tx.length
        then tx.contents.getD (j - (1 + length)) 0 else fb j) := by
  induction fuel generalizing length tx fb with
  | zero =>
    simp only [RF_LOAD_FRAME_loop, Nat.zero_min, Nat.add_zero, List.drop_zero, Nat.sub_zero,
      true_and]
    refine ⟨h, ?_⟩
    intro j
    have : ¬ (1 + length ≤ j ∧ j < 1 + length) := by omega
    simp [this]
  | succ fuel ih =>
    have hlt : length < HW_FRAME_TX_SIZE - 1 := by unfold HW_FRAME_TX_SIZE; omega
    rw [RF_LOAD_FRAME_loop]
    simp only [hlt, if_true]
    by_cases hl : tx.length = 0
    · rw [bufferGet_empty tx hl]
      have hneg : ((-1 : Int), tx).1 < 0 := by show (-1 : Int) < 0; decide
      simp only [hneg, if_true, hl, Nat.min_zero, Nat.add_zero, List.drop_zero, Nat.sub_zero,
        true_and]
      refine ⟨h, ?_⟩
      intro j
      have : ¬ (1 + length ≤ j ∧ j < 1 + length) := by omega
      simp [this]
    · have hg := bufferGet_some tx h hl
      have hc := contents_get tx h hl
      have hi := bufferGet_inv tx h
      have hnn : ¬ ((bufferGet tx).1 < 0) := by
        rw [hg]; simp
      have hv : toU8 (bufferGet tx).1 = tx.data tx.current := by
        rw [hg]; exact toU8_val _
      have hm : (length + 1) % 256 = length + 1 := Nat.mod_eq_of_lt (by omega)
      simp only [hnn, if_false, hv, hm]
      obtain ⟨i1, i2, i3, i4, i5, i6⟩ :=
        ih (length + 1) (bufferGet tx).2 (store fb (1 + length) (tx.data tx.current)) hi
          (by omega)
      have hlen : (bufferGet tx).2.length = tx.length - 1 := by rw [hg]
      have hsize : (bufferGet tx).2.size = tx.size := by rw [hg]
      have hmin : min (fuel + 1) tx.length = min fuel (tx.length - 1) + 1 := by omega
      rw [hlen] at i1 i2 i5 i6
      refine ⟨by rw [i1, hmin]; omega, ?_, i3, by rw [i4, hsize], by rw [i5, hmin]; omega, ?_⟩
      · rw [i2, hmin, hc, List.drop_succ_cons]
      · intro j
        rw [i6 j, hmin, hc]
        by_cases hj : j = 1 + length
        · have : ¬ (1 + (length + 1) ≤ j ∧ j < 1 + (length + 1) + min fuel (tx.length - 1)) := by
            omega
          have h2 : 1 + length ≤ j ∧ j < 1 + length + (min fuel (tx.length - 1) + 1) := by omega
          simp only [this, if_false, h2, if_true]
          simp [store, hj]
        · by_cases hr : 1 + (length + 1) ≤ j ∧ j < 1 + (length + 1) + min fuel (tx.length - 1)
          · have h2 : 1 + length ≤ j ∧ j < 1 + length + (min fuel (tx.length - 1) + 1) := by
              omega
            simp only [hr, h2, and_self, if_true]
            obtain ⟨m, hm⟩ : ∃ m, j - (1 + length) = m + 1 := ⟨j - (1 + length) - 1, by omega⟩
            have hm2 : j - (1 + (length + 1)) = m := by omega
            rw [hm, hm2, List.getD_cons_succ]
          · have h2 : ¬ (1 + length ≤ j ∧ j < 1 + length + (min fuel (tx.length - 1) + 1)) := by
              omega
            simp only [hr, h2, if_false]
            simp [store, hj]

/-- The wait for the PLL ends as soon as a read of `TRX_STATUS` has one of the bits of
`PLL_ON` set; it changes nothing but the reads consumed. -/
theorem waitPllLock_some (fuel : Nat) (s : RfState)
    (h : ∃ m, m < fuel ∧ (s.TRX_STATUS m % 256) &&& PLL_ON ≠ 0) :
    ∃ k, waitPllLock fuel s = some { s with TRX_STATUS := fun n => s.TRX_STATUS (n + k) } := by
  induction fuel generalizing s with
  | zero => obtain ⟨m, hm, -⟩ := h; omega
  | succ fuel ih =>
    rw [waitPllLock]
    by_cases hp : (s.TRX_STATUS 0 % 256) &&& PLL_ON ≠ 0
    · refine ⟨1, ?_⟩
      simp only [readStatus, hp, if_true, ne_eq, not_false_eq_true]
    · obtain ⟨m, hm, hpm⟩ := h
      have hm0 : m ≠ 0 := by
        intro h0; rw [h0] at hpm; exact hp hpm
      obtain ⟨m', rfl⟩ : ∃ m', m = m' + 1 := ⟨m - 1, by omega⟩
      obtain ⟨k, hk⟩ := ih { s with TRX_STATUS := fun n => s.TRX_STATUS (n + 1) }
        ⟨m', by omega, hpm⟩
      refine ⟨k + 1, ?_⟩
      simp only [readStatus, hp, if_false]
      rw [hk]
      simp only [Nat.add_assoc]

/-- When the PLL locks within `fuel` reads, `RF_TX_FRAME` returns: the module state is that
left by `RF_LOAD_FRAME` and exactly one frame, the loaded frame buffer, is put on air. -/
theorem RF_TX_FRAME_some (fuel : Nat) (s : RfState)
    (h : ∃ m, m < fuel ∧ (s.TRX_STATUS m % 256) &&& PLL_ON ≠ 0) :
    ∃ t, RF_TX_FRAME fuel s = some t ∧ t._rf_obj = (RF_LOAD_FRAME s)._rf_obj ∧
      t.TRXFB = (RF_LOAD_FRAME s).TRXFB ∧
      t.txFrames = s.txFrames ++ [(List.range 128).map (RF_LOAD_FRAME s).TRXFB] ∧
      t._rf_signal = s._rf_signal := by
  obtain ⟨k, hk⟩ := waitPllLock_some fuel
    { s with TRX_STATE := ((s.TRX_STATE &&& 0xE0) ||| PLL_ON) % 256 } h
  simp only [RF_TX_FRAME, hk]
  exact ⟨_, rfl, rfl, rfl, rfl, rfl⟩

theorem rfPutBytes_append (fuel : Nat) (s : RfState) (xs ys : List uint8_t) :
    rfPutBytes fuel s (xs ++ ys) =
      match rfPutBytes fuel s xs with
      | none => none
      | some r => (rfPutBytes fuel r.2 ys).map (fun q => (r.1 ++ q.1, q.2)) := by
  induction xs generalizing s with
  | nil =>
    simp only [List.nil_append, rfPutBytes]
    cases rfPutBytes fuel s ys <;> simp
  | cons x xs ih =>
    rw [List.cons_append]
    simp only [rfPutBytes]
    cases hx : rfPutByte fuel s x with
    | none => rfl
    | some r =>
      simp only
      rw [ih r.2]
      cases h1 : rfPutBytes fuel r.2 xs with
      | none => rfl
      | some r2 =>
        simp only
        cases h2 : rfPutBytes fuel r2.2 ys <;> simp

/-- Below the threshold `rfPutByte` only pushes: bytes put while the transmit buffer stays
under `HW_FRAME_TX_SIZE` bytes are appended to it and nothing else changes. -/
theorem rfPutBytes_below (fuel : Nat) (s : RfState) (bs : List uint8_t)
    (hact : s._rf_obj.inited ≠ 0) (hinv : s._rf_obj.txBuffer.Inv)
    (hsize : s._rf_obj.txBuffer.size = RF_TX_BUFFER_SIZE)
    (hlen : s._rf_obj.txBuffer.length + bs.length < HW_FRAME_TX_SIZE) :
    rfPutBytes fuel s bs = some (bs.map (fun x => (x.val : Int)),
      { s with _rf_obj := { s._rf_obj with
          txBuffer := (runOps (bs.map BufOp.put) s._rf_obj.txBuffer).2 } }) := by
  induction bs generalizing s with
  | nil => rfl
  | cons b bs ih =>
    simp only [List.length_cons] at hlen
    have hroom : s._rf_obj.txBuffer.length < s._rf_obj.txBuffer.size := by
      rw [hsize]; unfold RF_TX_BUFFER_SIZE; omega
    have hput := bufferPut_room s._rf_obj.txBuffer b hroom
    have hpi := bufferPut_inv s._rf_obj.txBuffer b hinv
    have hm : (s._rf_obj.txBuffer.length + 1) % USHORT = s._rf_obj.txBuffer.length + 1 :=
      Nat.mod_eq_of_lt (by unfold HW_FRAME_TX_SIZE at hlen; unfold USHORT; omega)
    have hpl : (bufferPut s._rf_obj.txBuffer b).2.length = s._rf_obj.txBuffer.length + 1 := by
      rw [hput]; exact hm
    have hps : (bufferPut s._rf_obj.txBuffer b).2.size = RF_TX_BUFFER_SIZE := by
      rw [hput]; exact hsize
    have hstep : rfPutByte fuel s b = some ((b.val : Int),
        { s with _rf_obj := { s._rf_obj with txBuffer := (bufferPut s._rf_obj.txBuffer b).2 } }) := by
      have hnf : ¬ ((bufferPut s._rf_obj.txBuffer b).2.length ≥ HW_FRAME_TX_SIZE) := by
        rw [hpl]; omega
      simp only [rfPutByte, hact, if_false, hnf]
      rw [hput]
    have := ih { s with _rf_obj := { s._rf_obj with
        txBuffer := (bufferPut s._rf_obj.txBuffer b).2 } } hact hpi hps
      (by show (bufferPut s._rf_obj.txBuffer b).2.length + bs.length < HW_FRAME_TX_SIZE
          rw [hpl]; omega)
    simp only [rfPutBytes, hstep, this, List.map_cons, runOps, BufOp.apply]

/-- C5, as amended: from an active radio instance with an empty transmit buffer, the first
126 calls of `rfPutByte` put no frame on air and leave `j` bytes buffered after `j` calls;
the 127th call, at which the buffer reaches `HW_FRAME_TX_SIZE` bytes, runs `RF_TX_FRAME`
exactly once (it returns as soon as a read of `TRX_STATUS` shows the PLL bits), and
immediately after it the transmit buffer holds exactly one byte, the 127th: the frame
assembler drains at most `HW_FRAME_TX_SIZE - 1` bytes. -/
theorem auto_flush_at_threshold (fuel : Nat) (s : RfState) (bs : List uint8_t)
    (last : uint8_t) (hact : s._rf_obj.inited ≠ 0) (hwf : s.Wf)
    (hempty : s._rf_obj.txBuffer.length = 0) (hlen : bs.length = 126)
    (hpll : ∃ m, m < fuel ∧ (s.TRX_STATUS m % 256) &&& PLL_ON ≠ 0) :
    (∀ j, j ≤ 126 → ∃ t,
      rfPutBytes fuel s (bs.take j) = some ((bs.take j).map (fun x => (x.val : Int)), t) ∧
        t.txFrames = s.txFrames ∧ t._rf_obj.txBuffer.length = j) ∧
    (∃ t, rfPutBytes fuel s (bs ++ [last]) =
        some ((bs ++ [last]).map (fun x => (x.val : Int)), t) ∧
      t.txFrames.length = s.txFrames.length + 1 ∧
      t._rf_obj.txBuffer.contents = [last] ∧ t._rf_obj.txBuffer.length = 1) := by
  obtain ⟨-, -, hinv, hsize⟩ := hwf
  have hs : s._rf_obj.txBuffer.size ≤ 32768 := by rw [hsize]; decide
  have hq : s._rf_obj.txBuffer.contents = [] := contents_eq_nil _ hempty
  -- the state after the bytes of a list below the threshold
  have key : ∀ xs : List uint8_t, xs.length ≤ 126 →
      rfPutBytes fuel s xs = some (xs.map (fun x => (x.val : Int)),
        { s with _rf_obj := { s._rf_obj with
            txBuffer := (runOps (xs.map BufOp.put) s._rf_obj.txBuffer).2 } }) ∧
      (runOps (xs.map BufOp.put) s._rf_obj.txBuffer).2.contents = xs ∧
      (runOps (xs.map BufOp.put) s._rf_obj.txBuffer).2.Inv ∧
      (runOps (xs.map BufOp.put) s._rf_obj.txBuffer).2.size = RF_TX_BUFFER_SIZE := by
    intro xs hx
    refine ⟨rfPutBytes_below fuel s xs hact hinv hsize
      (by rw [hempty]; unfold HW_FRAME_TX_SIZE; omega), ?_⟩
    obtain ⟨-, r2, r3, r4⟩ := run_sim (xs.map BufOp.put) s._rf_obj.txBuffer hinv hs
    rw [hq, runSpec_puts _ xs [] (by
      rw [hsize]; simp only [RF_TX_BUFFER_SIZE, HW_FRAME_TX_SIZE, List.length_nil]; omega)] at r2
    exact ⟨by simpa using r2, r3, by rw [r4, hsize]⟩
  constructor
  · intro j hj
    have hx : (bs.take j).length ≤ 126 := by rw [List.length_take]; omega
    obtain ⟨k1, k2, -, -⟩ := key (bs.take j) hx
    refine ⟨_, k1, rfl, ?_⟩
    show (runOps ((bs.take j).map BufOp.put) s._rf_obj.txBuffer).2.length = j
    rw [← contents_length, k2, List.length_take]; omega
  · obtain ⟨k1, k2, k3, k4⟩ := key bs (by omega)
    rw [rfPutBytes_append, k1]
    simp only [rfPutBytes]
    -- the 127th call
    have hl126 : (runOps (bs.map BufOp.put) s._rf_obj.txBuffer).2.length = 126 := by
      rw [← contents_length, k2, hlen]
    have hroom : (runOps (bs.map BufOp.put) s._rf_obj.txBuffer).2.length <
        (runOps (bs.map BufOp.put) s._rf_obj.txBuffer).2.size := by
      rw [hl126, k4]; decide
    have hput := bufferPut_room _ last hroom
    have hpi := bufferPut_inv _ last k3
    have hpc := contents_put _ last k3 (by rw [k4]; decide) hroom
    have hpl : (bufferPut (runOps (bs.map BufOp.put) s._rf_obj.txBuffer).2 last).2.length
        = 127 := by
      rw [← contents_length, hpc, List.length_append, contents_length, hl126]; rfl
    have hp1 : (bufferPut (runOps (bs.map BufOp.put) s._rf_obj.txBuffer).2 last).1
        = (last.val : Int) := by rw [hput]
    obtain ⟨t, ht, hobj, -, hfr, -⟩ := RF_TX_FRAME_some fuel
      { s with _rf_obj := { s._rf_obj with
          txBuffer := (bufferPut (runOps (bs.map BufOp.put) s._rf_obj.txBuffer).2 last).2 } }
      hpll
    obtain ⟨-, l2, -, -, l5, -⟩ := load_loop_spec 126 0
      (bufferPut (runOps (bs.map BufOp.put) s._rf_obj.txBuffer).2 last).2 s.TRXFB hpi
      (by omega)
    rw [hpl] at l2 l5
    have htx : t._rf_obj.txBuffer = (RF_LOAD_FRAME_loop 126 0
        (bufferPut (runOps (bs.map BufOp.put) s._rf_obj.txBuffer).2 last).2 s.TRXFB).2.1 := by
      rw [hobj]; rfl
    have hflush : (bufferPut (runOps (bs.map BufOp.put) s._rf_obj.txBuffer).2 last).2.length
        ≥ HW_FRAME_TX_SIZE := by rw [hpl]; decide
    refine ⟨t, ?_, ?_, ?_, ?_⟩
    · simp only [rfPutByte, hact, if_false, hflush, if_true, ht, Option.map_some', hp1,
        List.map_append, List.map_cons, List.map_nil]
    · rw [hfr]; simp
    · rw [htx, l2, hpc, k2]
      have : min 126 127 = bs.length := by rw [hlen]; rfl
      rw [this, List.drop_left]
    · rw [htx, l5]; rfl

/-- Witness of C5: 126 bytes `A` and a byte `B` put into an idle radio on channel 1. -/
theorem auto_flush_at_threshold_witness :
    idleRadio._rf_obj.inited ≠ 0 ∧ idleRadio.Wf ∧ idleRadio._rf_obj.txBuffer.length = 0 ∧
      ∃ t, rfPutBytes 1 idleRadio (List.replicate 126 (65 : uint8_t) ++ [66]) =
          some ((List.replicate 126 (65 : uint8_t) ++ [66]).map
            (fun (x : uint8_t) => (x.val : Int)), t) ∧
        t.txFrames.length = idleRadio.txFrames.length + 1 ∧
        t._rf_obj.txBuffer.contents = [66] ∧ t._rf_obj.txBuffer.length = 1 :=
  ⟨by decide, by decide, rfl,
    (auto_flush_at_threshold 1 idleRadio (List.replicate 126 (65 : uint8_t)) 66 (by decide) (by decide)
      rfl (by simp) ⟨0, by decide, by decide⟩).2⟩

set_option maxRecDepth 100000 in
/-- Counterexample to C5 as stated: an idle radio with an empty transmit buffer is given
127 bytes; after 126 calls no frame has been sent, the 127th call sends one frame, and the
transmit buffer then still holds one byte instead of being empty. -/
theorem auto_flush_leaves_one_byte :
    idleRadio._rf_obj.inited ≠ 0 ∧ idleRadio._rf_obj.txBuffer.length = 0 ∧
      (rfPutBytes 1 idleRadio (List.replicate 126 (65 : uint8_t))).map
        (fun r => (r.2.txFrames.length, r.2._rf_obj.txBuffer.length)) = some (0, 126) ∧
      (rfPutBytes 1 idleRadio (List.replicate 127 (65 : uint8_t))).map
        (fun r => (r.2.txFrames.length, r.2._rf_obj.txBuffer.length)) = some (1, 1) := by
  decide

/-! ## Radio: receive path -/

/-- The copy loop of the frame-end handler on `n` bytes `frame i, frame (i + 1), ...`, the
receive buffer having room for `size - length` bytes: the bytes that fit are appended in
order, each byte that does not fit adds one to `rxOverflow`, and nothing else changes. -/
theorem rxEndLoop_spec (frame : Nat → uint8_t) (n i : Nat) (obj : cBufferObj)
    (h : obj.rxBuffer.Inv) (hs : obj.rxBuffer.size ≤ 32768) :
    (rxEndLoop frame n i obj).rxBuffer.contents = obj.rxBuffer.contents ++
        (List.range (min n (obj.rxBuffer.size - obj.rxBuffer.length))).map
          (fun j => frame (i + j)) ∧
      (rxEndLoop frame n i obj).rxOverflow =
        (if n ≤ obj.rxBuffer.size - obj.rxBuffer.length then obj.rxOverflow
          else (obj.rxOverflow + (n - (obj.rxBuffer.size - obj.rxBuffer.length))) % USHORT) ∧
      (rxEndLoop frame n i obj).rxBuffer.Inv ∧
      (rxEndLoop frame n i obj).rxBuffer.size = obj.rxBuffer.size ∧
      (rxEndLoop frame n i obj).rxBuffer.current = obj.rxBuffer.current ∧
      (rxEndLoop frame n i obj).rxBuffer.length =
        obj.rxBuffer.length + min n (obj.rxBuffer.size - obj.rxBuffer.length) ∧
      (obj.rxBuffer.length = obj.rxBuffer.size →
        (rxEndLoop frame n i obj).rxBuffer = obj.rxBuffer) ∧
      (rxEndLoop frame n i obj).txBuffer = obj.txBuffer ∧
      (rxEndLoop frame n i obj).inited = obj.inited ∧
      (rxEndLoop frame n i obj).txIdle = obj.txIdle ∧
      (rxEndLoop frame n i obj).id = obj.id := by
  induction n generalizing i obj with
  | zero =>
    simp only [rxEndLoop, Nat.zero_min, List.range_zero, List.map_nil, List.append_nil,
      Nat.zero_le, if_true, Nat.add_zero, true_and, implies_true, and_true]
    exact h
  | succ n ih =>
    rw [rxEndLoop]
    by_cases hl : obj.rxBuffer.length < obj.rxBuffer.size
    · have hput := bufferPut_room obj.rxBuffer (frame i) hl
      have hpi := bufferPut_inv obj.rxBuffer (frame i) h
      have hpc := contents_put obj.rxBuffer (frame i) h hs hl
      have hnn : ¬ ((bufferPut obj.rxBuffer (frame i)).1 < 0) := by rw [hput]; simp
      have hm : (obj.rxBuffer.length + 1) % USHORT = obj.rxBuffer.length + 1 :=
        Nat.mod_eq_of_lt (by unfold USHORT; omega)
      have hpl : (bufferPut obj.rxBuffer (frame i)).2.length = obj.rxBuffer.length + 1 := by
        rw [hput]; exact hm
      have hps : (bufferPut obj.rxBuffer (frame i)).2.size = obj.rxBuffer.size := by rw [hput]
      have hpcur : (bufferPut obj.rxBuffer (frame i)).2.current = obj.rxBuffer.current := by
        rw [hput]
      simp only [hnn, if_false]
      obtain ⟨i1, i2, i3, i4, i5, i6, -, i8, i9, i10, i11⟩ :=
        ih (i + 1) { obj with rxBuffer := (bufferPut obj.rxBuffer (frame i)).2 } hpi
          (by show (bufferPut obj.rxBuffer (frame i)).2.size ≤ 32768; rw [hps]; exact hs)
      simp only [hps, hpl, hpcur, hpc] at i1 i2 i4 i5 i6
      have hmin : min (n + 1) (obj.rxBuffer.size - obj.rxBuffer.length) =
          min n (obj.rxBuffer.size - (obj.rxBuffer.length + 1)) + 1 := by omega
      refine ⟨?_, ?_, i3, i4, i5, by rw [i6, hmin]; omega, ?_, i8, i9, i10, i11⟩
      · rw [i1, hmin, List.range_succ_eq_map, List.map_cons, List.map_map, List.append_assoc]
        simp only [List.singleton_append, Nat.add_zero]
        congr 2
        apply List.map_congr_left
        intro j _
        simp only [Function.comp, Nat.succ_eq_add_one]
        rw [Nat.add_assoc, Nat.add_comm 1 j]
      · rw [i2]
        by_cases hc : n ≤ obj.rxBuffer.size - (obj.rxBuffer.length + 1)
        · have hc2 : n + 1 ≤ obj.rxBuffer.size - obj.rxBuffer.length := by omega
          simp only [hc, hc2, if_true]
        · have hc2 : ¬ (n + 1 ≤ obj.rxBuffer.size - obj.rxBuffer.length) := by omega
          simp only [hc, hc2, if_false]
          congr 2; omega
      · intro hfull; omega
    · have hput := bufferPut_full obj.rxBuffer (frame i) hl
      have hneg : (bufferPut obj.rxBuffer (frame i)).1 < 0 := by
        rw [hput]; show (-1 : Int) < 0; decide
      have hfull : obj.rxBuffer.size - obj.rxBuffer.length = 0 := by omega
      simp only [hneg, if_true]
      rw [hput]
      obtain ⟨i1, i2, i3, i4, i5, i6, i7, i8, i9, i10, i11⟩ :=
        ih (i + 1) { obj with rxBuffer := obj.rxBuffer,
                              rxOverflow := (obj.rxOverflow + 1) % USHORT } h hs
      simp only [hfull, Nat.min_zero, List.range_zero, List.map_nil, List.append_nil,
        Nat.add_zero] at i1 i2 i6 ⊢
      refine ⟨i1, ?_, i3, i4, i5, i6, fun _ => i7 (by
        show obj.rxBuffer.length = obj.rxBuffer.size
        have := h.2.2.1; omega), i8, i9, i10, i11⟩
      rw [i2]
      have h1 : ¬ (n + 1 ≤ 0) := by omega
      simp only [h1, if_false, Nat.sub_zero]
      by_cases hn : n ≤ 0
      · have : n = 0 := by omega
        simp [this]
      · simp only [hn, if_false, Nat.sub_zero, Nat.mod_add_mod]
        congr 1; omega

/-- The copy loop writes the receive storage only at the indices of the bytes it appends. -/
theorem rxEndLoop_data (frame : Nat → uint8_t) (n i : Nat) (obj : cBufferObj)
    (h : obj.rxBuffer.Inv) (hs : obj.rxBuffer.size ≤ 32768) (k : Nat)
    (hk : ∀ j, j < min n (obj.rxBuffer.size - obj.rxBuffer.length) →
      k ≠ (obj.rxBuffer.current + obj.rxBuffer.length + j) % obj.rxBuffer.size) :
    (rxEndLoop frame n i obj).rxBuffer.data k = obj.rxBuffer.data k := by
  induction n generalizing i obj with
  | zero => rfl
  | succ n ih =>
    rw [rxEndLoop]
    by_cases hl : obj.rxBuffer.length < obj.rxBuffer.size
    · have hput := bufferPut_room obj.rxBuffer (frame i) hl
      have hpi := bufferPut_inv obj.rxBuffer (frame i) h
      have hnn : ¬ ((bufferPut obj.rxBuffer (frame i)).1 < 0) := by rw [hput]; simp
      have hm : (obj.rxBuffer.length + 1) % USHORT = obj.rxBuffer.length + 1 :=
        Nat.mod_eq_of_lt (by unfold USHORT; omega)
      have hw : (obj.rxBuffer.current + obj.rxBuffer.length) % USHORT =
          obj.rxBuffer.current + obj.rxBuffer.length :=
        Nat.mod_eq_of_lt (by have := h.2.2.2; unfold USHORT; omega)
      have hpl : (bufferPut obj.rxBuffer (frame i)).2.length = obj.rxBuffer.length + 1 := by
        rw [hput]; exact hm
      have hps : (bufferPut obj.rxBuffer (frame i)).2.size = obj.rxBuffer.size := by rw [hput]
      have hpcur : (bufferPut obj.rxBuffer (frame i)).2.current = obj.rxBuffer.current := by
        rw [hput]
      have hpd : (bufferPut obj.rxBuffer (frame i)).2.data k = obj.rxBuffer.data k := by
        have h0 := hk 0 (by omega)
        rw [hput]
        simp only [store, hw]
        rw [Nat.add_zero] at h0
        simp [h0]
      simp only [hnn, if_false]
      have := ih (i + 1) { obj with rxBuffer := (bufferPut obj.rxBuffer (frame i)).2 } hpi
        (by show (bufferPut obj.rxBuffer (frame i)).2.size ≤ 32768; rw [hps]; exact hs)
        (by
          intro j hj
          simp only [hps, hpl, hpcur] at hj ⊢
          have := hk (j + 1) (by omega)
          rw [show obj.rxBuffer.current + (obj.rxBuffer.length + 1) + j =
            obj.rxBuffer.current + obj.rxBuffer.length + (j + 1) by omega]
          exact this)
      rw [this]
      exact hpd
    · have hput := bufferPut_full obj.rxBuffer (frame i) hl
      have hneg : (bufferPut obj.rxBuffer (frame i)).1 < 0 := by
        rw [hput]; show (-1 : Int) < 0; decide
      simp only [hneg, if_true]
      rw [hput]
      exact ih (i + 1) { obj with rxBuffer := obj.rxBuffer,
                                  rxOverflow := (obj.rxOverflow + 1) % USHORT } h hs
        (by
          intro j hj
          have : obj.rxBuffer.size - obj.rxBuffer.length = 0 := by omega
          simp only [this, Nat.min_zero] at hj
          omega)

/-- What the frame-end handler does with a frame that passes its validity test. -/
theorem rx_end_valid (s : RfState) (hcrc : s._rf_signal.val &&& RX_CRC_VALID ≠ 0) :
    TRX24_RX_END_vect s = { s with _rf_obj :=
      (rxEndLoop (fun i => if i < s.TST_RX_LENGTH.val then s.TRXFB i else 0)
        (((s.TST_RX_LENGTH.val : Int) - 2).toNat) 0 s._rf_obj) } := by
  simp only [TRX24_RX_END_vect, hcrc, ne_eq, not_false_eq_true, if_true]

/-- What the frame-end handler does with a frame that fails its validity test. -/
theorem rx_end_invalid (s : RfState) (hcrc : s._rf_signal.val &&& RX_CRC_VALID = 0) :
    TRX24_RX_END_vect s = s := by
  simp [TRX24_RX_END_vect, hcrc]

/-- Successive calls of `rfGetByte` on an active instance return the buffered bytes, oldest
first, and remove them. -/
theorem rfGetBytes_spec (n : Nat) (s : RfState) (hact : s._rf_obj.inited ≠ 0)
    (h : s._rf_obj.rxBuffer.Inv) (hn : n ≤ s._rf_obj.rxBuffer.length) :
    (rfGetBytes n s).1 = (s._rf_obj.rxBuffer.contents.take n).map (fun x => (x.val : Int)) ∧
      (rfGetBytes n s).2._rf_obj.rxBuffer.contents = s._rf_obj.rxBuffer.contents.drop n := by
  induction n generalizing s with
  | zero => simp [rfGetBytes]
  | succ n ih =>
    have hl : s._rf_obj.rxBuffer.length ≠ 0 := by omega
    have hg := bufferGet_some s._rf_obj.rxBuffer h hl
    have hc := contents_get s._rf_obj.rxBuffer h hl
    have hi := bufferGet_inv s._rf_obj.rxBuffer h
    have hlen : (bufferGet s._rf_obj.rxBuffer).2.length = s._rf_obj.rxBuffer.length - 1 := by
      rw [hg]
    have hstep : rfGetByte s = ((bufferGet s._rf_obj.rxBuffer).1,
        { s with _rf_obj := { s._rf_obj with rxBuffer := (bufferGet s._rf_obj.rxBuffer).2 } }) := by
      simp only [rfGetByte, hact, if_false]
    obtain ⟨i1, i2⟩ := ih
      { s with _rf_obj := { s._rf_obj with rxBuffer := (bufferGet s._rf_obj.rxBuffer).2 } }
      hact hi (by show n ≤ (bufferGet s._rf_obj.rxBuffer).2.length; rw [hlen]; omega)
    simp only [rfGetBytes, hstep]
    refine ⟨?_, ?_⟩
    · rw [i1, hc]
      simp only [List.take_succ_cons, List.map_cons, List.cons.injEq, and_true]
      rw [hg]
    · rw [i2, hc, List.drop_succ_cons]

/-- Overflow counting for the frames the handler accepts: when a frame of reported length
`L ≥ 2` passes the handler's test (`_rf_signal & RX_CRC_VALID` non-zero, a test of the
three low bits of the signal byte) and the receive buffer has room for `c` bytes, the
frame-end handler appends exactly the first `min (L - 2) c` bytes of the frame, in order, to
the receive buffer, adds `(L - 2) - min (L - 2) c` to the 16-bit counter `rxOverflow`, and
changes nothing else: the receive storage is written only at the indices of the appended
bytes and the rest of the module state is as before, so the bytes that did not fit are
stored nowhere; with a full buffer the buffer is unchanged and `rxOverflow` grows by
`L - 2`. -/
theorem rx_end_overflow_counting (s : RfState)
    (hcrc : s._rf_signal.val &&& RX_CRC_VALID ≠ 0) (hL : 2 ≤ s.TST_RX_LENGTH.val)
    (hinv : s._rf_obj.rxBuffer.Inv) (hs : s._rf_obj.rxBuffer.size ≤ 32768)
    (hov : s._rf_obj.rxOverflow < 65536) :
    (TRX24_RX_END_vect s)._rf_obj.rxBuffer.contents = s._rf_obj.rxBuffer.contents ++
        (List.range (min (s.TST_RX_LENGTH.val - 2)
          (s._rf_obj.rxBuffer.size - s._rf_obj.rxBuffer.length))).map s.TRXFB ∧
      (TRX24_RX_END_vect s)._rf_obj.rxOverflow =
        (s._rf_obj.rxOverflow + ((s.TST_RX_LENGTH.val - 2) -
          min (s.TST_RX_LENGTH.val - 2)
            (s._rf_obj.rxBuffer.size - s._rf_obj.rxBuffer.length))) % 65536 ∧
      (TRX24_RX_END_vect s)._rf_obj.rxBuffer.size = s._rf_obj.rxBuffer.size ∧
      (TRX24_RX_END_vect s)._rf_obj.rxBuffer.current = s._rf_obj.rxBuffer.current ∧
      (∀ k, (∀ j, j < min (s.TST_RX_LENGTH.val - 2)
            (s._rf_obj.rxBuffer.size - s._rf_obj.rxBuffer.length) →
          k ≠ (s._rf_obj.rxBuffer.current + s._rf_obj.rxBuffer.length + j) %
            s._rf_obj.rxBuffer.size) →
        (TRX24_RX_END_vect s)._rf_obj.rxBuffer.data k = s._rf_obj.rxBuffer.data k) ∧
      { TRX24_RX_END_vect s with _rf_obj := { (TRX24_RX_END_vect s)._rf_obj with
          rxBuffer := s._rf_obj.rxBuffer, rxOverflow := s._rf_obj.rxOverflow } } = s ∧
      (s._rf_obj.rxBuffer.length = s._rf_obj.rxBuffer.size →
        (TRX24_RX_END_vect s)._rf_obj.rxBuffer = s._rf_obj.rxBuffer ∧
        (TRX24_RX_END_vect s)._rf_obj.rxOverflow =
          (s._rf_obj.rxOverflow + (s.TST_RX_LENGTH.val - 2)) % 65536) := by
  have hn : ((s.TST_RX_LENGTH.val : Int) - 2).toNat = s.TST_RX_LENGTH.val - 2 := by omega
  obtain ⟨i1, i2, -, i4, i5, -, i7, i8, i9, i10, i11⟩ :=
    rxEndLoop_spec (fun i => if i < s.TST_RX_LENGTH.val then s.TRXFB i else 0)
      (s.TST_RX_LENGTH.val - 2) 0 s._rf_obj hinv hs
  rw [rx_end_valid s hcrc, hn]
  have hov2 : (rxEndLoop (fun i => if i < s.TST_RX_LENGTH.val then s.TRXFB i else 0)
      (s.TST_RX_LENGTH.val - 2) 0 s._rf_obj).rxOverflow =
      (s._rf_obj.rxOverflow + ((s.TST_RX_LENGTH.val - 2) -
        min (s.TST_RX_LENGTH.val - 2)
          (s._rf_obj.rxBuffer.size - s._rf_obj.rxBuffer.length))) % 65536 := by
    rw [i2]
    by_cases hc : s.TST_RX_LENGTH.val - 2 ≤ s._rf_obj.rxBuffer.size - s._rf_obj.rxBuffer.length
    · simp only [hc, if_true, Nat.min_eq_left hc, Nat.sub_self, Nat.add_zero]
      exact (Nat.mod_eq_of_lt hov).symm
    · simp only [hc, if_false]
      rw [Nat.min_eq_right (by omega)]
      rfl
  refine ⟨?_, hov2, i4, i5, ?_, ?_, ?_⟩
  · show (rxEndLoop _ _ 0 s._rf_obj).rxBuffer.contents = _
    rw [i1]
    congr 1
    apply List.map_congr_left
    intro j hj
    have hj := List.mem_range.mp hj
    have : j < s.TST_RX_LENGTH.val := by omega
    simp [this]
  · intro k hk
    exact rxEndLoop_data _ _ 0 s._rf_obj hinv hs k hk
  · show ({ s with _rf_obj := { (rxEndLoop _ _ 0 s._rf_obj) with
        rxBuffer := s._rf_obj.rxBuffer, rxOverflow := s._rf_obj.rxOverflow } } : RfState) = s
    simp only [i8, i9, i10, i11]
  · intro hfull
    refine ⟨i7 hfull, ?_⟩
    show (rxEndLoop _ _ 0 s._rf_obj).rxOverflow = _
    rw [hov2]
    have : s._rf_obj.rxBuffer.size - s._rf_obj.rxBuffer.length = 0 := by omega
    rw [this, Nat.min_zero, Nat.sub_zero]

/-- An accepted frame with three payload bytes arrives while the receive buffer is full and
`rxOverflow` is 65534: the buffer is unchanged and the counter wraps to 1. -/
theorem rx_end_overflow_counting_witness :
    fullRxFrame._rf_signal.val &&& RX_CRC_VALID ≠ 0 ∧ 2 ≤ fullRxFrame.TST_RX_LENGTH.val ∧
      fullRxFrame._rf_obj.rxBuffer.Inv ∧
      (TRX24_RX_END_vect fullRxFrame)._rf_obj.rxBuffer = fullRxFrame._rf_obj.rxBuffer ∧
      (TRX24_RX_END_vect fullRxFrame)._rf_obj.rxOverflow = 1 :=
  ⟨by decide, by decide, by decide,
    ((rx_end_overflow_counting fullRxFrame (by decide) (by decide) (by decide) (by decide)
      (by decide)).2.2.2.2.2.2 rfl).1,
    ((rx_end_overflow_counting fullRxFrame (by decide) (by decide) (by decide) (by decide)
      (by decide)).2.2.2.2.2.2 rfl).2.trans (by decide)⟩

/-- C7 at a failing input: the captured signal byte is `0x0A`, so its high bit, the CRC-valid
flag, is clear, and the frame-end handler still stores the three payload bytes: its test
`_rf_signal & RX_CRC_VALID` uses the bit number 7 as the mask and looks at the three low
signal-strength bits. -/
theorem rx_end_stores_frame_with_crc_flag_clear :
    invalidFrame._rf_signal.val &&& (1 <<< RX_CRC_VALID) = 0 ∧
      invalidFrame._rf_obj.rxBuffer.length = 0 ∧
      (TRX24_RX_END_vect invalidFrame)._rf_obj.rxBuffer.length = 3 ∧
      (TRX24_RX_END_vect invalidFrame)._rf_obj.rxBuffer.contents = [0x41, 0x42, 0x43] := by
  decide

/-- Payload of the frames the handler accepts: when a frame of reported length `L ≥ 2`
passes the handler's test (`_rf_signal & RX_CRC_VALID` non-zero, a test of the three low
bits of the signal byte) and the
receive buffer has room for `L - 2` bytes, the frame-end handler appends exactly the first
`L - 2` bytes of the hardware frame, in order, and not the two trailer bytes: the receive
length grows by `L - 2`, `rxOverflow` is unchanged, and on an active instance `rfGetByte`
returns the bytes buffered before and then those `L - 2` bytes in arrival order. -/
theorem rx_end_appends_payload (s : RfState) (hact : s._rf_obj.inited ≠ 0)
    (hcrc : s._rf_signal.val &&& RX_CRC_VALID ≠ 0) (hL : 2 ≤ s.TST_RX_LENGTH.val)
    (hinv : s._rf_obj.rxBuffer.Inv) (hs : s._rf_obj.rxBuffer.size ≤ 32768)
    (hcap : s.TST_RX_LENGTH.val - 2 ≤ s._rf_obj.rxBuffer.size - s._rf_obj.rxBuffer.length) :
    (TRX24_RX_END_vect s)._rf_obj.rxBuffer.contents = s._rf_obj.rxBuffer.contents ++
        (List.range (s.TST_RX_LENGTH.val - 2)).map s.TRXFB ∧
      (TRX24_RX_END_vect s)._rf_obj.rxBuffer.length =
        s._rf_obj.rxBuffer.length + (s.TST_RX_LENGTH.val - 2) ∧
      (TRX24_RX_END_vect s)._rf_obj.rxOverflow = s._rf_obj.rxOverflow ∧
      (rfGetBytes (s._rf_obj.rxBuffer.length + (s.TST_RX_LENGTH.val - 2))
          (TRX24_RX_END_vect s)).1 =
        s._rf_obj.rxBuffer.contents.map (fun x => (x.val : Int)) ++
          (List.range (s.TST_RX_LENGTH.val - 2)).map (fun i => ((s.TRXFB i).val : Int)) ∧
      (rfGetBytes (s._rf_obj.rxBuffer.length + (s.TST_RX_LENGTH.val - 2))
          (TRX24_RX_END_vect s)).2._rf_obj.rxBuffer.contents = [] := by
  have hn : ((s.TST_RX_LENGTH.val : Int) - 2).toNat = s.TST_RX_LENGTH.val - 2 := by omega
  obtain ⟨i1, i2, i3, -, -, i6, -, -, i9, -, -⟩ :=
    rxEndLoop_spec (fun i => if i < s.TST_RX_LENGTH.val then s.TRXFB i else 0)
      (s.TST_RX_LENGTH.val - 2) 0 s._rf_obj hinv hs
  rw [Nat.min_eq_left hcap] at i1 i6
  simp only [hcap, if_true] at i2
  have hc : (TRX24_RX_END_vect s)._rf_obj.rxBuffer.contents = s._rf_obj.rxBuffer.contents ++
      (List.range (s.TST_RX_LENGTH.val - 2)).map s.TRXFB := by
    rw [rx_end_valid s hcrc, hn]
    show (rxEndLoop _ _ 0 s._rf_obj).rxBuffer.contents = _
    rw [i1]
    congr 1
    apply List.map_congr_left
    intro j hj
    have hj := List.mem_range.mp hj
    have : j < s.TST_RX_LENGTH.val := by omega
    simp [this]
  have hl : (TRX24_RX_END_vect s)._rf_obj.rxBuffer.length =
      s._rf_obj.rxBuffer.length + (s.TST_RX_LENGTH.val - 2) := by
    rw [rx_end_valid s hcrc, hn]; exact i6
  have hi : (TRX24_RX_END_vect s)._rf_obj.rxBuffer.Inv := by
    rw [rx_end_valid s hcrc, hn]; exact i3
  have ha : (TRX24_RX_END_vect s)._rf_obj.inited ≠ 0 := by
    rw [rx_end_valid s hcrc, hn]
    show (rxEndLoop _ _ 0 s._rf_obj).inited ≠ 0
    rw [i9]; exact hact
  obtain ⟨g1, g2⟩ := rfGetBytes_spec
    (s._rf_obj.rxBuffer.length + (s.TST_RX_LENGTH.val - 2)) (TRX24_RX_END_vect s) ha hi
    (by rw [hl])
  have hlen : ((TRX24_RX_END_vect s)._rf_obj.rxBuffer.contents).length =
      s._rf_obj.rxBuffer.length + (s.TST_RX_LENGTH.val - 2) := by
    rw [contents_length, hl]
  refine ⟨hc, hl, ?_, ?_, ?_⟩
  · rw [rx_end_valid s hcrc, hn]; exact i2
  · rw [g1, ← hlen, List.take_length, hc]
    simp [List.map_append, List.map_map, Function.comp]
  · rw [g2, ← hlen, List.drop_length]

/-- An accepted frame of reported length 5 arrives at an idle radio with an empty receive
buffer; three calls of `rfGetByte` then return `A`, `B`, `C`. -/
theorem rx_end_appends_payload_witness :
    validFrame._rf_obj.inited ≠ 0 ∧ validFrame._rf_signal.val &&& RX_CRC_VALID ≠ 0 ∧
      2 ≤ validFrame.TST_RX_LENGTH.val ∧ validFrame._rf_obj.rxBuffer.Inv ∧
      (rfGetBytes 3 (TRX24_RX_END_vect validFrame)).1 = [0x41, 0x42, 0x43] :=
  ⟨by decide, by decide, by decide, by decide,
    (rx_end_appends_payload validFrame (by decide) (by decide) (by decide) (by decide)
      (by decide) (by decide)).2.2.2.1.trans (by decide)⟩

set_option maxRecDepth 100000 in
/-- C6 at a failing input: the captured signal byte is `0x88`, so its high bit, the CRC-valid
flag, is set; the frame has reported length 5, three payload bytes, and the receive buffer
is full with `rxOverflow` at 65534.  The frame-end handler counts none of the three bytes:
`rxOverflow` stays at 65534 instead of growing by 3, because the test
`_rf_signal & RX_CRC_VALID` uses the bit number 7 as the mask and finds the three low bits
of `0x88` zero.  The same frame with the signal byte `0x8A` is counted. -/
theorem rx_end_misses_overflow_of_valid_frame :
    flaggedFullFrame._rf_signal.val &&& (1 <<< RX_CRC_VALID) ≠ 0 ∧
      flaggedFullFrame.TST_RX_LENGTH.val = 5 ∧
      flaggedFullFrame._rf_obj.rxBuffer.length = flaggedFullFrame._rf_obj.rxBuffer.size ∧
      flaggedFullFrame._rf_obj.rxOverflow = 65534 ∧
      (TRX24_RX_END_vect flaggedFullFrame)._rf_obj.rxOverflow = 65534 ∧
      (TRX24_RX_END_vect fullRxFrame)._rf_obj.rxOverflow = (65534 + 3) % 65536 ∧
      (∀ s : RfState, s._rf_signal.val &&& RX_CRC_VALID = 0 → TRX24_RX_END_vect s = s) :=
  ⟨by decide, by decide, by decide, by decide, by decide, by decide,
    fun s h => rx_end_invalid s h⟩

set_option maxRecDepth 100000 in
/-- C8 at a failing input: the captured signal byte is `0x88`, so its high bit, the CRC-valid
flag, is set; the frame has reported length 5, payload `A`, `B`, `C`, and the receive buffer
of the active radio is empty, with room for 256 bytes.  The frame-end handler appends
nothing: the receive length stays 0 instead of growing by 3 and `rfGetByte` returns -1,
because the test `_rf_signal & RX_CRC_VALID` uses the bit number 7 as the mask and finds the
three low bits of `0x88` zero. -/
theorem rx_end_discards_valid_frame :
    flaggedFrame._rf_signal.val &&& (1 <<< RX_CRC_VALID) ≠ 0 ∧
      flaggedFrame._rf_obj.inited ≠ 0 ∧ flaggedFrame.TST_RX_LENGTH.val = 5 ∧
      flaggedFrame._rf_obj.rxBuffer.length = 0 ∧ flaggedFrame._rf_obj.rxBuffer.size = 256 ∧
      (List.range 3).map flaggedFrame.TRXFB = [0x41, 0x42, 0x43] ∧
      (TRX24_RX_END_vect flaggedFrame)._rf_obj.rxBuffer.length = 0 ∧
      (TRX24_RX_END_vect flaggedFrame)._rf_obj.rxBuffer.contents = [] ∧
      (rfGetByte (TRX24_RX_END_vect flaggedFrame)).1 = -1 ∧
      (rfGetBytes 3 (TRX24_RX_END_vect flaggedFrame)).1 = [-1, -1, -1] := by
  decide

/-! ## Radio: block read and inactive calls -/

/-- The copy loop of `rfGetBuffer` takes `n` bytes from the head of the receive buffer, in
order, into `data[i], data[i + 1], ...`. -/
theorem rfGetBuffer_loop_spec (n i : Nat) (rx : cBuffer) (data : Nat → uint8_t)
    (h : rx.Inv) (hn : n ≤ rx.length) :
    (rfGetBuffer_loop n i rx data).1.contents = rx.contents.drop n ∧
      (rfGetBuffer_loop n i rx data).1.Inv ∧
      (rfGetBuffer_loop n i rx data).1.size = rx.size ∧
      (∀ j, (rfGetBuffer_loop n i rx data).2 j =
        if i ≤ j ∧ j < i + n then rx.contents.getD (j - i) 0 else data j) := by
  induction n generalizing i rx data with
  | zero =>
    simp only [rfGetBuffer_loop, List.drop_zero, Nat.add_zero, true_and]
    refine ⟨h, ?_⟩
    intro j
    have : ¬ (i ≤ j ∧ j < i) := by omega
    simp [this]
  | succ n ih =>
    have hl : rx.length ≠ 0 := by omega
    have hg := bufferGet_some rx h hl
    have hc := contents_get rx h hl
    have hi := bufferGet_inv rx h
    have hv : toU8 (bufferGet rx).1 = rx.data rx.current := by
      rw [hg]; exact toU8_val _
    have hlen : (bufferGet rx).2.length = rx.length - 1 := by rw [hg]
    have hsize : (bufferGet rx).2.size = rx.size := by rw [hg]
    rw [rfGetBuffer_loop]
    simp only [hv]
    obtain ⟨i1, i2, i3, i4⟩ := ih (i + 1) (bufferGet rx).2 (store data i (rx.data rx.current)) hi
      (by rw [hlen]; omega)
    refine ⟨by rw [i1, hc, List.drop_succ_cons], i2, by rw [i3, hsize], ?_⟩
    intro j
    rw [i4 j, hc]
    by_cases hj : j = i
    · have h1 : ¬ (i + 1 ≤ j ∧ j < i + 1 + n) := by omega
      have h2 : i ≤ j ∧ j < i + (n + 1) := by omega
      simp only [h1, h2, and_self, if_true, if_false]
      simp [store, hj]
    · by_cases hr : i + 1 ≤ j ∧ j < i + 1 + n
      · have h2 : i ≤ j ∧ j < i + (n + 1) := by omega
        simp only [hr, h2, and_self, if_true]
        obtain ⟨m, hm⟩ : ∃ m, j - i = m + 1 := ⟨j - i - 1, by omega⟩
        have hm2 : j - (i + 1) = m := by omega
        rw [hm, hm2, List.getD_cons_succ]
      · have h2 : ¬ (i ≤ j ∧ j < i + (n + 1)) := by omega
        simp only [hr, h2, if_false]
        simp [store, hj]

/-- C9: on an active radio instance whose receive buffer holds `r1..rk`, oldest first,
`rfGetBuffer(dest, maxLen)` returns `n = min k maxLen`, leaves `r1..rn` in `dest[0..n)` and
zeros in `dest[n..maxLen)`, writes nothing at or beyond `maxLen`, and leaves `r(n+1)..rk`
in the receive buffer. -/
theorem rfGetBuffer_zero_fill (s : RfState) (dest : Nat → uint8_t) (maxlen : uint8_t)
    (hact : s._rf_obj.inited ≠ 0) (hwf : s.Wf) :
    (rfGetBuffer s dest maxlen).1 =
        ((min s._rf_obj.rxBuffer.contents.length maxlen.val : Nat) : Int) ∧
      (List.range maxlen.val).map (rfGetBuffer s dest maxlen).2.2 =
        s._rf_obj.rxBuffer.contents.take maxlen.val ++
          List.replicate (maxlen.val - min s._rf_obj.rxBuffer.contents.length maxlen.val) 0 ∧
      (∀ j, maxlen.val ≤ j → (rfGetBuffer s dest maxlen).2.2 j = dest j) ∧
      (rfGetBuffer s dest maxlen).2.1._rf_obj.rxBuffer.contents =
        s._rf_obj.rxBuffer.contents.drop (min s._rf_obj.rxBuffer.contents.length maxlen.val) := by
  obtain ⟨hinv, hsize, -, -⟩ := hwf
  have hk : s._rf_obj.rxBuffer.length ≤ 256 := by
    have := hinv.2.2.1
    rw [hsize] at this
    exact this
  have hav : rfAvailable s = ((s._rf_obj.rxBuffer.length : Nat) : Int) := by
    have h1 : s._rf_obj.rxBuffer.length % USHORT = s._rf_obj.rxBuffer.length :=
      Nat.mod_eq_of_lt (by unfold USHORT; omega)
    have h2 : s._rf_obj.rxBuffer.length < 32768 := by omega
    simp only [rfAvailable, hact, if_false, toInt16, h1, h2, if_true]
  have hmax := maxlen.isLt
  rw [contents_length]
  -- the clamped count
  have havail : (if rfAvailable s > (maxlen.val : Int) then (maxlen.val : Int)
      else rfAvailable s) = ((min s._rf_obj.rxBuffer.length maxlen.val : Nat) : Int) := by
    rw [hav]
    by_cases hgt : ((s._rf_obj.rxBuffer.length : Nat) : Int) > (maxlen.val : Int)
    · simp only [hgt, if_true]; omega
    · simp only [hgt, if_false]; omega
  obtain ⟨l1, -, -, l4⟩ := rfGetBuffer_loop_spec (min s._rf_obj.rxBuffer.length maxlen.val) 0
    s._rf_obj.rxBuffer (fun i => if i < maxlen.val then 0 else dest i) hinv (Nat.min_le_left _ _)
  have hres : rfGetBuffer s dest maxlen =
      (((min s._rf_obj.rxBuffer.length maxlen.val : Nat) : Int),
        { s with _rf_obj := { s._rf_obj with rxBuffer :=
            (rfGetBuffer_loop (min s._rf_obj.rxBuffer.length maxlen.val) 0 s._rf_obj.rxBuffer
              (fun i => if i < maxlen.val then 0 else dest i)).1 } },
        (rfGetBuffer_loop (min s._rf_obj.rxBuffer.length maxlen.val) 0 s._rf_obj.rxBuffer
          (fun i => if i < maxlen.val then 0 else dest i)).2) := by
    simp only [rfGetBuffer, hact, if_false, havail, Int.toNat_ofNat]
  rw [hres]
  refine ⟨rfl, ?_, ?_, l1⟩
  · apply List.ext_getElem
    · simp only [List.length_map, List.length_range, List.length_append, List.length_take,
        List.length_replicate, contents_length]
      omega
    · intro j h1 h2
      simp only [List.length_map, List.length_range] at h1
      simp only [List.getElem_map, List.getElem_range]
      rw [l4 j]
      simp only [Nat.zero_le, true_and, Nat.zero_add, Nat.sub_zero]
      by_cases hj : j < min s._rf_obj.rxBuffer.length maxlen.val
      · simp only [hj, if_true]
        have hjl : j < (s._rf_obj.rxBuffer.contents.take maxlen.val).length := by
          rw [List.length_take, contents_length]; omega
        rw [List.getElem_append_left hjl, List.getElem_take]
        have hjc : j < s._rf_obj.rxBuffer.contents.length := by
          rw [contents_length]; omega
        rw [List.getD_eq_getElem _ _ hjc]
      · simp only [hj, if_false, h1, if_true]
        have hjl : (s._rf_obj.rxBuffer.contents.take maxlen.val).length ≤ j := by
          rw [List.length_take, contents_length]; omega
        rw [List.getElem_append_right hjl, List.getElem_replicate]
  · intro j hj
    show (rfGetBuffer_loop _ 0 _ _).2 j = dest j
    rw [l4 j]
    have h1 : ¬ (0 ≤ j ∧ j < 0 + min s._rf_obj.rxBuffer.length maxlen.val) := by omega
    have h2 : ¬ (j < maxlen.val) := by omega
    simp only [h1, h2, if_false]

/-- Witness of C9, the example of the specification: the receive buffer holds
`0x41, 0x42, 0x43` and `maxLen` is 6; the call returns 3 and `dest` is
`0x41, 0x42, 0x43, 0, 0, 0`. -/
theorem rfGetBuffer_zero_fill_witness :
    threeBytes._rf_obj.inited ≠ 0 ∧ threeBytes.Wf ∧
      threeBytes._rf_obj.rxBuffer.contents = [0x41, 0x42, 0x43] ∧
      (rfGetBuffer threeBytes (fun _ => 0xEE) 6).1 = 3 ∧
      (List.range 6).map (rfGetBuffer threeBytes (fun _ => 0xEE) 6).2.2 =
        [0x41, 0x42, 0x43, 0, 0, 0] :=
  ⟨by decide, by decide, by decide,
    (rfGetBuffer_zero_fill threeBytes (fun _ => 0xEE) 6 (by decide) (by decide)).1.trans
      (by decide),
    (rfGetBuffer_zero_fill threeBytes (fun _ => 0xEE) 6 (by decide) (by decide)).2.1.trans
      (by decide)⟩

/-- The force-to-idle sequence touches transceiver registers only. -/
theorem rf_off_state_obj (s : RfState) : (_rf_off_state s).2._rf_obj = s._rf_obj := by
  simp only [_rf_off_state, readStatus]
  split
  · split
    · split <;> rfl
    · rfl
  · rfl

/-- `rfTerm` always leaves the instance inactive. -/
theorem rfTerm_inited (s : RfState) : (rfTerm s)._rf_obj.inited = 0 := by
  by_cases h : s._rf_obj.inited = 0
  · simp [rfTerm, h]
  · simp only [rfTerm, h, if_false]
    rw [rf_off_state_obj]

/-- On an inactive instance the read and write calls return -1 and change nothing. -/
theorem inactive_calls (t : RfState) (h : t._rf_obj.inited = 0) (fuel : Nat) (b : uint8_t)
    (dest : Nat → uint8_t) (maxlen : uint8_t) (data : Nat → uint8_t) (len : uint8_t) :
    rfAvailable t = -1 ∧ rfGetByte t = (-1, t) ∧ rfPutByte fuel t b = some (-1, t) ∧
      rfGetBuffer t dest maxlen = (-1, t, dest) ∧
      rfPutBuffer fuel t data len = some (-1, t, data) := by
  simp [rfAvailable, rfGetByte, rfPutByte, rfGetBuffer, rfPutBuffer, h]

/-- C10: in the state left by `rfTerm()`, and in every state with `inited == 0`,
`rfAvailable()`, `rfGetByte()` and `rfPutByte(b)` return -1, and `rfGetBuffer(dest, maxLen)`
and `rfPutBuffer(data, len)` return -1 with `dest` and `data` as they were, for all
arguments; none of the calls changes the state. -/
theorem inactive_no_ops (s : RfState) (fuel : Nat) (b : uint8_t) (dest : Nat → uint8_t)
    (maxlen : uint8_t) (data : Nat → uint8_t) (len : uint8_t) :
    (rfAvailable (rfTerm s) = -1 ∧ rfGetByte (rfTerm s) = (-1, rfTerm s) ∧
      rfPutByte fuel (rfTerm s) b = some (-1, rfTerm s) ∧
      rfGetBuffer (rfTerm s) dest maxlen = (-1, rfTerm s, dest) ∧
      rfPutBuffer fuel (rfTerm s) data len = some (-1, rfTerm s, data)) ∧
    (∀ t : RfState, t._rf_obj.inited = 0 →
      rfAvailable t = -1 ∧ rfGetByte t = (-1, t) ∧ rfPutByte fuel t b = some (-1, t) ∧
      rfGetBuffer t dest maxlen = (-1, t, dest) ∧
      rfPutBuffer fuel t data len = some (-1, t, data)) :=
  ⟨inactive_calls (rfTerm s) (rfTerm_inited s) fuel b dest maxlen data len,
    fun t h => inactive_calls t h fuel b dest maxlen data len⟩

/-- Witness of C10: a radio with three received bytes whose `inited` is 0 answers -1 to
`rfAvailable()`. -/
theorem inactive_no_ops_witness :
    offRadio._rf_obj.inited = 0 ∧ rfAvailable offRadio = -1 ∧
      rfAvailable (rfTerm threeBytes) = -1 :=
  ⟨rfl,
    ((inactive_no_ops threeBytes 0 0 (fun _ => 0) 0 (fun _ => 0) 0).2 offRadio rfl).1,
    (inactive_no_ops threeBytes 0 0 (fun _ => 0) 0 (fun _ => 0) 0).1.1⟩

/-! ## Radio: inactive instance, termination -/

/-- On an inactive instance `rfTerm`, `rfPutString` and `rfTransmitNow` return at once and
change nothing. -/
theorem inactive_calls_more (t : RfState) (h : t._rf_obj.inited = 0) (fuel : Nat)
    (data : Nat → uint8_t) (n : Nat) :
    rfTerm t = t ∧ rfPutString fuel t data n = some (-1, t) ∧ rfTransmitNow fuel t = some t := by
  simp [rfTerm, rfPutString, rfTransmitNow, h]

/-- `rfFlushReceiveBuffer` writes the receive length and `rxOverflow` only. -/
theorem rfFlushReceiveBuffer_frame (s : RfState) :
    (rfFlushReceiveBuffer s)._rf_obj.rxBuffer.length = 0 ∧
      (rfFlushReceiveBuffer s)._rf_obj.rxOverflow = 0 ∧
      { rfFlushReceiveBuffer s with _rf_obj := { (rfFlushReceiveBuffer s)._rf_obj with
          rxBuffer := { (rfFlushReceiveBuffer s)._rf_obj.rxBuffer with
            length := s._rf_obj.rxBuffer.length },
          rxOverflow := s._rf_obj.rxOverflow } } = s :=
  ⟨rfl, rfl, rfl⟩

/-- C11 at failing inputs: `rfTerm` on a radio with three received bytes leaves an inactive
instance whose receive buffer still holds them, and `rfFlushReceiveBuffer`, which has no
`inited` test, then sets the receive length to 0; after an `rfInit` that aborts on a
transceiver that never reports `TRX_OFF`, the instance is inactive with `rxOverflow` still
65534, and `rfFlushReceiveBuffer` sets it to 0. -/
theorem rfFlushReceiveBuffer_touches_inactive :
    (rfTerm threeBytes)._rf_obj.inited = 0 ∧
      (rfTerm threeBytes)._rf_obj.rxBuffer.length = 3 ∧
      (rfFlushReceiveBuffer (rfTerm threeBytes))._rf_obj.rxBuffer.length = 0 ∧
      (rfInit 1 stuckRadio 1).map
        (fun t => (t._rf_obj.inited, t._rf_obj.rxOverflow,
          (rfFlushReceiveBuffer t)._rf_obj.rxOverflow)) = some (0, 65534, 0) := by
  decide

/-- C15: `rfTerm()` with `inited == 0` changes nothing, neither in the instance nor in the
registers; with `inited != 0` it ends with `rfInited() == 0`, `rxOverflow == 0`, the sleep
bit `SLPTR` set in `TRXPR` and `IRQ_MASK == 0`, whatever the force-to-idle sequence reads,
and both ring buffers are as before. -/
theorem rfTerm_effect (s : RfState) :
    (s._rf_obj.inited = 0 → rfTerm s = s) ∧
    (s._rf_obj.inited ≠ 0 →
      rfInited (rfTerm s) = 0 ∧ (rfTerm s)._rf_obj.rxOverflow = 0 ∧
      (rfTerm s).TRXPR &&& (1 <<< SLPTR) ≠ 0 ∧ (rfTerm s).IRQ_MASK = 0 ∧
      (rfTerm s)._rf_obj.rxBuffer = s._rf_obj.rxBuffer ∧
      (rfTerm s)._rf_obj.txBuffer = s._rf_obj.txBuffer) := by
  constructor
  · intro h
    simp [rfTerm, h]
  · intro h
    have hi := rfTerm_inited s
    refine ⟨?_, ?_, ?_, ?_, ?_, ?_⟩
    · simp only [rfInited, hi]
    · simp only [rfTerm, h, if_false]
      rw [rf_off_state_obj]
    · simp only [rfTerm, h, if_false]
      decide
    · simp only [rfTerm, h, if_false]
    · simp only [rfTerm, h, if_false]
      rw [rf_off_state_obj]
    · simp only [rfTerm, h, if_false]
      rw [rf_off_state_obj]

/-- Witness of C15: `rfTerm` on a radio with three received bytes, and on the same radio
once inactive. -/
theorem rfTerm_effect_witness :
    threeBytes._rf_obj.inited ≠ 0 ∧ offRadio._rf_obj.inited = 0 ∧
      rfInited (rfTerm threeBytes) = 0 ∧ (rfTerm threeBytes).IRQ_MASK = 0 ∧
      (rfTerm threeBytes)._rf_obj.rxBuffer.contents = [0x41, 0x42, 0x43] ∧
      rfTerm offRadio = offRadio :=
  ⟨by decide, rfl,
    ((rfTerm_effect threeBytes).2 (by decide)).1,
    ((rfTerm_effect threeBytes).2 (by decide)).2.2.2.1,
    by rw [((rfTerm_effect threeBytes).2 (by decide)).2.2.2.2.1]; decide,
    (rfTerm_effect offRadio).1 rfl⟩

/-! ## Radio: byte read -/

/-- C20: `rfAvailable()` returns -1 on an inactive instance and the receive length on an
active one; `rfGetByte()` returns -1 exactly when the instance is inactive or
`rfAvailable()` is 0, and otherwise it returns the oldest received byte, a value in 0..255,
removes it and lowers `rfAvailable()` by exactly 1. -/
theorem rfAvailable_rfGetByte (s : RfState) (hwf : s._rf_obj.inited ≠ 0 → s.Wf) :
    (s._rf_obj.inited = 0 → rfAvailable s = -1) ∧
    (s._rf_obj.inited ≠ 0 → rfAvailable s = (s._rf_obj.rxBuffer.length : Int)) ∧
    ((rfGetByte s).1 = -1 ↔ (s._rf_obj.inited = 0 ∨ rfAvailable s = 0)) ∧
    (s._rf_obj.inited ≠ 0 → rfAvailable s ≠ 0 →
      ∃ x t, s._rf_obj.rxBuffer.contents = x :: t ∧ (rfGetByte s).1 = (x.val : Int) ∧
        0 ≤ (rfGetByte s).1 ∧ (rfGetByte s).1 ≤ 255 ∧
        (rfGetByte s).2._rf_obj.rxBuffer.contents = t ∧
        rfAvailable (rfGetByte s).2 = rfAvailable s - 1) := by
  by_cases hact : s._rf_obj.inited = 0
  · refine ⟨fun _ => by simp [rfAvailable, hact], fun h => absurd hact h, ?_,
      fun h => absurd hact h⟩
    simp [rfGetByte, hact]
  · obtain ⟨hinv, hsize, -, -⟩ := hwf hact
    have hk : s._rf_obj.rxBuffer.length ≤ 256 := by
      have := hinv.2.2.1
      rw [hsize] at this
      exact this
    have hav : ∀ n : Nat, n ≤ 256 → toInt16 n = (n : Int) := by
      intro n hn
      have h1 : n % USHORT = n := Nat.mod_eq_of_lt (by unfold USHORT; omega)
      have h2 : n < 32768 := by omega
      simp only [toInt16, h1, h2, if_true]
    have ha : rfAvailable s = (s._rf_obj.rxBuffer.length : Int) := by
      simp only [rfAvailable, hact, if_false, hav _ hk]
    have hg : rfGetByte s = ((bufferGet s._rf_obj.rxBuffer).1,
        { s with _rf_obj := { s._rf_obj with rxBuffer := (bufferGet s._rf_obj.rxBuffer).2 } }) := by
      simp only [rfGetByte, hact, if_false]
    refine ⟨fun h => absurd h hact, fun _ => ha, ?_, ?_⟩
    · rw [hg, ha]
      by_cases hl : s._rf_obj.rxBuffer.length = 0
      · simp [bufferGet_empty _ hl, hl]
      · rw [bufferGet_some _ hinv hl]
        simp only [hact, false_or]
        constructor
        · intro h; omega
        · intro h; omega
    · intro _ hne
      rw [ha] at hne
      have hl : s._rf_obj.rxBuffer.length ≠ 0 := by omega
      have hc := contents_get _ hinv hl
      have hgs := bufferGet_some _ hinv hl
      have hlen : (bufferGet s._rf_obj.rxBuffer).2.length = s._rf_obj.rxBuffer.length - 1 := by
        rw [hgs]
      have hx := (s._rf_obj.rxBuffer.data s._rf_obj.rxBuffer.current).isLt
      refine ⟨s._rf_obj.rxBuffer.data s._rf_obj.rxBuffer.current,
        (bufferGet s._rf_obj.rxBuffer).2.contents, hc, ?_, ?_, ?_, ?_, ?_⟩
      · rw [hg, hgs]
      · rw [hg, hgs]; simp
      · rw [hg, hgs]; simp only; omega
      · rw [hg]
      · rw [hg, ha]
        simp only [rfAvailable, hact, if_false, hlen]
        rw [hav _ (by omega)]
        omega

/-- Witness of C20: a radio holding `A`, `B`, `C`: three bytes available, `rfGetByte`
returns `A` and two bytes remain available. -/
theorem rfAvailable_rfGetByte_witness :
    threeBytes._rf_obj.inited ≠ 0 ∧ threeBytes.Wf ∧ rfAvailable threeBytes = 3 ∧
      ((rfGetByte threeBytes).1 = -1 ↔
        (threeBytes._rf_obj.inited = 0 ∨ rfAvailable threeBytes = 0)) ∧
      (rfGetByte threeBytes).1 = 0x41 ∧ rfAvailable (rfGetByte threeBytes).2 = 2 :=
  ⟨by decide, by decide,
    ((rfAvailable_rfGetByte threeBytes (fun _ => by decide)).2.1 (by decide)).trans rfl,
    (rfAvailable_rfGetByte threeBytes (fun _ => by decide)).2.2.1,
    by decide, by decide⟩

/-! ## Radio: initialisation -/

/-- The wait for the end of a state transition ends at the first read of `TRX_STATUS` that
is not `STATE_TRANSITION_IN_PROGRESS`; it changes nothing but the reads consumed. -/
theorem waitTransition_some (fuel : Nat) (s : RfState) (m : Nat) (hm : m < fuel)
    (hbusy : ∀ i, i < m → s.TRX_STATUS i % 256 = STATE_TRANSITION_IN_PROGRESS)
    (hdone : s.TRX_STATUS m % 256 ≠ STATE_TRANSITION_IN_PROGRESS) :
    waitTransition fuel s =
      some { s with TRX_STATUS := fun n => s.TRX_STATUS (n + (m + 1)) } := by
  induction fuel generalizing s m with
  | zero => omega
  | succ fuel ih =>
    rw [waitTransition]
    cases m with
    | zero =>
      simp only [readStatus, hdone, if_false, Nat.zero_add]
    | succ m =>
      have h0 := hbusy 0 (by omega)
      simp only [readStatus, h0, if_true]
      rw [ih { s with TRX_STATUS := fun n => s.TRX_STATUS (n + 1) } m (by omega)
        (fun i hi => hbusy (i + 1) (by omega)) hdone]
      simp only [Nat.add_assoc, Nat.add_comm 1]

/-- The force-to-idle sequence writes `TRX_STATE` and `TRXPR` and consumes reads of
`TRX_STATUS`; everything else is as before. -/
theorem rf_off_state_frame (s : RfState) :
    (_rf_off_state s).2._rf_obj = s._rf_obj ∧ (_rf_off_state s).2.IRQ_MASK = s.IRQ_MASK ∧
      (_rf_off_state s).2.PHY_CC_CCA = s.PHY_CC_CCA ∧
      (_rf_off_state s).2.TRX_CTRL_1 = s.TRX_CTRL_1 ∧
      (_rf_off_state s).2.PHY_TX_PWR = s.PHY_TX_PWR ∧
      (_rf_off_state s).2.txFrames = s.txFrames ∧ (_rf_off_state s).2.TRXFB = s.TRXFB ∧
      (_rf_off_state s).2._rf_signal = s._rf_signal := by
  simp only [_rf_off_state, readStatus]
  split
  · split
    · split <;> exact ⟨rfl, rfl, rfl, rfl, rfl, rfl, rfl, rfl⟩
    · exact ⟨rfl, rfl, rfl, rfl, rfl, rfl, rfl, rfl⟩
  · exact ⟨rfl, rfl, rfl, rfl, rfl, rfl, rfl, rfl⟩

/-- The force-to-idle sequence fails exactly when none of its three reads of `TRX_STATUS`
shows `TRX_OFF` in the low five bits. -/
theorem rf_off_state_result (s : RfState) :
    (_rf_off_state s).1 = false ↔
      ((s.TRX_STATUS 0 % 256) &&& 0x1F ≠ TRX_OFF ∧ (s.TRX_STATUS 1 % 256) &&& 0x1F ≠ TRX_OFF ∧
        (s.TRX_STATUS 2 % 256) &&& 0x1F ≠ TRX_OFF) := by
  simp only [_rf_off_state, readStatus]
  by_cases h0 : (s.TRX_STATUS 0 % 256) &&& 0x1F ≠ TRX_OFF
  · by_cases h1 : (s.TRX_STATUS 1 % 256) &&& 0x1F ≠ TRX_OFF
    · by_cases h2 : (s.TRX_STATUS 2 % 256) &&& 0x1F ≠ TRX_OFF
      · simp [h0, h1, h2]
      · simp [h0, h1, h2]
    · simp [h0, h1]
  · simp [h0]

/-- `rfInit` is its parts in sequence. -/
theorem rfInit_eq (fuel : Nat) (s : RfState) (channel : uint8_t) :
    rfInit fuel s channel =
      match waitTransition fuel (rfInit_reset s) with
      | none => none
      | some s1 =>
        if !(_rf_off_state (rfInit_wake s1)).1 then some (_rf_off_state (rfInit_wake s1)).2
        else some (rfInit_finish (rfInit_channel channel) (_rf_off_state (rfInit_wake s1)).2) :=
  rfl

/-- What `rfInit_wake` leaves for the force-to-idle sequence. -/
theorem rfInit_wake_frame (s : RfState) :
    (rfInit_wake s).TRX_STATUS = (fun n => s.TRX_STATUS (n + 1)) ∧
      (rfInit_wake s).IRQ_MASK = 0 ∧ (rfInit_wake s)._rf_obj = s._rf_obj ∧
      (rfInit_wake s).PHY_CC_CCA = s.PHY_CC_CCA ∧ (rfInit_wake s).txFrames = s.txFrames := by
  by_cases h : (s.TRX_STATUS 0 % 256) &&& 0x1F = SLEEP <;>
    simp [rfInit_wake, readStatus, h]

/-- When the wait for the end of a state transition ends at read `m`, `rfInit` returns:
with `inited` still 0 if the three following checks of the force-to-idle sequence (reads
`m + 2`, `m + 3`, `m + 4`) all fail, and after its last statements otherwise. -/
theorem rfInit_cases (fuel : Nat) (s : RfState) (channel : uint8_t) (m : Nat) (hm : m < fuel)
    (hbusy : ∀ i, i < m → s.TRX_STATUS i % 256 = STATE_TRANSITION_IN_PROGRESS)
    (hdone : s.TRX_STATUS m % 256 ≠ STATE_TRANSITION_IN_PROGRESS) :
    ∃ pre : RfState,
      pre._rf_obj = (rfInit_reset s)._rf_obj ∧ pre.IRQ_MASK = 0 ∧
      pre.PHY_CC_CCA = s.PHY_CC_CCA ∧ pre.txFrames = s.txFrames ∧
      ((_rf_off_state pre).1 = false ↔
        ((s.TRX_STATUS (m + 2) % 256) &&& 0x1F ≠ TRX_OFF ∧
          (s.TRX_STATUS (m + 3) % 256) &&& 0x1F ≠ TRX_OFF ∧
          (s.TRX_STATUS (m + 4) % 256) &&& 0x1F ≠ TRX_OFF)) ∧
      rfInit fuel s channel =
        some (if !(_rf_off_state pre).1 then (_rf_off_state pre).2
          else rfInit_finish (rfInit_channel channel) (_rf_off_state pre).2) := by
  have hw := waitTransition_some fuel (rfInit_reset s) m hm hbusy hdone
  obtain ⟨w1, w2, w3, w4, w5⟩ := rfInit_wake_frame
    { rfInit_reset s with TRX_STATUS := fun n => (rfInit_reset s).TRX_STATUS (n + (m + 1)) }
  refine ⟨rfInit_wake { rfInit_reset s with
    TRX_STATUS := fun n => (rfInit_reset s).TRX_STATUS (n + (m + 1)) }, w3, w2, w4, w5, ?_, ?_⟩
  · rw [rf_off_state_result, w1]
    have e2 : 0 + 1 + (m + 1) = m + 2 := by omega
    have e3 : 1 + 1 + (m + 1) = m + 3 := by omega
    have e4 : 2 + 1 + (m + 1) = m + 4 := by omega
    show ((s.TRX_STATUS (0 + 1 + (m + 1)) % 256) &&& 0x1F ≠ TRX_OFF ∧
      (s.TRX_STATUS (1 + 1 + (m + 1)) % 256) &&& 0x1F ≠ TRX_OFF ∧
      (s.TRX_STATUS (2 + 1 + (m + 1)) % 256) &&& 0x1F ≠ TRX_OFF) ↔ _
    rw [e2, e3, e4]
  · rw [rfInit_eq, hw]
    simp only
    split <;> rfl

/-- The channel bits: with the channel in range, the value written to `PHY_CC_CCA` has
`channel + 10` in its low five bits and the old upper three bits. -/
theorem channel_bits (x c : Nat) (h1 : 1 ≤ c) (h2 : c ≤ 16) :
    (((x &&& 0xE0) ||| (c + 10) % 256) % 256) &&& 0x1F = c + 10 ∧
      (((x &&& 0xE0) ||| (c + 10) % 256) % 256) &&& 0xE0 = x &&& 0xE0 := by
  have hx : x &&& 0xE0 = (x % 256) &&& 0xE0 := by
    have e : (0xE0 : Nat) = 255 &&& 0xE0 := by decide
    have e255 : x &&& 255 = x % 256 := Nat.and_pow_two_sub_one_eq_mod x 8
    calc x &&& 0xE0 = x &&& (255 &&& 0xE0) := by rw [← e]
      _ = (x &&& 255) &&& 0xE0 := by rw [Nat.land_assoc]
      _ = (x % 256) &&& 0xE0 := by rw [e255]
  rw [hx]
  have hz : x % 256 < 256 := Nat.mod_lt _ (by decide)
  have hq : ∀ z : Fin 256, z.val &&& 0xE0 = 32 * (z.val / 32) := by
    set_option maxRecDepth 100000 in decide
  have key : ∀ q : Fin 8, ∀ k : Fin 17, 1 ≤ k.val →
      (((32 * q.val) ||| (k.val + 10) % 256) % 256) &&& 0x1F = k.val + 10 ∧
        (((32 * q.val) ||| (k.val + 10) % 256) % 256) &&& 0xE0 = 32 * q.val := by
    set_option maxRecDepth 100000 in decide
  have h32 := hq ⟨x % 256, hz⟩
  simp only at h32
  rw [h32]
  exact key ⟨x % 256 / 32, by omega⟩ ⟨c, by omega⟩ h1

/-- The instance state after `rfInit_finish`. -/
theorem rfInit_finish_frame (c : Nat) (s : RfState) :
    (rfInit_finish c s)._rf_obj = { s._rf_obj with rxOverflow := 0, txIdle := 1, inited := c } ∧
      (rfInit_finish c s).PHY_CC_CCA = ((s.PHY_CC_CCA &&& 0xE0) ||| (c + 10) % 256) % 256 ∧
      (rfInit_finish c s).IRQ_MASK =
        ((1 <<< RX_START_EN) ||| (1 <<< RX_END_EN) ||| (1 <<< TX_END_EN)) % 256 ∧
      (rfInit_finish c s).txFrames = s.txFrames :=
  ⟨rfl, rfl, rfl, rfl⟩

/-- A channel outside `1..16` is replaced by channel 1 before anything else is done. -/
theorem rfInit_clamps (fuel : Nat) (s : RfState) (channel : uint8_t)
    (h : channel.val < 1 ∨ 16 < channel.val) :
    rfInit fuel s channel = rfInit fuel s 1 := by
  have hc : rfInit_channel channel = rfInit_channel 1 := by
    simp only [rfInit_channel, RF_CHANNEL_MIN, RF_CHANNEL_MAX, gt_iff_lt, h, if_true]
    decide
  rw [rfInit_eq, rfInit_eq, hc]

/-- C12: when `rfInit(c)` succeeds (the wait for the end of a state transition ends and one
of the three checks of the force-to-idle sequence reads `TRX_OFF`), then for `c` in `1..16`
the register `PHY_CC_CCA` has `c + 10` in its low five bits and its old upper three bits;
for `c` outside `1..16` the call is `rfInit(1)` and programs 11. -/
theorem channel_mapping (fuel : Nat) (s : RfState) (channel : uint8_t) (m : Nat)
    (hm : m < fuel)
    (hbusy : ∀ i, i < m → s.TRX_STATUS i % 256 = STATE_TRANSITION_IN_PROGRESS)
    (hdone : s.TRX_STATUS m % 256 ≠ STATE_TRANSITION_IN_PROGRESS)
    (hoff : (s.TRX_STATUS (m + 2) % 256) &&& 0x1F = TRX_OFF ∨
      (s.TRX_STATUS (m + 3) % 256) &&& 0x1F = TRX_OFF ∨
      (s.TRX_STATUS (m + 4) % 256) &&& 0x1F = TRX_OFF) :
    (1 ≤ channel.val → channel.val ≤ 16 →
      ∃ t, rfInit fuel s channel = some t ∧ t._rf_obj.inited = channel.val ∧
        t.PHY_CC_CCA &&& 0x1F = channel.val + 10 ∧
        t.PHY_CC_CCA &&& 0xE0 = s.PHY_CC_CCA &&& 0xE0) ∧
    (channel.val < 1 ∨ 16 < channel.val →
      rfInit fuel s channel = rfInit fuel s 1 ∧
      ∃ t, rfInit fuel s channel = some t ∧ t._rf_obj.inited = 1 ∧
        t.PHY_CC_CCA &&& 0x1F = 11 ∧ t.PHY_CC_CCA &&& 0xE0 = s.PHY_CC_CCA &&& 0xE0) := by
  obtain ⟨pre, -, -, p3, -, p5, p6⟩ := rfInit_cases fuel s channel m hm hbusy hdone
  have hok : (_rf_off_state pre).1 = true := by
    cases hb : (_rf_off_state pre).1 with
    | true => rfl
    | false =>
      have := p5.mp hb
      rcases hoff with h | h | h
      · exact absurd h this.1
      · exact absurd h this.2.1
      · exact absurd h this.2.2
  have hcca : (_rf_off_state pre).2.PHY_CC_CCA = s.PHY_CC_CCA := by
    rw [(rf_off_state_frame pre).2.2.1, p3]
  simp only [hok, Bool.not_true, Bool.false_eq_true, if_false] at p6
  constructor
  · intro h1 h2
    have hc : rfInit_channel channel = channel.val := by
      have : ¬ (channel.val < RF_CHANNEL_MIN ∨ channel.val > RF_CHANNEL_MAX) := by
        unfold RF_CHANNEL_MIN RF_CHANNEL_MAX; omega
      simp only [rfInit_channel, this, if_false]
    rw [hc] at p6
    have hb := channel_bits s.PHY_CC_CCA channel.val h1 h2
    refine ⟨_, p6, rfl, ?_, ?_⟩
    · rw [(rfInit_finish_frame _ _).2.1, hcca]; exact hb.1
    · rw [(rfInit_finish_frame _ _).2.1, hcca]; exact hb.2
  · intro h
    have hc : rfInit_channel channel = 1 := by
      simp only [rfInit_channel, RF_CHANNEL_MIN, RF_CHANNEL_MAX, gt_iff_lt, h, if_true]
    rw [hc] at p6
    have hb := channel_bits s.PHY_CC_CCA 1 (by decide) (by decide)
    refine ⟨rfInit_clamps fuel s channel h, _, p6, rfl, ?_, ?_⟩
    · rw [(rfInit_finish_frame _ _).2.1, hcca]; exact hb.1
    · rw [(rfInit_finish_frame _ _).2.1, hcca]; exact hb.2

/-- Witness of C12: on a radio whose channel register holds `0x6B`, `rfInit(16)` writes
`0x7A` (upper bits `011`, channel 26) and `rfInit(17)`, like `rfInit(0)`, is `rfInit(1)`
and writes `0x6B` (channel 11). -/
theorem channel_mapping_witness :
    (1 : Nat) < 3 ∧ readyRadio.TRX_STATUS 1 % 256 ≠ STATE_TRANSITION_IN_PROGRESS ∧
      (readyRadio.TRX_STATUS 3 % 256) &&& 0x1F = TRX_OFF ∧
      (∃ t, rfInit 3 readyRadio 16 = some t ∧ t._rf_obj.inited = 16 ∧
        t.PHY_CC_CCA &&& 0x1F = 26 ∧ t.PHY_CC_CCA &&& 0xE0 = 0x6B &&& 0xE0) ∧
      rfInit 3 readyRadio 17 = rfInit 3 readyRadio 1 ∧
      rfInit 3 readyRadio 0 = rfInit 3 readyRadio 1 ∧
      (rfInit 3 readyRadio 16).map (fun t => t.PHY_CC_CCA) = some 0x7A ∧
      (rfInit 3 readyRadio 17).map (fun t => t.PHY_CC_CCA) = some 0x6B :=
  ⟨by decide, by decide, by decide,
    (channel_mapping 3 readyRadio 16 1 (by decide)
      (fun i hi => by have : i = 0 := by omega
                      subst this; decide)
      (by decide) (Or.inl (by decide))).1 (by decide) (by decide),
    ((channel_mapping 3 readyRadio 17 1 (by decide)
      (fun i hi => by have : i = 0 := by omega
                      subst this; decide)
      (by decide) (Or.inl (by decide))).2 (Or.inr (by decide))).1,
    ((channel_mapping 3 readyRadio 0 1 (by decide)
      (fun i hi => by have : i = 0 := by omega
                      subst this; decide)
      (by decide) (Or.inl (by decide))).2 (Or.inl (by decide))).1,
    by decide, by decide⟩

/-- C13: if, after the wait for the end of a state transition, none of the three checks of
the force-to-idle sequence reads `TRX_OFF`, then `rfInit(channel)` returns, for every
channel and every prior state, with `rfInited() == 0`, `IRQ_MASK == 0` and `rxOverflow` as
it was before the call. -/
theorem init_aborts_when_stuck (fuel : Nat) (s : RfState) (channel : uint8_t) (m : Nat)
    (hm : m < fuel)
    (hbusy : ∀ i, i < m → s.TRX_STATUS i % 256 = STATE_TRANSITION_IN_PROGRESS)
    (hdone : s.TRX_STATUS m % 256 ≠ STATE_TRANSITION_IN_PROGRESS)
    (h1 : (s.TRX_STATUS (m + 2) % 256) &&& 0x1F ≠ TRX_OFF)
    (h2 : (s.TRX_STATUS (m + 3) % 256) &&& 0x1F ≠ TRX_OFF)
    (h3 : (s.TRX_STATUS (m + 4) % 256) &&& 0x1F ≠ TRX_OFF) :
    ∃ t, rfInit fuel s channel = some t ∧ rfInited t = 0 ∧ t.IRQ_MASK = 0 ∧
      t._rf_obj.rxOverflow = s._rf_obj.rxOverflow := by
  obtain ⟨pre, p1, p2, -, -, p5, p6⟩ := rfInit_cases fuel s channel m hm hbusy hdone
  have hfail : (_rf_off_state pre).1 = false := p5.mpr ⟨h1, h2, h3⟩
  simp only [hfail, Bool.not_false, if_true] at p6
  obtain ⟨f1, f2, -⟩ := rf_off_state_frame pre
  refine ⟨_, p6, ?_, ?_, ?_⟩
  · simp only [rfInited, f1, p1]; rfl
  · rw [f2, p2]
  · rw [f1, p1]; rfl

/-- Witness of C13: an active radio with `rxOverflow` at 65534 whose transceiver always
reads 0: `rfInit(5)` leaves it inactive with `IRQ_MASK` 0 and `rxOverflow` 65534. -/
theorem init_aborts_when_stuck_witness :
    stuckRadio._rf_obj.inited ≠ 0 ∧ stuckRadio._rf_obj.rxOverflow = 65534 ∧
      ∃ t, rfInit 1 stuckRadio 5 = some t ∧ rfInited t = 0 ∧ t.IRQ_MASK = 0 ∧
        t._rf_obj.rxOverflow = stuckRadio._rf_obj.rxOverflow :=
  ⟨by decide, rfl,
    init_aborts_when_stuck 1 stuckRadio 5 0 (by decide) (fun i hi => absurd hi (by omega))
      (by decide) (by decide) (by decide) (by decide)⟩

/-- C14: when the wait for the end of a state transition ends and one of the three checks
of the force-to-idle sequence reads `TRX_OFF`, `rfInit(channel)` returns, for every channel
and every prior state, with `rfInited()` equal to the channel brought into `1..16`,
`rxOverflow == 0`, `txIdle` set, the receive buffer empty with 256 bytes of capacity and the
transmit buffer empty with 128, so that `rfAvailable()` is 0 and `rfGetByte()` returns -1
right afterwards. -/
theorem init_success_state (fuel : Nat) (s : RfState) (channel : uint8_t) (m : Nat)
    (hm : m < fuel)
    (hbusy : ∀ i, i < m → s.TRX_STATUS i % 256 = STATE_TRANSITION_IN_PROGRESS)
    (hdone : s.TRX_STATUS m % 256 ≠ STATE_TRANSITION_IN_PROGRESS)
    (hoff : (s.TRX_STATUS (m + 2) % 256) &&& 0x1F = TRX_OFF ∨
      (s.TRX_STATUS (m + 3) % 256) &&& 0x1F = TRX_OFF ∨
      (s.TRX_STATUS (m + 4) % 256) &&& 0x1F = TRX_OFF) :
    ∃ t, rfInit fuel s channel = some t ∧
      rfInited t = (if 1 ≤ channel.val ∧ channel.val ≤ 16 then channel.val else 1) ∧
      t._rf_obj.rxOverflow = 0 ∧ t._rf_obj.txIdle = 1 ∧
      t._rf_obj.rxBuffer.length = 0 ∧ t._rf_obj.rxBuffer.size = 256 ∧
      bufferCapacity t._rf_obj.rxBuffer = 256 ∧
      t._rf_obj.txBuffer.length = 0 ∧ t._rf_obj.txBuffer.size = 128 ∧
      bufferCapacity t._rf_obj.txBuffer = 128 ∧ t.Wf ∧
      rfAvailable t = 0 ∧ rfGetByte t = (-1, t) := by
  obtain ⟨pre, p1, -, -, -, p5, p6⟩ := rfInit_cases fuel s channel m hm hbusy hdone
  have hok : (_rf_off_state pre).1 = true := by
    cases hb : (_rf_off_state pre).1 with
    | true => rfl
    | false =>
      have := p5.mp hb
      rcases hoff with h | h | h
      · exact absurd h this.1
      · exact absurd h this.2.1
      · exact absurd h this.2.2
  simp only [hok, Bool.not_true, Bool.false_eq_true, if_false] at p6
  have hobj : (rfInit_finish (rfInit_channel channel) (_rf_off_state pre).2)._rf_obj =
      { (rfInit_reset s)._rf_obj with
        rxOverflow := 0, txIdle := 1, inited := rfInit_channel channel } := by
    rw [(rfInit_finish_frame _ _).1, (rf_off_state_frame pre).1, p1]
  have hch : rfInit_channel channel =
      (if 1 ≤ channel.val ∧ channel.val ≤ 16 then channel.val else 1) := by
    unfold rfInit_channel RF_CHANNEL_MIN RF_CHANNEL_MAX
    by_cases h : 1 ≤ channel.val ∧ channel.val ≤ 16
    · have h' : ¬ (channel.val < 1 ∨ channel.val > 16) := by omega
      simp only [h, h', and_self, if_true, if_false]
    · have h' : channel.val < 1 ∨ channel.val > 16 := by omega
      simp only [h, h', if_true, if_false]
  have hpos : rfInit_channel channel ≠ 0 := by
    rw [hch]; split <;> omega
  have hlt : rfInit_channel channel < 256 := by
    have := channel.isLt
    rw [hch]; split <;> omega
  obtain ⟨t, ht⟩ : ∃ t, t = rfInit_finish (rfInit_channel channel) (_rf_off_state pre).2 :=
    ⟨_, rfl⟩
  rw [← ht] at p6 hobj
  have hin : t._rf_obj.inited = rfInit_channel channel := by rw [hobj]
  have hrx : t._rf_obj.rxBuffer =
      bufferReset s._rf_obj.rxBuffer s._rf_obj.rxBuffer.data RF_RX_BUFFER_SIZE := by
    rw [hobj]; rfl
  have htx : t._rf_obj.txBuffer =
      bufferReset s._rf_obj.txBuffer s._rf_obj.txBuffer.data RF_TX_BUFFER_SIZE := by
    rw [hobj]; rfl
  have hrl : t._rf_obj.rxBuffer.length = 0 := by rw [hrx]; rfl
  have hrs : t._rf_obj.rxBuffer.size = 256 := by rw [hrx]; rfl
  have htl : t._rf_obj.txBuffer.length = 0 := by rw [htx]; rfl
  have hts : t._rf_obj.txBuffer.size = 128 := by rw [htx]; rfl
  have hrc : t._rf_obj.rxBuffer.current = 0 := by rw [hrx]; rfl
  have htc : t._rf_obj.txBuffer.current = 0 := by rw [htx]; rfl
  refine ⟨t, p6, ?_, ?_, ?_, hrl, hrs, ?_, htl, hts, ?_, ?_, ?_, ?_⟩
  · simp only [rfInited, hin]
    rw [Nat.mod_eq_of_lt hlt, hch]
  · rw [hobj]
  · rw [hobj]
  · simp only [bufferCapacity, hrl, hrs, USHORT]
  · simp only [bufferCapacity, htl, hts, USHORT]
  · refine ⟨?_, hrs, ?_, hts⟩
    · simp only [cBuffer.Inv, hrl, hrs, hrc, USHORT]; omega
    · simp only [cBuffer.Inv, htl, hts, htc, USHORT]; omega
  · have hne : t._rf_obj.inited ≠ 0 := by rw [hin]; exact hpos
    simp only [rfAvailable, hne, if_false, hrl]
    rfl
  · have hne : t._rf_obj.inited ≠ 0 := by rw [hin]; exact hpos
    simp only [rfGetByte, hne, if_false]
    rw [bufferGet_empty _ hrl]

/-- Witness of C14: an inactive radio with stale bytes and `rxOverflow` 7, whose
transceiver reads `TRX_OFF` after one busy read: `rfInit(200)` ends on channel 1 with
empty buffers. -/
theorem init_success_state_witness :
    readyRadio._rf_obj.rxBuffer.length = 3 ∧ readyRadio._rf_obj.rxOverflow = 7 ∧
      ∃ t, rfInit 2 readyRadio 200 = some t ∧ rfInited t = 1 ∧
        t._rf_obj.rxOverflow = 0 ∧ rfAvailable t = 0 ∧ rfGetByte t = (-1, t) :=
  ⟨rfl, rfl,
    match init_success_state 2 readyRadio 200 1 (by decide)
      (fun i hi => by have : i = 0 := by omega
                      subst this; decide)
      (by decide) (Or.inl (by decide)) with
    | ⟨t, h1, h2, h3, _, _, _, _, _, _, _, _, h12, h13⟩ =>
      ⟨t, h1, h2.trans (by decide), h3, h12, h13⟩⟩

/-! ## Radio: byte and block write -/

/-- What `RF_LOAD_FRAME` does to the instance: only the transmit buffer changes, drained
by the loop. -/
theorem RF_LOAD_FRAME_obj (s : RfState) :
    (RF_LOAD_FRAME s)._rf_obj = { s._rf_obj with
      txBuffer := (RF_LOAD_FRAME_loop 126 0 s._rf_obj.txBuffer s.TRXFB).2.1 } :=
  rfl

/-- C16: `rfPutByte(b)` returns -1 exactly when the instance is inactive or the transmit
buffer already holds 128 bytes; otherwise it returns `b`, a value in 0..255, the push
appends `b` at the tail of the transmit buffer, and `RF_TX_FRAME` runs in that call, once,
if and only if the transmit length after the push is at least `HW_FRAME_TX_SIZE`; then the
first 126 buffered bytes leave the buffer, else the state is that of the push alone. -/
theorem rfPutByte_result (fuel : Nat) (s : RfState) (b : uint8_t)
    (hwf : s._rf_obj.inited ≠ 0 → s.Wf)
    (hpll : s._rf_obj.inited ≠ 0 → 126 ≤ s._rf_obj.txBuffer.length →
      ∃ m, m < fuel ∧ (s.TRX_STATUS m % 256) &&& PLL_ON ≠ 0) :
    ∃ r, rfPutByte fuel s b = some r ∧
      (r.1 = -1 ↔ (s._rf_obj.inited = 0 ∨ s._rf_obj.txBuffer.length = 128)) ∧
      (s._rf_obj.inited ≠ 0 → s._rf_obj.txBuffer.length < 128 →
        r.1 = (b.val : Int) ∧ 0 ≤ r.1 ∧ r.1 ≤ 255 ∧
        (bufferPut s._rf_obj.txBuffer b).2.contents = s._rf_obj.txBuffer.contents ++ [b] ∧
        (r.2.txFrames.length = s.txFrames.length + 1 ↔
          HW_FRAME_TX_SIZE ≤ s._rf_obj.txBuffer.length + 1) ∧
        (s._rf_obj.txBuffer.length + 1 < HW_FRAME_TX_SIZE →
          r.2 = { s with _rf_obj := { s._rf_obj with
            txBuffer := (bufferPut s._rf_obj.txBuffer b).2 } }) ∧
        (HW_FRAME_TX_SIZE ≤ s._rf_obj.txBuffer.length + 1 →
          r.2._rf_obj.txBuffer.contents =
            (s._rf_obj.txBuffer.contents ++ [b]).drop 126)) := by
  by_cases hact : s._rf_obj.inited = 0
  · refine ⟨(-1, s), by simp [rfPutByte, hact], by simp [hact], fun h => absurd hact h⟩
  · obtain ⟨-, -, hinv, hsize⟩ := hwf hact
    have hsz : s._rf_obj.txBuffer.size = 128 := hsize
    have hle : s._rf_obj.txBuffer.length ≤ 128 := by
      have := hinv.2.2.1; omega
    by_cases hfull : s._rf_obj.txBuffer.length = 128
    · -- the push fails and the full buffer is flushed
      have hput := bufferPut_full s._rf_obj.txBuffer b (by omega)
      obtain ⟨t, ht, -⟩ := RF_TX_FRAME_some fuel
        { s with _rf_obj := { s._rf_obj with txBuffer := (bufferPut s._rf_obj.txBuffer b).2 } }
        (hpll hact (by omega))
      have hge : (bufferPut s._rf_obj.txBuffer b).2.length ≥ HW_FRAME_TX_SIZE := by
        rw [hput]; show 127 ≤ s._rf_obj.txBuffer.length; omega
      refine ⟨((bufferPut s._rf_obj.txBuffer b).1, t), ?_, ?_, fun _ h => by omega⟩
      · simp only [rfPutByte, hact, if_false, hge, if_true, ht, Option.map_some']
      · simp [hput, hfull]
    · have hroom : s._rf_obj.txBuffer.length < s._rf_obj.txBuffer.size := by omega
      have hput := bufferPut_room s._rf_obj.txBuffer b hroom
      have hpi := bufferPut_inv s._rf_obj.txBuffer b hinv
      have hpc := contents_put s._rf_obj.txBuffer b hinv (by omega) hroom
      have hp1 : (bufferPut s._rf_obj.txBuffer b).1 = (b.val : Int) := by rw [hput]
      have hpl : (bufferPut s._rf_obj.txBuffer b).2.length = s._rf_obj.txBuffer.length + 1 := by
        rw [← contents_length, hpc, List.length_append, contents_length]; rfl
      have hb := b.isLt
      by_cases hfl : HW_FRAME_TX_SIZE ≤ s._rf_obj.txBuffer.length + 1
      · have h127 : 127 ≤ s._rf_obj.txBuffer.length + 1 := hfl
        obtain ⟨t, ht, hobj, -, hfr, -⟩ := RF_TX_FRAME_some fuel
          { s with _rf_obj := { s._rf_obj with
              txBuffer := (bufferPut s._rf_obj.txBuffer b).2 } }
          (hpll hact (by omega))
        obtain ⟨-, l2, -, -, -, -⟩ := load_loop_spec 126 0
          (bufferPut s._rf_obj.txBuffer b).2 s.TRXFB hpi (by omega)
        have hge : (bufferPut s._rf_obj.txBuffer b).2.length ≥ HW_FRAME_TX_SIZE := by
          rw [hpl]; exact hfl
        have htx : t._rf_obj.txBuffer = (RF_LOAD_FRAME_loop 126 0
            (bufferPut s._rf_obj.txBuffer b).2 s.TRXFB).2.1 := by
          rw [hobj]; rfl
        refine ⟨((bufferPut s._rf_obj.txBuffer b).1, t), ?_, ?_, ?_⟩
        · simp only [rfPutByte, hact, if_false, hge, if_true, ht, Option.map_some']
        · simp only [hp1, hact, hfull, or_self, iff_false]; omega
        · intro _ _
          refine ⟨hp1, by rw [hp1]; omega, by rw [hp1]; omega, hpc, ?_, ?_, ?_⟩
          · simp only [hfr, List.length_append, List.length_singleton, hfl]
          · intro hlt; omega
          · intro _
            rw [htx, l2, hpl, hpc]
            congr 1; omega
      · have hnge : ¬ ((bufferPut s._rf_obj.txBuffer b).2.length ≥ HW_FRAME_TX_SIZE) := by
          rw [hpl]; exact hfl
        refine ⟨((bufferPut s._rf_obj.txBuffer b).1,
          { s with _rf_obj := { s._rf_obj with
              txBuffer := (bufferPut s._rf_obj.txBuffer b).2 } }), ?_, ?_, ?_⟩
        · simp only [rfPutByte, hact, if_false, hnge]
        · simp only [hp1, hact, hfull, or_self, iff_false]; omega
        · intro _ _
          refine ⟨hp1, by rw [hp1]; omega, by rw [hp1]; omega, hpc, ?_, fun _ => rfl,
            fun h => absurd h hfl⟩
          simp only [hfl, iff_false]
          show ¬ (s.txFrames.length = s.txFrames.length + 1)
          omega

/-- Witness of C16: the byte `B` put into an idle radio is returned and buffered, with no
frame sent. -/
theorem rfPutByte_result_witness :
    idleRadio._rf_obj.inited ≠ 0 ∧ idleRadio.Wf ∧
      ∃ r, rfPutByte 1 idleRadio 0x42 = some r ∧
        (r.1 = -1 ↔ (idleRadio._rf_obj.inited = 0 ∨ idleRadio._rf_obj.txBuffer.length = 128)) ∧
        r.1 = 0x42 :=
  ⟨by decide, by decide,
    match rfPutByte_result 1 idleRadio 0x42 (fun _ => by decide)
      (fun _ _ => ⟨0, by decide, by decide⟩) with
    | ⟨r, h1, h2, h3⟩ => ⟨r, h1, h2, (h3 (by decide) (by decide)).1⟩⟩

/-- The push loop of `rfPutBuffer` is the copy loop of the frame-end handler, on the
transmit buffer. -/
theorem rfPutBuffer_loop_eq (data : Nat → uint8_t) (n i : Nat) (obj : cBufferObj) :
    rfPutBuffer_loop data n i obj.rxBuffer = (rxEndLoop data n i obj).rxBuffer := by
  induction n generalizing i obj with
  | zero => rfl
  | succ n ih =>
    rw [rfPutBuffer_loop, rxEndLoop]
    split
    · exact ih (i + 1) { obj with rxBuffer := (bufferPut obj.rxBuffer (data i)).2,
                                  rxOverflow := (obj.rxOverflow + 1) % USHORT }
    · exact ih (i + 1) { obj with rxBuffer := (bufferPut obj.rxBuffer (data i)).2 }

/-- The push loop of `rfPutBuffer` is a sequence of `bufferPut` calls. -/
theorem rfPutBuffer_loop_runOps (data : Nat → uint8_t) (n i : Nat) (tx : cBuffer) :
    rfPutBuffer_loop data n i tx =
      (runOps ((List.range' i n).map (fun j => BufOp.put (data j))) tx).2 := by
  induction n generalizing i tx with
  | zero => rfl
  | succ n ih =>
    rw [rfPutBuffer_loop, ih]
    simp only [List.range'_succ, List.map_cons, runOps, BufOp.apply]

/-- The push loop of `rfPutBuffer` appends the bytes that fit, in order. -/
theorem rfPutBuffer_loop_spec (data : Nat → uint8_t) (n : Nat) (tx : cBuffer)
    (h : tx.Inv) (hs : tx.size ≤ 32768) :
    (rfPutBuffer_loop data n 0 tx).contents =
        tx.contents ++ (List.range (min n (tx.size - tx.length))).map data ∧
      (rfPutBuffer_loop data n 0 tx).Inv ∧
      (rfPutBuffer_loop data n 0 tx).size = tx.size ∧
      (rfPutBuffer_loop data n 0 tx).length = tx.length + min n (tx.size - tx.length) := by
  obtain ⟨i1, -, i3, i4, -, i6, -⟩ := rxEndLoop_spec data n 0
    { id := 0, rxBuffer := tx, txBuffer := tx, rxOverflow := 0, txIdle := 0, inited := 0 } h hs
  have e := rfPutBuffer_loop_eq data n 0
    { id := 0, rxBuffer := tx, txBuffer := tx, rxOverflow := 0, txIdle := 0, inited := 0 }
  simp only at e i1 i3 i4 i6
  rw [e]
  refine ⟨?_, i3, i4, i6⟩
  rw [i1]
  congr 1
  apply List.map_congr_left
  intro j _
  rw [Nat.zero_add]

/-- C17: on an active radio instance with `t` bytes in the transmit buffer,
`rfPutBuffer(data, len)` returns `len` whatever is dropped, leaves `data` as it was, and
its pushes append exactly the first `min len (128 - t)` bytes of `data`, in order, to the
transmit buffer; the other bytes are stored nowhere. If fewer than `HW_FRAME_TX_SIZE` bytes
are then buffered, that is the final buffer and no frame is sent; otherwise one frame is
sent and the first 126 buffered bytes have left the buffer. -/
theorem rfPutBuffer_result (fuel : Nat) (s : RfState) (data : Nat → uint8_t) (len : uint8_t)
    (hact : s._rf_obj.inited ≠ 0) (hwf : s.Wf)
    (hpll : HW_FRAME_TX_SIZE ≤
        s._rf_obj.txBuffer.length + min len.val (128 - s._rf_obj.txBuffer.length) →
      ∃ m, m < fuel ∧ (s.TRX_STATUS m % 256) &&& PLL_ON ≠ 0) :
    (rfPutBuffer_loop data len.val 0 s._rf_obj.txBuffer).contents =
        s._rf_obj.txBuffer.contents ++
          (List.range (min len.val (128 - s._rf_obj.txBuffer.length))).map data ∧
    ∃ r, rfPutBuffer fuel s data len = some ((len.val : Int), r, data) ∧
      (s._rf_obj.txBuffer.length + min len.val (128 - s._rf_obj.txBuffer.length) <
          HW_FRAME_TX_SIZE →
        r = { s with _rf_obj := { s._rf_obj with
          txBuffer := rfPutBuffer_loop data len.val 0 s._rf_obj.txBuffer } }) ∧
      (HW_FRAME_TX_SIZE ≤
          s._rf_obj.txBuffer.length + min len.val (128 - s._rf_obj.txBuffer.length) →
        r._rf_obj.txBuffer.contents =
          (s._rf_obj.txBuffer.contents ++
            (List.range (min len.val (128 - s._rf_obj.txBuffer.length))).map data).drop 126 ∧
        r.txFrames.length = s.txFrames.length + 1) := by
  obtain ⟨-, -, hinv, hsize⟩ := hwf
  have hsz : s._rf_obj.txBuffer.size = 128 := hsize
  obtain ⟨l1, l2, l3, l4⟩ := rfPutBuffer_loop_spec data len.val s._rf_obj.txBuffer hinv
    (by omega)
  rw [hsz] at l1 l4
  refine ⟨l1, ?_⟩
  by_cases hfl : HW_FRAME_TX_SIZE ≤
      s._rf_obj.txBuffer.length + min len.val (128 - s._rf_obj.txBuffer.length)
  · obtain ⟨t, ht, hobj, -, hfr, -⟩ := RF_TX_FRAME_some fuel
      { s with _rf_obj := { s._rf_obj with
          txBuffer := rfPutBuffer_loop data len.val 0 s._rf_obj.txBuffer } } (hpll hfl)
    obtain ⟨-, d2, -, -, -, -⟩ := load_loop_spec 126 0
      (rfPutBuffer_loop data len.val 0 s._rf_obj.txBuffer) s.TRXFB l2 (by omega)
    have hge : (rfPutBuffer_loop data len.val 0 s._rf_obj.txBuffer).length ≥
        HW_FRAME_TX_SIZE := by rw [l4]; exact hfl
    have htx : t._rf_obj.txBuffer = (RF_LOAD_FRAME_loop 126 0
        (rfPutBuffer_loop data len.val 0 s._rf_obj.txBuffer) s.TRXFB).2.1 := by
      rw [hobj]; rfl
    refine ⟨t, ?_, fun h => by omega, fun _ => ⟨?_, ?_⟩⟩
    · simp only [rfPutBuffer, hact, if_false, hge, if_true, ht, Option.map_some']
    · rw [htx, d2, l4, l1]
      congr 1
      have : 127 ≤ s._rf_obj.txBuffer.length +
          min len.val (128 - s._rf_obj.txBuffer.length) := hfl
      omega
    · simp only [hfr, List.length_append, List.length_singleton]
  · have hnge : ¬ ((rfPutBuffer_loop data len.val 0 s._rf_obj.txBuffer).length ≥
        HW_FRAME_TX_SIZE) := by rw [l4]; exact hfl
    refine ⟨_, ?_, fun _ => rfl, fun h => absurd h hfl⟩
    simp only [rfPutBuffer, hact, if_false, hnge]

/-- Witness of C17: five bytes `A`..`E` put into an idle radio: the call returns 5 and the
transmit buffer holds the five bytes. -/
theorem rfPutBuffer_result_witness :
    idleRadio._rf_obj.inited ≠ 0 ∧ idleRadio.Wf ∧
      (rfPutBuffer_loop (fun i => Fin.ofNat (0x41 + i)) 5 0
        idleRadio._rf_obj.txBuffer).contents = [0x41, 0x42, 0x43, 0x44, 0x45] ∧
      ∃ r, rfPutBuffer 1 idleRadio (fun i => Fin.ofNat (0x41 + i)) 5 =
        some (5, r, fun i => Fin.ofNat (0x41 + i)) :=
  ⟨by decide, by decide,
    (rfPutBuffer_result 1 idleRadio (fun i => Fin.ofNat (0x41 + i)) 5 (by decide) (by decide)
      (fun _ => ⟨0, by decide, by decide⟩)).1.trans (by decide),
    match (rfPutBuffer_result 1 idleRadio (fun i => Fin.ofNat (0x41 + i)) 5 (by decide)
      (by decide) (fun _ => ⟨0, by decide, by decide⟩)).2 with
    | ⟨r, h1, _⟩ => ⟨r, h1⟩⟩

/-- On a buffer that is neither empty nor full, a put followed by a get is the get followed
by the put. -/
theorem bufferGet_put_comm (b : cBuffer) (d : uint8_t) (h : b.Inv) (hs : b.size ≤ 32768)
    (h1 : b.length ≠ 0) (h2 : b.length < b.size) :
    bufferGet (bufferPut b d).2 = ((bufferGet b).1, (bufferPut (bufferGet b).2 d).2) := by
  obtain ⟨g1, g2, g3, g4⟩ := h
  have hput := bufferPut_room b d h2
  have hpi := bufferPut_inv b d ⟨g1, g2, g3, g4⟩
  have hg := bufferGet_some b ⟨g1, g2, g3, g4⟩ h1
  have hgi := bufferGet_inv b ⟨g1, g2, g3, g4⟩
  have e1 : (b.length + 1) % USHORT = b.length + 1 := Nat.mod_eq_of_lt (by unfold USHORT; omega)
  have e2 : (b.current + b.length) % USHORT = b.current + b.length :=
    Nat.mod_eq_of_lt (by unfold USHORT; omega)
  have hmlt := Nat.mod_lt (b.current + 1) g1
  have e3 : ((b.current + 1) % b.size + (b.length - 1)) % USHORT =
      (b.current + 1) % b.size + (b.length - 1) :=
    Nat.mod_eq_of_lt (by unfold USHORT; omega)
  have e4 : (b.length - 1 + 1) % USHORT = b.length := by
    rw [Nat.sub_add_cancel (by omega)]; exact Nat.mod_eq_of_lt (by unfold USHORT; omega)
  have hidx : ((b.current + 1) % b.size + (b.length - 1)) % b.size =
      (b.current + b.length) % b.size := by
    rw [Nat.mod_add_mod]; congr 1; omega
  have hne : b.current ≠ (b.current + b.length) % b.size := by
    rcases Nat.lt_or_ge (b.current + b.length) b.size with hlt | hge
    · rw [Nat.mod_eq_of_lt hlt]; omega
    · rw [Nat.mod_eq_sub_mod hge, Nat.mod_eq_of_lt (by omega)]; omega
  have hl2 : (bufferPut b d).2.length ≠ 0 := by rw [hput]; simp only [e1]; omega
  have hr2 : (bufferGet b).2.length < (bufferGet b).2.size := by rw [hg]; simp only; omega
  rw [bufferGet_some _ hpi hl2, bufferPut_room _ d hr2]
  rw [hput, hg]
  simp only [e1, e2, e3, e4, hidx, store, hne, if_false, Nat.add_sub_cancel]

/-- Draining at most `length` bytes from a non-full transmit buffer commutes with a put. -/
theorem load_loop_put_comm (fuel : Nat) (length : Nat) (tx : cBuffer) (fb : Nat → uint8_t)
    (d : uint8_t) (h : tx.Inv) (hs : tx.size ≤ 32768) (hf : fuel ≤ tx.length)
    (hroom : tx.length < tx.size) :
    RF_LOAD_FRAME_loop fuel length (bufferPut tx d).2 fb =
      ((RF_LOAD_FRAME_loop fuel length tx fb).1,
        (bufferPut (RF_LOAD_FRAME_loop fuel length tx fb).2.1 d).2,
        (RF_LOAD_FRAME_loop fuel length tx fb).2.2) := by
  induction fuel generalizing length tx fb with
  | zero => rfl
  | succ fuel ih =>
    have hl : tx.length ≠ 0 := by omega
    have hc := bufferGet_put_comm tx d h hs hl hroom
    have hg := bufferGet_some tx h hl
    have hgi := bufferGet_inv tx h
    have hglen : (bufferGet tx).2.length = tx.length - 1 := by rw [hg]
    have hgsize : (bufferGet tx).2.size = tx.size := by rw [hg]
    rw [RF_LOAD_FRAME_loop, RF_LOAD_FRAME_loop]
    by_cases hlt : length < HW_FRAME_TX_SIZE - 1
    · have hnn : ¬ ((bufferGet tx).1 < 0) := by rw [hg]; simp
      simp only [hlt, if_true, hc, hnn, if_false]
      exact ih ((length + 1) % 256) (bufferGet tx).2 _ hgi (by rw [hgsize]; exact hs)
        (by rw [hglen]; omega) (by rw [hglen, hgsize]; omega)
    · simp only [hlt, if_false]

/-- `RF_TX_FRAME` is the wait for the PLL followed by `RF_TX_FRAME_send`. -/
theorem RF_TX_FRAME_eq (fuel : Nat) (s : RfState) :
    RF_TX_FRAME fuel s =
      (waitPllLock fuel { s with TRX_STATE := ((s.TRX_STATE &&& 0xE0) ||| PLL_ON) % 256 }).map
        RF_TX_FRAME_send := by
  simp only [RF_TX_FRAME]
  cases waitPllLock fuel { s with TRX_STATE := ((s.TRX_STATE &&& 0xE0) ||| PLL_ON) % 256 } <;>
    rfl

/-- The wait for the PLL does not look at the instance. -/
theorem waitPllLock_obj (fuel : Nat) (s : RfState) (o : cBufferObj) :
    waitPllLock fuel { s with _rf_obj := o } =
      (waitPllLock fuel s).map (fun t => { t with _rf_obj := o }) := by
  induction fuel generalizing s with
  | zero => rfl
  | succ fuel ih =>
    rw [waitPllLock, waitPllLock]
    by_cases hp : (s.TRX_STATUS 0 % 256) &&& PLL_ON ≠ 0
    · simp only [readStatus, hp, ne_eq, not_false_eq_true, if_true, Option.map_some']
    · simp only [readStatus, hp, if_false]
      exact ih { s with TRX_STATUS := fun n => s.TRX_STATUS (n + 1) }

/-- The wait for the PLL leaves the instance and the frame buffer as they were. -/
theorem waitPllLock_keeps (fuel : Nat) (s w : RfState) (h : waitPllLock fuel s = some w) :
    w._rf_obj = s._rf_obj ∧ w.TRXFB = s.TRXFB ∧ w.txFrames = s.txFrames := by
  induction fuel generalizing s with
  | zero => simp [waitPllLock] at h
  | succ fuel ih =>
    rw [waitPllLock] at h
    by_cases hp : (s.TRX_STATUS 0 % 256) &&& PLL_ON ≠ 0
    · simp only [readStatus, hp, ne_eq, not_false_eq_true, if_true, Option.some.injEq] at h
      rw [← h]
      exact ⟨rfl, rfl, rfl⟩
    · simp only [readStatus, hp, if_false] at h
      exact ih { s with TRX_STATUS := fun n => s.TRX_STATUS (n + 1) } h

/-- Loading and sending a frame from a transmit buffer with at least 126 bytes and room for
one more commutes with a put. -/
theorem RF_TX_FRAME_send_put_comm (w : RfState) (d : uint8_t) (h : w._rf_obj.txBuffer.Inv)
    (hs : w._rf_obj.txBuffer.size ≤ 32768) (hf : 126 ≤ w._rf_obj.txBuffer.length)
    (hroom : w._rf_obj.txBuffer.length < w._rf_obj.txBuffer.size) :
    RF_TX_FRAME_send { w with _rf_obj := { w._rf_obj with
        txBuffer := (bufferPut w._rf_obj.txBuffer d).2 } } =
      { RF_TX_FRAME_send w with _rf_obj := { (RF_TX_FRAME_send w)._rf_obj with
        txBuffer := (bufferPut (RF_TX_FRAME_send w)._rf_obj.txBuffer d).2 } } := by
  have hc := load_loop_put_comm 126 0 w._rf_obj.txBuffer w.TRXFB d h hs hf hroom
  simp only [RF_TX_FRAME_send, RF_LOAD_FRAME]
  have e : HW_FRAME_TX_SIZE - 1 = 126 := rfl
  simp only [e, hc]

/-- `RF_TX_FRAME` on a transmit buffer with at least 126 bytes and room for one more
commutes with a put. -/
theorem RF_TX_FRAME_put_comm (fuel : Nat) (s : RfState) (d : uint8_t)
    (h : s._rf_obj.txBuffer.Inv) (hs : s._rf_obj.txBuffer.size ≤ 32768)
    (hf : 126 ≤ s._rf_obj.txBuffer.length)
    (hroom : s._rf_obj.txBuffer.length < s._rf_obj.txBuffer.size) :
    RF_TX_FRAME fuel { s with _rf_obj := { s._rf_obj with
        txBuffer := (bufferPut s._rf_obj.txBuffer d).2 } } =
      (RF_TX_FRAME fuel s).map (fun t => { t with _rf_obj := { t._rf_obj with
        txBuffer := (bufferPut t._rf_obj.txBuffer d).2 } }) := by
  rw [RF_TX_FRAME_eq, RF_TX_FRAME_eq]
  have hw := waitPllLock_obj fuel
    { s with TRX_STATE := ((s.TRX_STATE &&& 0xE0) ||| PLL_ON) % 256 }
    { s._rf_obj with txBuffer := (bufferPut s._rf_obj.txBuffer d).2 }
  have hshape : ({ ({ s with _rf_obj := { s._rf_obj with
        txBuffer := (bufferPut s._rf_obj.txBuffer d).2 } } : RfState) with
      TRX_STATE := ((s.TRX_STATE &&& 0xE0) ||| PLL_ON) % 256 } : RfState) =
      { ({ s with TRX_STATE := ((s.TRX_STATE &&& 0xE0) ||| PLL_ON) % 256 } : RfState) with
        _rf_obj := { s._rf_obj with txBuffer := (bufferPut s._rf_obj.txBuffer d).2 } } := rfl
  show Option.map RF_TX_FRAME_send (waitPllLock fuel
      ({ ({ s with _rf_obj := { s._rf_obj with
        txBuffer := (bufferPut s._rf_obj.txBuffer d).2 } } : RfState) with
      TRX_STATE := ((s.TRX_STATE &&& 0xE0) ||| PLL_ON) % 256 } : RfState)) = _
  rw [hshape, hw]
  cases hwt : waitPllLock fuel
      { s with TRX_STATE := ((s.TRX_STATE &&& 0xE0) ||| PLL_ON) % 256 } with
  | none => rfl
  | some w =>
    obtain ⟨k1, -, -⟩ := waitPllLock_keeps _ _ _ hwt
    have k1' : w._rf_obj = s._rf_obj := k1
    simp only [Option.map_some']
    have := RF_TX_FRAME_send_put_comm w d (by rw [k1']; exact h) (by rw [k1']; exact hs)
      (by rw [k1']; exact hf) (by rw [k1']; exact hroom)
    rw [k1'] at this
    rw [this]

/-- Bytes pushed onto a transmit buffer that has room for them all are appended. -/
theorem puts_state (tx : cBuffer) (xs : List uint8_t) (h : tx.Inv) (hsz : tx.size = 128)
    (hfit : tx.length + xs.length ≤ 128) :
    (runOps (xs.map BufOp.put) tx).2.Inv ∧ (runOps (xs.map BufOp.put) tx).2.size = 128 ∧
      (runOps (xs.map BufOp.put) tx).2.length = tx.length + xs.length ∧
      (runOps (xs.map BufOp.put) tx).2.contents = tx.contents ++ xs := by
  obtain ⟨-, r2, r3, r4⟩ := run_sim (xs.map BufOp.put) tx h (by omega)
  rw [runSpec_puts _ xs tx.contents (by rw [contents_length, hsz]; exact hfit)] at r2
  refine ⟨r3, by rw [r4, hsz], ?_, r2⟩
  rw [← contents_length, r2, List.length_append, contents_length]

theorem pushed_snoc (s : RfState) (xs : List uint8_t) (x : uint8_t) :
    pushed s (xs ++ [x]) = { pushed s xs with _rf_obj := { (pushed s xs)._rf_obj with
      txBuffer := (bufferPut (pushed s xs)._rf_obj.txBuffer x).2 } } := by
  simp only [pushed, List.map_append, List.map_cons, List.map_nil, runOps_append, runOps,
    BufOp.apply]

/-- `rfPutBuffer` on an active instance: all bytes are pushed, then one test of the
threshold. -/
theorem rfPutBuffer_active (fuel : Nat) (s : RfState) (data : Nat → uint8_t) (len : uint8_t)
    (hact : s._rf_obj.inited ≠ 0) :
    rfPutBuffer fuel s data len =
      if (pushed s ((List.range len.val).map data))._rf_obj.txBuffer.length ≥ HW_FRAME_TX_SIZE
      then (RF_TX_FRAME fuel (pushed s ((List.range len.val).map data))).map
        (fun t => ((len.val : Int), t, data))
      else some ((len.val : Int), pushed s ((List.range len.val).map data), data) := by
  have e : rfPutBuffer_loop data len.val 0 s._rf_obj.txBuffer =
      (runOps (((List.range len.val).map data).map BufOp.put) s._rf_obj.txBuffer).2 := by
    rw [rfPutBuffer_loop_runOps, List.range_eq_range', List.map_map]
    rfl
  simp only [rfPutBuffer, hact, if_false, e, pushed]

/-- `rfPutByte` on an active instance: the push, then the test of the threshold. -/
theorem rfPutByte_active (fuel : Nat) (s : RfState) (x : uint8_t)
    (hact : s._rf_obj.inited ≠ 0) :
    rfPutByte fuel s x =
      if (bufferPut s._rf_obj.txBuffer x).2.length ≥ HW_FRAME_TX_SIZE
      then (RF_TX_FRAME fuel { s with _rf_obj := { s._rf_obj with
          txBuffer := (bufferPut s._rf_obj.txBuffer x).2 } }).map
        (fun t => ((bufferPut s._rf_obj.txBuffer x).1, t))
      else some ((bufferPut s._rf_obj.txBuffer x).1,
        { s with _rf_obj := { s._rf_obj with
          txBuffer := (bufferPut s._rf_obj.txBuffer x).2 } }) := by
  simp only [rfPutByte, hact, if_false]

/-- The instance after `RF_TX_FRAME` is the instance after `RF_LOAD_FRAME`. -/
theorem RF_TX_FRAME_obj (fuel : Nat) (s t : RfState) (h : RF_TX_FRAME fuel s = some t) :
    t._rf_obj = (RF_LOAD_FRAME s)._rf_obj := by
  rw [RF_TX_FRAME_eq] at h
  cases hw : waitPllLock fuel
      { s with TRX_STATE := ((s.TRX_STATE &&& 0xE0) ||| PLL_ON) % 256 } with
  | none => rw [hw] at h; simp at h
  | some w =>
    rw [hw] at h
    simp only [Option.map_some', Option.some.injEq] at h
    obtain ⟨k1, k2, -⟩ := waitPllLock_keeps _ _ _ hw
    have k1' : w._rf_obj = s._rf_obj := k1
    have k2' : w.TRXFB = s.TRXFB := k2
    rw [← h]
    show (RF_LOAD_FRAME w)._rf_obj = (RF_LOAD_FRAME s)._rf_obj
    rw [RF_LOAD_FRAME_obj, RF_LOAD_FRAME_obj, k1', k2']

/-- C18, as amended: on an active radio instance with `t` bytes in the transmit buffer, for
a block that fits (`t + len ≤ 128`, and `t ≤ 126` when `len` is 0), `rfPutBuffer(data, len)`
leaves the same module state, transmit buffer and frames sent included, as the calls
`rfPutByte(data[0])`, ..., `rfPutByte(data[len - 1])` in order from the same state. -/
theorem rfPutBuffer_as_rfPutBytes (fuel : Nat) (s : RfState) (data : Nat → uint8_t)
    (len : uint8_t) (hact : s._rf_obj.inited ≠ 0) (hwf : s.Wf)
    (hfit : s._rf_obj.txBuffer.length + len.val ≤ 128)
    (h0 : len.val = 0 → s._rf_obj.txBuffer.length ≤ 126) :
    (rfPutBuffer fuel s data len).map (fun r => r.2.1) =
      (rfPutBytes fuel s ((List.range len.val).map data)).map (fun r => r.2) := by
  obtain ⟨-, -, hinv, hsize⟩ := hwf
  have hsz : s._rf_obj.txBuffer.size = 128 := hsize
  have K : ∀ xs : List uint8_t, s._rf_obj.txBuffer.length + xs.length ≤ 128 →
      (pushed s xs)._rf_obj.txBuffer.Inv ∧ (pushed s xs)._rf_obj.txBuffer.size = 128 ∧
      (pushed s xs)._rf_obj.txBuffer.length = s._rf_obj.txBuffer.length + xs.length :=
    fun xs hx => ⟨(puts_state _ xs hinv hsz hx).1, (puts_state _ xs hinv hsz hx).2.1,
      (puts_state _ xs hinv hsz hx).2.2.1⟩
  have hbelow : ∀ xs : List uint8_t, s._rf_obj.txBuffer.length + xs.length < 127 →
      rfPutBytes fuel s xs = some (xs.map (fun x => (x.val : Int)), pushed s xs) :=
    fun xs hx => rfPutBytes_below fuel s xs hact hinv hsize hx
  have hlenbs : ∀ n, ((List.range n).map data).length = n := by
    intro n; simp
  rw [rfPutBuffer_active fuel s data len hact]
  obtain ⟨-, -, kl⟩ := K ((List.range len.val).map data) (by rw [hlenbs]; exact hfit)
  rw [hlenbs] at kl
  by_cases hA : s._rf_obj.txBuffer.length + len.val < 127
  · -- no call reaches the threshold
    have hn : ¬ ((pushed s ((List.range len.val).map data))._rf_obj.txBuffer.length ≥
        HW_FRAME_TX_SIZE) := by
      rw [kl]; unfold HW_FRAME_TX_SIZE; omega
    simp only [hn, if_false]
    rw [hbelow _ (by rw [hlenbs]; exact hA)]
    rfl
  · have hge : (pushed s ((List.range len.val).map data))._rf_obj.txBuffer.length ≥
        HW_FRAME_TX_SIZE := by
      rw [kl]; unfold HW_FRAME_TX_SIZE; omega
    simp only [hge, if_true]
    obtain ⟨k, hk⟩ : ∃ k, len.val = k + 1 := ⟨len.val - 1, by
      have : len.val ≠ 0 := fun h => by have := h0 h; omega
      omega⟩
    rw [hk] at hfit hA kl ⊢
    have hsplit : (List.range (k + 1)).map data = (List.range k).map data ++ [data k] := by
      rw [List.range_succ, List.map_append, List.map_cons, List.map_nil]
    by_cases hB : s._rf_obj.txBuffer.length + k < 127 ∨ k = 0
    · -- the last byte is the one that reaches the threshold
      have hinit : rfPutBytes fuel s ((List.range k).map data) =
          some (((List.range k).map data).map (fun x => (x.val : Int)),
            pushed s ((List.range k).map data)) := by
        rcases hB with hB | hB
        · exact hbelow _ (by rw [hlenbs]; exact hB)
        · subst hB; rfl
      obtain ⟨ki, ks, kl2⟩ := K ((List.range k).map data) (by rw [hlenbs]; omega)
      rw [hlenbs] at kl2
      have hstep := rfPutByte_active fuel (pushed s ((List.range k).map data)) (data k) hact
      rw [← pushed_snoc, ← hsplit] at hstep
      have hge2 : (bufferPut (pushed s ((List.range k).map data))._rf_obj.txBuffer
          (data k)).2.length ≥ HW_FRAME_TX_SIZE := by
        have := congrArg (fun t : RfState => t._rf_obj.txBuffer.length)
          (pushed_snoc s ((List.range k).map data) (data k))
        simp only at this
        rw [← hsplit, kl] at this
        rw [← this]; unfold HW_FRAME_TX_SIZE; omega
      simp only [hge2, if_true] at hstep
      rw [hsplit, rfPutBytes_append, hinit]
      simp only [rfPutBytes]
      rw [← hsplit, hstep]
      cases RF_TX_FRAME fuel (pushed s ((List.range (k + 1)).map data)) <;> rfl
    · -- one more byte follows the one that reaches the threshold
      obtain ⟨j, hj⟩ : ∃ j, k = j + 1 := ⟨k - 1, by omega⟩
      subst hj
      have ht126 : s._rf_obj.txBuffer.length + j = 126 := by omega
      have hsplit2 : (List.range (j + 1)).map data = (List.range j).map data ++ [data j] := by
        rw [List.range_succ, List.map_append, List.map_cons, List.map_nil]
      have hinit : rfPutBytes fuel s ((List.range j).map data) =
          some (((List.range j).map data).map (fun x => (x.val : Int)),
            pushed s ((List.range j).map data)) :=
        hbelow _ (by rw [hlenbs]; omega)
      -- the state with 127 bytes buffered
      obtain ⟨mi, ms, ml⟩ := K ((List.range (j + 1)).map data) (by rw [hlenbs]; omega)
      rw [hlenbs] at ml
      have hstep1 := rfPutByte_active fuel (pushed s ((List.range j).map data)) (data j) hact
      rw [← pushed_snoc, ← hsplit2] at hstep1
      have hge1 : (bufferPut (pushed s ((List.range j).map data))._rf_obj.txBuffer
          (data j)).2.length ≥ HW_FRAME_TX_SIZE := by
        have := congrArg (fun t : RfState => t._rf_obj.txBuffer.length)
          (pushed_snoc s ((List.range j).map data) (data j))
        simp only at this
        rw [← hsplit2, ml] at this
        rw [← this]; unfold HW_FRAME_TX_SIZE; omega
      simp only [hge1, if_true] at hstep1
      -- the block call flushes after the last push, which commutes with the flush
      have hcomm := RF_TX_FRAME_put_comm fuel (pushed s ((List.range (j + 1)).map data))
        (data (j + 1)) mi (by rw [ms]; decide) (by rw [ml]; omega) (by rw [ml, ms]; omega)
      rw [← pushed_snoc, ← hsplit] at hcomm
      rw [hcomm]
      rw [hsplit, hsplit2, List.append_assoc, rfPutBytes_append, hinit]
      simp only [List.singleton_append, rfPutBytes]
      rw [← hsplit2, hstep1]
      cases hfr : RF_TX_FRAME fuel (pushed s ((List.range (j + 1)).map data)) with
      | none => rfl
      | some t =>
        have hobj := RF_TX_FRAME_obj fuel _ t hfr
        obtain ⟨-, -, d3, d4, d5, -⟩ := load_loop_spec 126 0
          (pushed s ((List.range (j + 1)).map data))._rf_obj.txBuffer
          (pushed s ((List.range (j + 1)).map data)).TRXFB mi (by omega)
        rw [ml] at d5
        have htact : t._rf_obj.inited ≠ 0 := by rw [hobj]; exact hact
        have htl : t._rf_obj.txBuffer.length = 1 := by
          rw [hobj, RF_LOAD_FRAME_obj]; show (RF_LOAD_FRAME_loop 126 0 _ _).2.1.length = 1
          rw [d5]; omega
        have hts : t._rf_obj.txBuffer.size = 128 := by
          rw [hobj, RF_LOAD_FRAME_obj]; show (RF_LOAD_FRAME_loop 126 0 _ _).2.1.size = 128
          rw [d4, ms]
        have hti : t._rf_obj.txBuffer.Inv := by
          rw [hobj, RF_LOAD_FRAME_obj]; exact d3
        have hroom : t._rf_obj.txBuffer.length < t._rf_obj.txBuffer.size := by
          rw [htl, hts]; decide
        have hput := bufferPut_room t._rf_obj.txBuffer (data (j + 1)) hroom
        have hpl : (bufferPut t._rf_obj.txBuffer (data (j + 1))).2.length = 2 := by
          rw [hput]; simp only [htl]; rfl
        have hstep2 := rfPutByte_active fuel t (data (j + 1)) htact
        have hnge : ¬ ((bufferPut t._rf_obj.txBuffer (data (j + 1))).2.length ≥
            HW_FRAME_TX_SIZE) := by rw [hpl]; decide
        simp only [hnge, if_false] at hstep2
        simp only [Option.map_some', hstep2]

/-- Witness of C18: a block of five bytes put into an idle radio leaves the state that five
calls of `rfPutByte` leave. -/
theorem rfPutBuffer_as_rfPutBytes_witness :
    idleRadio._rf_obj.inited ≠ 0 ∧ idleRadio.Wf ∧
      idleRadio._rf_obj.txBuffer.length + 5 ≤ 128 ∧
      (rfPutBuffer 1 idleRadio (fun i => Fin.ofNat (0x41 + i)) 5).map (fun r => r.2.1) =
        (rfPutBytes 1 idleRadio ((List.range 5).map (fun i => Fin.ofNat (0x41 + i)))).map
          (fun r => r.2) :=
  ⟨by decide, by decide, by decide,
    rfPutBuffer_as_rfPutBytes 1 idleRadio (fun i => Fin.ofNat (0x41 + i)) 5 (by decide)
      (by decide) (by decide) (fun h => absurd h (by decide))⟩

set_option maxRecDepth 100000 in
/-- Counterexample to C18 as stated: a block of 129 bytes put into an idle radio with an
empty transmit buffer. `rfPutBuffer` pushes 128 bytes, drops the last, sends one frame and
leaves 2 bytes buffered; the 129 calls of `rfPutByte` send one frame after the 127th byte
and leave 3 bytes buffered, the last byte among them. And with 127 bytes already buffered,
`rfPutBuffer` of an empty block sends a frame although no `rfPutByte` is called. -/
theorem rfPutBuffer_drops_where_rfPutByte_flushes :
    idleRadio._rf_obj.inited ≠ 0 ∧
      (rfPutBuffer 1 idleRadio (fun i => Fin.ofNat i) 129).map
        (fun r => (r.2.1.txFrames.length, r.2.1._rf_obj.txBuffer.contents)) =
          some (1, [126, 127]) ∧
      (rfPutBytes 1 idleRadio ((List.range 129).map (fun i => Fin.ofNat i))).map
        (fun r => (r.2.txFrames.length, r.2._rf_obj.txBuffer.contents)) =
          some (1, [126, 127, 128]) ∧
      (pushed idleRadio (List.replicate 127 0x41))._rf_obj.txBuffer.length = 127 ∧
      (rfPutBuffer 1 (pushed idleRadio (List.replicate 127 0x41)) (fun _ => 0) 0).map
        (fun r => r.2.1.txFrames.length) = some 1 ∧
      (rfPutBytes 1 (pushed idleRadio (List.replicate 127 0x41)) []).map
        (fun r => r.2.txFrames.length) = some 0 := by
  decide

/-! ## Radio: string write -/

/-- The scan of `strlen` stops at the first NUL. -/
theorem strlen_first_nul (data : Nat → uint8_t) (fuel i k : Nat) (hik : i ≤ k)
    (hf : k - i ≤ fuel) (hnz : ∀ j, i ≤ j → j < k → data j ≠ 0) (hnul : data k = 0) :
    strlen data fuel i = k := by
  induction fuel generalizing i with
  | zero =>
    have : i = k := by omega
    rw [this]; rfl
  | succ fuel ih =>
    rw [strlen]
    by_cases hd : data i = 0
    · have : i = k := by
        rcases Nat.lt_or_ge i k with h | h
        · exact absurd hd (hnz i (Nat.le_refl _) h)
        · omega
      rw [this] at hd ⊢
      simp only [hd, if_true]
    · have hlt : i < k := by
        rcases Nat.lt_or_ge i k with h | h
        · exact h
        · have : i = k := by omega
          rw [this] at hd; exact absurd hnul hd
      simp only [hd, if_false]
      exact ih (i + 1) hlt (by omega) (fun j h1 h2 => hnz j (by omega) h2)

/-- C19, as amended: on an active radio instance, for a NUL-terminated string of length
`n = strlen(s)` with `n ≤ 255`, `rfPutString(s)` has the effect and the return value `n` of
`rfPutBuffer(s, n)`, which leaves the terminator out, followed unconditionally by
`rfTransmitNow()`. -/
theorem rfPutString_as_rfPutBuffer (fuel : Nat) (s : RfState) (data : Nat → uint8_t)
    (bound : Nat) (n : uint8_t) (hact : s._rf_obj.inited ≠ 0)
    (hnz : ∀ j, j < n.val → data j ≠ 0) (hnul : data n.val = 0) (hb : n.val ≤ bound) :
    strlen data bound 0 = n.val ∧
    rfPutString fuel s data bound =
      (rfPutBuffer fuel s data n).bind (fun r =>
        (rfTransmitNow fuel r.2.1).map (fun t => ((n.val : Int), t))) ∧
    (∀ r, rfPutBuffer fuel s data n = some r → r.1 = (n.val : Int)) := by
  have hlen := strlen_first_nul data bound 0 n.val (Nat.zero_le _) (by omega)
    (fun j _ h => hnz j h) hnul
  have hfin : (Fin.ofNat (strlen data bound 0) : uint8_t) = n := by
    rw [hlen]
    apply Fin.ext
    simp only [Fin.ofNat]
    exact Nat.mod_eq_of_lt n.isLt
  have hret : ∀ r, rfPutBuffer fuel s data n = some r → r.1 = (n.val : Int) := by
    intro r hr
    simp only [rfPutBuffer, hact, if_false] at hr
    split at hr
    · cases hfr : RF_TX_FRAME fuel { s with _rf_obj := { s._rf_obj with
          txBuffer := rfPutBuffer_loop data n.val 0 s._rf_obj.txBuffer } } with
      | none => rw [hfr] at hr; simp at hr
      | some t =>
        rw [hfr] at hr
        simp only [Option.map_some', Option.some.injEq] at hr
        rw [← hr]
    · simp only [Option.some.injEq] at hr
      rw [← hr]
  refine ⟨hlen, ?_, hret⟩
  simp only [rfPutString, hact, if_false, hfin]
  cases hpb : rfPutBuffer fuel s data n with
  | none => rfl
  | some r =>
    simp only [Option.some_bind, hret r hpb]
    cases htn : rfTransmitNow fuel r.2.1 <;> simp

/-- Witness of C19: the string `AB` put into an idle radio: the call returns 2 and sends
one frame. -/
theorem rfPutString_as_rfPutBuffer_witness :
    idleRadio._rf_obj.inited ≠ 0 ∧
      strlen (fun i => if i = 0 then 0x41 else if i = 1 then 0x42 else 0) 8 0 = 2 ∧
      (rfPutString 1 idleRadio (fun i => if i = 0 then 0x41 else if i = 1 then 0x42 else 0)
        8).map (fun r => (r.1, r.2.txFrames.length)) = some (2, 1) :=
  ⟨by decide,
    (rfPutString_as_rfPutBuffer 1 idleRadio
      (fun i => if i = 0 then 0x41 else if i = 1 then 0x42 else 0) 8 2 (by decide)
      (fun j hj => by
        have : j = 0 ∨ j = 1 := by
          have : j < 2 := hj
          omega
        rcases this with h | h <;> subst h <;> decide)
      (by decide) (by decide)).1,
    by
      rw [(rfPutString_as_rfPutBuffer 1 idleRadio
        (fun i => if i = 0 then 0x41 else if i = 1 then 0x42 else 0) 8 2 (by decide)
        (fun j hj => by
          have : j = 0 ∨ j = 1 := by
            have : j < 2 := hj
            omega
          rcases this with h | h <;> subst h <;> decide)
        (by decide) (by decide)).2.1]
      decide⟩

set_option maxRecDepth 100000 in
/-- Counterexample to C19 as stated: a string of 256 letters. `strlen` is 256, which
`rfPutString` stores in a `uint8_t` as 0: it returns 0, not 256, puts no byte of the string
and sends a frame without payload, while `rfPutBuffer` would take 128 of the letters. -/
theorem rfPutString_truncates_length :
    idleRadio._rf_obj.inited ≠ 0 ∧ strlen longString 300 0 = 256 ∧
      (rfPutString 1 idleRadio longString 300).map
        (fun r => (r.1, r.2.txFrames.map (fun f => f.take 3),
          r.2._rf_obj.txBuffer.length)) = some (0, [[3, 0, 0]], 0) := by
  decide

/-! ## Radio: overflow counter, flush -/

set_option maxRecDepth 100000 in
/-- C21, the failing case: `rfReceiveBufferOverflow()` returns the `unsigned short` counter
through its `uint8_t` return type, that is `rxOverflow` modulo 256.  With the receive buffer
full and 253 bytes already dropped, a frame of three payload bytes brings `rxOverflow` to
256, and the call then returns 0 although bytes have been dropped since the counter was
last reset. -/
theorem rfReceiveBufferOverflow_truncates :
    (∀ s : RfState, rfReceiveBufferOverflow s = s._rf_obj.rxOverflow % 256) ∧
      droppedFrame._rf_obj.rxOverflow = 253 ∧
      (TRX24_RX_END_vect droppedFrame)._rf_obj.rxOverflow = 256 ∧
      rfReceiveBufferOverflow (TRX24_RX_END_vect droppedFrame) = 0 :=
  ⟨fun _ => rfl, rfl, by decide, by decide⟩

/-- C22: on an active radio instance `rfFlushReceiveBuffer()` leaves the receive buffer
empty, so that `rfAvailable()` is 0 and `rfGetByte()` returns -1, and `rxOverflow` at 0; the
transmit buffer, `inited` and the size, storage and start index of the receive buffer are
as before, and so is everything outside the instance. -/
theorem rfFlushReceiveBuffer_effect (s : RfState) (hact : s._rf_obj.inited ≠ 0) :
    (rfFlushReceiveBuffer s)._rf_obj.rxBuffer.length = 0 ∧
      (rfFlushReceiveBuffer s)._rf_obj.rxBuffer.contents = [] ∧
      rfAvailable (rfFlushReceiveBuffer s) = 0 ∧
      rfGetByte (rfFlushReceiveBuffer s) = (-1, rfFlushReceiveBuffer s) ∧
      (rfFlushReceiveBuffer s)._rf_obj.rxOverflow = 0 ∧
      rfReceiveBufferOverflow (rfFlushReceiveBuffer s) = 0 ∧
      (rfFlushReceiveBuffer s)._rf_obj.txBuffer = s._rf_obj.txBuffer ∧
      (rfFlushReceiveBuffer s)._rf_obj.inited = s._rf_obj.inited ∧
      rfInited (rfFlushReceiveBuffer s) = rfInited s ∧
      (rfFlushReceiveBuffer s)._rf_obj.rxBuffer.size = s._rf_obj.rxBuffer.size ∧
      (rfFlushReceiveBuffer s)._rf_obj.rxBuffer.data = s._rf_obj.rxBuffer.data ∧
      (rfFlushReceiveBuffer s)._rf_obj.rxBuffer.current = s._rf_obj.rxBuffer.current ∧
      (rfFlushReceiveBuffer s).txFrames = s.txFrames ∧
      (rfFlushReceiveBuffer s).TRXFB = s.TRXFB := by
  have hact2 : (rfFlushReceiveBuffer s)._rf_obj.inited ≠ 0 := hact
  have hlen : (rfFlushReceiveBuffer s)._rf_obj.rxBuffer.length = 0 := rfl
  refine ⟨rfl, contents_eq_nil _ hlen, ?_, ?_, rfl, rfl, rfl, rfl, rfl, rfl, rfl, rfl, rfl, rfl⟩
  · simp only [rfAvailable, hact2, if_false, hlen]
    rfl
  · simp only [rfGetByte, hact2, if_false]
    rw [bufferGet_empty _ hlen]

/-- Witness of C22: the radio holding `A`, `B`, `C` is flushed: nothing is available any
more, `rfGetByte` returns -1 and the receive buffer still has its 256 bytes. -/
theorem rfFlushReceiveBuffer_effect_witness :
    threeBytes._rf_obj.inited ≠ 0 ∧ rfAvailable threeBytes = 3 ∧
      rfAvailable (rfFlushReceiveBuffer threeBytes) = 0 ∧
      rfGetByte (rfFlushReceiveBuffer threeBytes) = (-1, rfFlushReceiveBuffer threeBytes) ∧
      (rfFlushReceiveBuffer threeBytes)._rf_obj.rxBuffer.size = 256 :=
  ⟨by decide, by decide,
    (rfFlushReceiveBuffer_effect threeBytes (by decide)).2.2.1,
    (rfFlushReceiveBuffer_effect threeBytes (by decide)).2.2.2.1,
    (rfFlushReceiveBuffer_effect threeBytes (by decide)).2.2.2.2.2.2.2.2.2.1⟩

/-! ## Ring buffer: `bufferGet` and `bufferPutWait` -/

/-- C23: on a buffer satisfying the invariant, `bufferGet` returns -1 and leaves the buffer
as it is when `length == 0`; when `length > 0` it returns `data[current]`, a value in
0..255, sets `current` to `(current + 1) mod size`, lowers `length` by exactly 1 and leaves
`size` and every stored byte as they are. -/
theorem bufferGet_contract (b : cBuffer) (h : b.Inv) :
    (b.length = 0 → bufferGet b = (-1, b)) ∧
    (0 < b.length →
      (bufferGet b).1 = ((b.data b.current).val : Int) ∧
      0 ≤ (bufferGet b).1 ∧ (bufferGet b).1 ≤ 255 ∧
      (bufferGet b).2.current = (b.current + 1) % b.size ∧
      (bufferGet b).2.length + 1 = b.length ∧
      (bufferGet b).2.size = b.size ∧
      (bufferGet b).2.data = b.data) := by
  refine ⟨fun h0 => bufferGet_empty b h0, fun hpos => ?_⟩
  have hl : b.length ≠ 0 := by omega
  rw [bufferGet_some b h hl]
  have hx := (b.data b.current).isLt
  refine ⟨rfl, ?_, ?_, rfl, ?_, rfl, rfl⟩
  · simp
  · simp only; omega
  · simp only; omega

/-- Witness of C23: the full two-byte buffer that starts at its last index gives its byte 8
and wraps to index 0 with one byte left; the empty four-byte buffer gives -1 and stays as
it is. -/
theorem bufferGet_contract_witness :
    fullBuffer.Inv ∧ 0 < fullBuffer.length ∧ (bufferGet fullBuffer).1 = 8 ∧
      (bufferGet fullBuffer).2.current = 0 ∧ (bufferGet fullBuffer).2.length + 1 = 2 ∧
      smallBuffer.Inv ∧ bufferGet smallBuffer = (-1, smallBuffer) :=
  ⟨by decide, by decide,
    ((bufferGet_contract fullBuffer (by decide)).2 (by decide)).1.trans (by decide),
    ((bufferGet_contract fullBuffer (by decide)).2 (by decide)).2.2.2.1.trans (by decide),
    ((bufferGet_contract fullBuffer (by decide)).2 (by decide)).2.2.2.2.1,
    by decide, (bufferGet_contract smallBuffer (by decide)).1 rfl⟩

/-- The delays made by the loop of `bufferPutWait`: with `n` attempts left, at most `n - 1`
more. -/
theorem putWaitLoop_delays (env : Nat → cBuffer → cBuffer) (d : uint8_t) (n k : Nat)
    (b : cBuffer) : (bufferPutWaitLoop env n k b d).2.2 ≤ k + (n - 1) := by
  induction n generalizing k b with
  | zero => simp [bufferPutWaitLoop]
  | succ n ih =>
    rw [bufferPutWaitLoop]
    by_cases hneg : (bufferPut b d).1 < 0
    · by_cases hn : n = 0
      · simp [hneg, hn]
      · simp only [hneg, if_true, hn, if_false]
        have := ih (k + 1) (env k (bufferPut b d).2)
        omega
    · simp [hneg]

/-- The loop of `bufferPutWait` stops at the first attempt that finds room: the byte is
stored by that attempt, after as many delays as attempts failed before it. -/
theorem putWaitLoop_room (env : Nat → cBuffer → cBuffer) (d : uint8_t) (n k : Nat)
    (b : cBuffer) (j : Nat) (hj : j < n)
    (hfull : ∀ i, i < j →
      ¬ (bufferAfterDelays env k i b).length < (bufferAfterDelays env k i b).size)
    (hroom : (bufferAfterDelays env k j b).length < (bufferAfterDelays env k j b).size) :
    bufferPutWaitLoop env n k b d =
      ((d.val : Int), (bufferPut (bufferAfterDelays env k j b) d).2, k + j) := by
  induction n generalizing k b j with
  | zero => omega
  | succ n ih =>
    rw [bufferPutWaitLoop]
    cases j with
    | zero =>
      have hr := bufferPut_room b d hroom
      have hneg : ¬ ((bufferPut b d).1 < 0) := by rw [hr]; simp
      simp only [hneg, if_false, bufferAfterDelays, Nat.add_zero]
      rw [hr]
    | succ j =>
      have h0 := hfull 0 (by omega)
      have hr := bufferPut_full b d h0
      have hneg : (bufferPut b d).1 < 0 := by rw [hr]; show (-1 : Int) < 0; decide
      have hn : n ≠ 0 := by omega
      simp only [hneg, if_true, hn, if_false]
      rw [hr]
      rw [ih (k + 1) (env k b) j (by omega) (fun i hi => hfull (i + 1) (by omega)) hroom]
      simp only [bufferAfterDelays, Nat.add_assoc, Nat.add_comm 1]

/-- The loop of `bufferPutWait` gives up when every attempt finds the buffer full: it
returns -1 after one delay less than attempts, having written nothing. -/
theorem putWaitLoop_full (env : Nat → cBuffer → cBuffer) (d : uint8_t) (n k : Nat)
    (b : cBuffer)
    (hfull : ∀ i, i < n + 1 →
      ¬ (bufferAfterDelays env k i b).length < (bufferAfterDelays env k i b).size) :
    bufferPutWaitLoop env (n + 1) k b d = (-1, bufferAfterDelays env k n b, k + n) := by
  induction n generalizing k b with
  | zero =>
    have hr := bufferPut_full b d (hfull 0 (by omega))
    rw [bufferPutWaitLoop, hr]
    simp [bufferAfterDelays]
  | succ n ih =>
    have hr := bufferPut_full b d (hfull 0 (by omega))
    have hneg : (bufferPut b d).1 < 0 := by rw [hr]; show (-1 : Int) < 0; decide
    rw [bufferPutWaitLoop]
    simp only [hneg, if_true, Nat.add_one_ne_zero, if_false]
    rw [hr]
    rw [ih (k + 1) (env k b) (fun i hi => hfull (i + 1) (by omega))]
    simp only [bufferAfterDelays, Nat.add_assoc, Nat.add_comm 1]

/-- C24: `bufferPutWait(buffer, data)` returns after at most 50 attempts and at most 49
delays of 5 ms, 245 ms in all, whatever interrupt handlers do to the buffer during the
delays.  It stops at the first attempt that finds room: the byte is returned and stored by
that one attempt, behind the bytes queued then, after as many delays as attempts failed
before it, none if the first attempt succeeds.  When all 50 attempts find the buffer full
it returns -1 having written nothing: the buffer is what the handlers left, and the buffer
it was given when no handler touches it. -/
theorem bufferPutWait_contract (env : Nat → cBuffer → cBuffer) (b : cBuffer) (d : uint8_t) :
    (bufferPutWait env b d).2.2 + 1 ≤ 50 ∧ 5 * (bufferPutWait env b d).2.2 ≤ 250 ∧
    (∀ j, j < 50 →
      (∀ i, i < j →
        ¬ (bufferAfterDelays env 0 i b).length < (bufferAfterDelays env 0 i b).size) →
      (bufferAfterDelays env 0 j b).length < (bufferAfterDelays env 0 j b).size →
      bufferPutWait env b d =
        ((d.val : Int), (bufferPut (bufferAfterDelays env 0 j b) d).2, j) ∧
      ((bufferAfterDelays env 0 j b).Inv → (bufferAfterDelays env 0 j b).size ≤ 32768 →
        (bufferPutWait env b d).2.1.contents = (bufferAfterDelays env 0 j b).contents ++ [d])) ∧
    (b.length < b.size → bufferPutWait env b d = ((d.val : Int), (bufferPut b d).2, 0)) ∧
    ((∀ i, i < 50 →
        ¬ (bufferAfterDelays env 0 i b).length < (bufferAfterDelays env 0 i b).size) →
      bufferPutWait env b d = (-1, bufferAfterDelays env 0 49 b, 49)) ∧
    (¬ b.length < b.size → bufferPutWait (fun _ x => x) b d = (-1, b, 49)) := by
  have hd := putWaitLoop_delays env d 50 0 b
  have hfirst : ∀ j, j < 50 →
      (∀ i, i < j →
        ¬ (bufferAfterDelays env 0 i b).length < (bufferAfterDelays env 0 i b).size) →
      (bufferAfterDelays env 0 j b).length < (bufferAfterDelays env 0 j b).size →
      bufferPutWait env b d =
        ((d.val : Int), (bufferPut (bufferAfterDelays env 0 j b) d).2, j) := by
    intro j hj hfull hroom
    have := putWaitLoop_room env d 50 0 b j hj hfull hroom
    simpa [bufferPutWait] using this
  refine ⟨?_, ?_, ?_, ?_, ?_, ?_⟩
  · simp only [bufferPutWait]; omega
  · simp only [bufferPutWait]; omega
  · intro j hj hfull hroom
    refine ⟨hfirst j hj hfull hroom, fun hinv hs => ?_⟩
    rw [hfirst j hj hfull hroom]
    exact contents_put _ d hinv hs hroom
  · intro hroom
    exact hfirst 0 (by omega) (fun i hi => absurd hi (by omega)) hroom
  · intro hfull
    have := putWaitLoop_full env d 49 0 b hfull
    simpa [bufferPutWait] using this
  · intro hfull
    have hid : ∀ i k, bufferAfterDelays (fun _ x => x) k i b = b := by
      intro i
      induction i with
      | zero => intro k; rfl
      | succ i ih => intro k; simp only [bufferAfterDelays]; exact ih (k + 1)
    have := putWaitLoop_full (fun _ x => x) d 49 0 b (fun i _ => by rw [hid]; exact hfull)
    rw [hid] at this
    simpa [bufferPutWait] using this

/-- Witness of C24: the full two-byte buffer, from which an interrupt handler takes one
byte during the third delay: the first three attempts fail, the fourth stores the byte
after three delays, and the buffer then holds the remaining byte 7 and the byte put. -/
theorem bufferPutWait_contract_witness :
    ¬ fullBuffer.length < fullBuffer.size ∧
      bufferPutWait drainAtThird fullBuffer 9 =
        (9, (bufferPut (bufferAfterDelays drainAtThird 0 3 fullBuffer) 9).2, 3) ∧
      (bufferPutWait drainAtThird fullBuffer 9).2.1.contents = [7, 9] ∧
      bufferPutWait (fun _ x => x) fullBuffer 9 = (-1, fullBuffer, 49) :=
  ⟨by decide,
    ((bufferPutWait_contract drainAtThird fullBuffer 9).2.2.1 3 (by decide) (by decide)
      (by decide)).1,
    (((bufferPutWait_contract drainAtThird fullBuffer 9).2.2.1 3 (by decide) (by decide)
      (by decide)).2 (by decide) (by decide)).trans (by decide),
    (bufferPutWait_contract drainAtThird fullBuffer 9).2.2.2.2.2 (by decide)⟩

/-! ## Radio: short frames -/

/-- C30: for a frame whose reported length is 0 or 1, whatever the captured signal byte, so
for every CRC-valid one, the loop bound `length - 2`, an `int`, is negative and the
frame-end handler makes no round of its loop: it pushes nothing, the receive buffer and
`rxOverflow` are as before, and so is the whole state. -/
theorem rx_end_short_frame (s : RfState) (hlen : s.TST_RX_LENGTH.val ≤ 1) :
    ((s.TST_RX_LENGTH.val : Int) - 2 < 0) ∧
      (((s.TST_RX_LENGTH.val : Int) - 2).toNat = 0) ∧
      (TRX24_RX_END_vect s)._rf_obj.rxBuffer = s._rf_obj.rxBuffer ∧
      (TRX24_RX_END_vect s)._rf_obj.rxOverflow = s._rf_obj.rxOverflow ∧
      TRX24_RX_END_vect s = s := by
  have hneg : ((s.TST_RX_LENGTH.val : Int) - 2 < 0) := by omega
  have hz : ((s.TST_RX_LENGTH.val : Int) - 2).toNat = 0 := by omega
  have he : TRX24_RX_END_vect s = s := by
    by_cases hcrc : s._rf_signal.val &&& RX_CRC_VALID = 0
    · exact rx_end_invalid s hcrc
    · simp only [TRX24_RX_END_vect, hcrc, ne_eq, not_false_eq_true, if_true, hz, rxEndLoop]
  exact ⟨hneg, hz, by rw [he], by rw [he], he⟩

/-- Witness of C30: a frame reported with length 1 arrives at a radio holding `A`, `B`, `C`
with 7 bytes counted as dropped, once with the signal byte `0x8A`, which has the CRC-valid
bit set and passes the handler's test, and once with `0x88`, which has the bit set too:
nothing changes. -/
theorem rx_end_short_frame_witness :
    shortFrame._rf_signal.val &&& (1 <<< RX_CRC_VALID) ≠ 0 ∧
      shortFrame._rf_signal.val &&& RX_CRC_VALID ≠ 0 ∧ shortFrame.TST_RX_LENGTH.val = 1 ∧
      (TRX24_RX_END_vect shortFrame)._rf_obj.rxBuffer.contents = [0x41, 0x42, 0x43] ∧
      (TRX24_RX_END_vect shortFrame)._rf_obj.rxOverflow = 7 ∧
      TRX24_RX_END_vect shortFrame = shortFrame ∧
      flaggedShortFrame._rf_signal.val &&& (1 <<< RX_CRC_VALID) ≠ 0 ∧
      TRX24_RX_END_vect flaggedShortFrame = flaggedShortFrame :=
  ⟨by decide, by decide, rfl,
    by rw [(rx_end_short_frame shortFrame (by decide)).2.2.1]; decide,
    (rx_end_short_frame shortFrame (by decide)).2.2.2.1,
    (rx_end_short_frame shortFrame (by decide)).2.2.2.2,
    by decide,
    (rx_end_short_frame flaggedShortFrame (by decide)).2.2.2.2⟩

/-! ## Radio: the frame assembler -/

/-- What `RF_LOAD_FRAME` does on a well-formed transmit buffer, `k` being the smaller of 126
and the number of bytes queued: the first `k` bytes go to offsets `1..k` of the frame
buffer in order, offset `k + 1` gets the zero terminator, offset 0 gets `k + 3`, the offsets
beyond `k + 1` keep what they held and the transmit buffer keeps the bytes after the first
`k`. -/
theorem RF_LOAD_FRAME_spec (s : RfState) (h : s._rf_obj.txBuffer.Inv) :
    (RF_LOAD_FRAME_loop (HW_FRAME_TX_SIZE - 1) 0 s._rf_obj.txBuffer s.TRXFB).1 =
        min 126 s._rf_obj.txBuffer.length ∧
      ((RF_LOAD_FRAME s).TRXFB 0).val = min 126 s._rf_obj.txBuffer.length + 3 ∧
      (∀ j, 1 ≤ j → j ≤ min 126 s._rf_obj.txBuffer.length →
        (RF_LOAD_FRAME s).TRXFB j = s._rf_obj.txBuffer.contents.getD (j - 1) 0) ∧
      (RF_LOAD_FRAME s).TRXFB (min 126 s._rf_obj.txBuffer.length + 1) = 0 ∧
      (∀ j, min 126 s._rf_obj.txBuffer.length + 1 < j →
        (RF_LOAD_FRAME s).TRXFB j = s.TRXFB j) ∧
      (RF_LOAD_FRAME s)._rf_obj.txBuffer.contents =
        s._rf_obj.txBuffer.contents.drop (min 126 s._rf_obj.txBuffer.length) ∧
      (RF_LOAD_FRAME s)._rf_obj.txBuffer.length =
        s._rf_obj.txBuffer.length - min 126 s._rf_obj.txBuffer.length ∧
      (RF_LOAD_FRAME s)._rf_obj.txBuffer.Inv ∧
      (RF_LOAD_FRAME s)._rf_obj.txBuffer.size = s._rf_obj.txBuffer.size := by
  obtain ⟨l1, l2, l3, l4, l5, l6⟩ := load_loop_spec 126 0 s._rf_obj.txBuffer s.TRXFB h (by omega)
  rw [Nat.zero_add] at l1
  have hH : HW_FRAME_TX_SIZE - 1 = 126 := rfl
  obtain ⟨k, hk⟩ : ∃ k, k = min 126 s._rf_obj.txBuffer.length := ⟨_, rfl⟩
  have hk126 : k ≤ 126 := by omega
  rw [← hk] at l1 l2 l5 l6 ⊢
  have hfb : ∀ j, (RF_LOAD_FRAME s).TRXFB j =
      if j = 0 then toU8 (2 + (((k + 1) % 256 : Nat) : Int))
      else if j = 1 + k then 0
      else (RF_LOAD_FRAME_loop 126 0 s._rf_obj.txBuffer s.TRXFB).2.2 j := by
    intro j
    simp only [RF_LOAD_FRAME, hH, l1, store]
  refine ⟨by rw [hH]; exact l1, ?_, ?_, ?_, ?_, l2, l5, l3, l4⟩
  · rw [hfb 0]
    simp only [if_true, toU8, Fin.ofNat]
    have e : (2 + (((k + 1) % 256 : Nat) : Int)) % 256 = ((k + 3 : Nat) : Int) := by omega
    rw [e, Int.toNat_ofNat]
    show (k + 3) % 256 = k + 3
    omega
  · intro j h1 h2
    rw [hfb j, l6 j]
    have c1 : j ≠ 0 := by omega
    have c2 : j ≠ 1 + k := by omega
    have c3 : 1 + 0 ≤ j ∧ j < 1 + 0 + k := by omega
    simp only [c1, c2, c3, if_false, and_self, if_true]
  · rw [hfb (k + 1)]
    have c1 : k + 1 ≠ 0 := by omega
    have c2 : k + 1 = 1 + k := by omega
    rw [if_neg c1, if_pos c2]
  · intro j hj
    rw [hfb j, l6 j]
    have c1 : j ≠ 0 := by omega
    have c2 : j ≠ 1 + k := by omega
    have c3 : ¬ (1 + 0 ≤ j ∧ j < 1 + 0 + k) := by omega
    simp only [c1, c2, c3, if_false]

/-- C25, as amended: the frame assembler writes `drainedCount + 3` into the length field
`TRXFBST`, where `drainedCount`, the number of bytes it took from the transmit buffer in
that call, is the smaller of the number of bytes queued and `HW_FRAME_TX_SIZE - 1`: its
counter `length` also counts the zero terminator before 2 is added. -/
theorem frame_length_field_value (s : RfState) (h : s._rf_obj.txBuffer.Inv) :
    s._rf_obj.txBuffer.length - (RF_LOAD_FRAME s)._rf_obj.txBuffer.length =
        min s._rf_obj.txBuffer.length (HW_FRAME_TX_SIZE - 1) ∧
      (RF_LOAD_FRAME_loop (HW_FRAME_TX_SIZE - 1) 0 s._rf_obj.txBuffer s.TRXFB).1 =
        s._rf_obj.txBuffer.length - (RF_LOAD_FRAME s)._rf_obj.txBuffer.length ∧
      ((RF_LOAD_FRAME s).TRXFB 0).val =
        (s._rf_obj.txBuffer.length - (RF_LOAD_FRAME s)._rf_obj.txBuffer.length) + 3 := by
  obtain ⟨p1, p2, -, -, -, -, p7, -, -⟩ := RF_LOAD_FRAME_spec s h
  have hH : HW_FRAME_TX_SIZE - 1 = 126 := rfl
  rw [p1, p2, p7, hH]
  omega

/-- Witness of C25 as amended: with two bytes queued the assembler drains both and writes 5
into the length field. -/
theorem frame_length_field_value_witness :
    (pushed idleRadio [0x41, 0x42])._rf_obj.txBuffer.Inv ∧
      (pushed idleRadio [0x41, 0x42])._rf_obj.txBuffer.length -
        (RF_LOAD_FRAME (pushed idleRadio [0x41, 0x42]))._rf_obj.txBuffer.length = 2 ∧
      ((RF_LOAD_FRAME (pushed idleRadio [0x41, 0x42])).TRXFB 0).val = 2 + 3 :=
  ⟨by decide, by decide,
    (frame_length_field_value (pushed idleRadio [0x41, 0x42]) (by decide)).2.2.trans
      (by decide)⟩

/-- Counterexample to C25 as stated: with an empty transmit buffer the assembler drains no
byte and writes 3, not 2, into the length field; with the two bytes `A`, `B` queued it
drains 2 and writes 5, not 4. -/
theorem terminator_counted_in_frame_length :
    idleRadio._rf_obj.txBuffer.length = 0 ∧
      (RF_LOAD_FRAME idleRadio)._rf_obj.txBuffer.length = 0 ∧
      (RF_LOAD_FRAME idleRadio).TRXFB 0 = 3 ∧
      (pushed idleRadio [0x41, 0x42])._rf_obj.txBuffer.length = 2 ∧
      (RF_LOAD_FRAME (pushed idleRadio [0x41, 0x42]))._rf_obj.txBuffer.length = 0 ∧
      (RF_LOAD_FRAME (pushed idleRadio [0x41, 0x42])).TRXFB 0 = 5 := by
  decide

/-- C26: with the bytes `t1..tm` queued, oldest first, the frame assembler drains exactly
`k = min(m, HW_FRAME_TX_SIZE - 1)` bytes: offsets `1..k` of the hardware frame buffer hold
`t1..tk` in that order, offset `k + 1` holds the zero terminator, and the transmit buffer
keeps `t(k+1)..tm` in order. -/
theorem RF_LOAD_FRAME_drains_fifo (s : RfState) (h : s._rf_obj.txBuffer.Inv) :
    s._rf_obj.txBuffer.length - (RF_LOAD_FRAME s)._rf_obj.txBuffer.length =
        min s._rf_obj.txBuffer.contents.length (HW_FRAME_TX_SIZE - 1) ∧
      (List.range (min s._rf_obj.txBuffer.contents.length (HW_FRAME_TX_SIZE - 1))).map
          (fun i => (RF_LOAD_FRAME s).TRXFB (i + 1)) =
        s._rf_obj.txBuffer.contents.take
          (min s._rf_obj.txBuffer.contents.length (HW_FRAME_TX_SIZE - 1)) ∧
      (RF_LOAD_FRAME s).TRXFB
          (min s._rf_obj.txBuffer.contents.length (HW_FRAME_TX_SIZE - 1) + 1) = 0 ∧
      (RF_LOAD_FRAME s)._rf_obj.txBuffer.contents =
        s._rf_obj.txBuffer.contents.drop
          (min s._rf_obj.txBuffer.contents.length (HW_FRAME_TX_SIZE - 1)) ∧
      (RF_LOAD_FRAME s)._rf_obj.txBuffer.Inv := by
  obtain ⟨-, -, p3, p4, -, p6, p7, p8, -⟩ := RF_LOAD_FRAME_spec s h
  have hH : HW_FRAME_TX_SIZE - 1 = 126 := rfl
  have hc : s._rf_obj.txBuffer.contents.length = s._rf_obj.txBuffer.length :=
    contents_length _
  have hmin : min s._rf_obj.txBuffer.contents.length (HW_FRAME_TX_SIZE - 1) =
      min 126 s._rf_obj.txBuffer.length := by rw [hH, hc, Nat.min_comm]
  rw [hmin]
  obtain ⟨k, hk⟩ : ∃ k, k = min 126 s._rf_obj.txBuffer.length := ⟨_, rfl⟩
  rw [← hk] at p3 p4 p6 p7 ⊢
  refine ⟨by rw [p7]; omega, ?_, p4, p6, p8⟩
  apply List.ext_getElem
  · simp only [List.length_map, List.length_range, List.length_take, hc]
    omega
  · intro i h1 h2
    simp only [List.length_map, List.length_range] at h1
    simp only [List.getElem_map, List.getElem_range, List.getElem_take]
    rw [p3 (i + 1) (by omega) (by omega)]
    have hi : i < s._rf_obj.txBuffer.contents.length := by rw [hc]; omega
    simp only [Nat.add_sub_cancel, List.getD_eq_getElem?_getD, List.getElem?_eq_getElem hi,
      Option.getD_some]

set_option maxRecDepth 100000 in
/-- Witness of C26: the full transmit buffer of 128 bytes whose oldest byte, 100, lies at
index 100: 126 bytes are drained, the frame buffer starts with 100, 101 behind the length
byte and ends with 97 at offset 126 and the terminator at offset 127, and the bytes 98, 99
stay queued. -/
theorem RF_LOAD_FRAME_drains_fifo_witness :
    fullTx._rf_obj.txBuffer.Inv ∧ fullTx._rf_obj.txBuffer.contents.length = 128 ∧
      fullTx._rf_obj.txBuffer.contents.take 2 = [100, 101] ∧
      fullTx._rf_obj.txBuffer.length - (RF_LOAD_FRAME fullTx)._rf_obj.txBuffer.length = 126 ∧
      (RF_LOAD_FRAME fullTx).TRXFB 1 = 100 ∧ (RF_LOAD_FRAME fullTx).TRXFB 2 = 101 ∧
      (RF_LOAD_FRAME fullTx).TRXFB 126 = 97 ∧
      (RF_LOAD_FRAME fullTx).TRXFB 127 = 0 ∧
      (RF_LOAD_FRAME fullTx)._rf_obj.txBuffer.contents = [98, 99] :=
  ⟨by decide, by decide, by decide,
    (RF_LOAD_FRAME_drains_fifo fullTx (by decide)).1.trans (by decide),
    by decide, by decide, by decide,
    (RF_LOAD_FRAME_drains_fifo fullTx (by decide)).2.2.1,
    by decide⟩

set_option maxRecDepth 100000 in
/-- C29, the failing case: with an empty transmit buffer, 127 calls of `rfPutByte` send one
frame whose length field holds 129, above the hardware frame limit `HW_FRAME_TX_SIZE` of
127; the field exceeds 127 whenever 125 bytes or more are queued.  The offsets written are
within the frame buffer: from offset 128 on nothing is written. -/
theorem frame_length_exceeds_limit :
    HW_FRAME_TX_SIZE = 127 ∧
      (rfPutBytes 1 idleRadio (List.replicate 127 (65 : uint8_t))).map
        (fun r => r.2.txFrames.map (fun f => f.head?)) = some [some 129] ∧
      (RF_LOAD_FRAME fullTx).TRXFB 0 = 129 ∧
      (∀ s : RfState, s._rf_obj.txBuffer.Inv → 125 ≤ s._rf_obj.txBuffer.length →
        HW_FRAME_TX_SIZE < ((RF_LOAD_FRAME s).TRXFB 0).val) ∧
      (∀ s : RfState, s._rf_obj.txBuffer.Inv → ∀ j, 128 ≤ j →
        (RF_LOAD_FRAME s).TRXFB j = s.TRXFB j) :=
  ⟨rfl, by decide, by decide,
    fun s h hl => by
      rw [(RF_LOAD_FRAME_spec s h).2.1]
      unfold HW_FRAME_TX_SIZE
      omega,
    fun s h j hj => (RF_LOAD_FRAME_spec s h).2.2.2.2.1 j (by omega)⟩

/-! ## Radio: the force-to-idle sequence -/

/-- The second step of the force-to-idle sequence ORs its command into `TRX_STATE`, which
holds `TRX_OFF` from the first step: the low five bits become `TRX_OFF | CMD_FORCE_TRX_OFF`
and the upper three stay. -/
theorem rf_off_state_command (s : RfState) (h0 : (s.TRX_STATUS 0 % 256) &&& 0x1F ≠ TRX_OFF) :
    (_rf_off_state s).2.TRX_STATE &&& 0x1F = 11 ∧
      (_rf_off_state s).2.TRX_STATE &&& 0xE0 = s.TRX_STATE &&& 0xE0 := by
  have hx : s.TRX_STATE &&& 0xE0 = (s.TRX_STATE % 256) &&& 0xE0 := by
    have e : (0xE0 : Nat) = 255 &&& 0xE0 := by decide
    have e255 : s.TRX_STATE &&& 255 = s.TRX_STATE % 256 :=
      Nat.and_pow_two_sub_one_eq_mod s.TRX_STATE 8
    calc s.TRX_STATE &&& 0xE0 = s.TRX_STATE &&& (255 &&& 0xE0) := by rw [← e]
      _ = (s.TRX_STATE &&& 255) &&& 0xE0 := by rw [Nat.land_assoc]
      _ = (s.TRX_STATE % 256) &&& 0xE0 := by rw [e255]
  have hz : s.TRX_STATE % 256 < 256 := Nat.mod_lt _ (by decide)
  have hq : ∀ z : Fin 256, z.val &&& 0xE0 = 32 * (z.val / 32) := by
    set_option maxRecDepth 100000 in decide
  have key : ∀ q : Fin 8,
      ((((32 * q.val) ||| TRX_OFF) % 256 |||
          (((((32 * q.val) ||| TRX_OFF) % 256) &&& 0xE0) ||| CMD_FORCE_TRX_OFF)) % 256)
          &&& 0x1F = 11 ∧
        ((((32 * q.val) ||| TRX_OFF) % 256 |||
          (((((32 * q.val) ||| TRX_OFF) % 256) &&& 0xE0) ||| CMD_FORCE_TRX_OFF)) % 256)
          &&& 0xE0 = 32 * q.val := by
    set_option maxRecDepth 100000 in decide
  have h32 := hq ⟨s.TRX_STATE % 256, hz⟩
  simp only at h32
  have hk := key ⟨s.TRX_STATE % 256 / 32, by omega⟩
  simp only at hk
  have hval : (_rf_off_state s).2.TRX_STATE =
      (((s.TRX_STATE &&& 0xE0) ||| TRX_OFF) % 256 |||
        (((((s.TRX_STATE &&& 0xE0) ||| TRX_OFF) % 256) &&& 0xE0) ||| CMD_FORCE_TRX_OFF)) % 256 := by
    simp only [_rf_off_state, readStatus, h0, ne_eq, not_false_eq_true, if_true]
    split
    · split <;> rfl
    · rfl
  rw [hval, hx, h32]
  exact hk

set_option maxRecDepth 100000 in
/-- C27, the failing case: the second step of `_rf_off_state()` does not issue the
forced-idle command.  Its statement ORs `CMD_FORCE_TRX_OFF` (3) into `TRX_STATE`, which
holds `TRX_OFF` (8) since the first step, so whenever the first check fails the command
field of `TRX_STATE` is 11, which is neither command.  On a radio whose status always
reads 0 the sequence returns `false` and leaves 11 in `TRX_STATE`; when the status reads
`TRX_OFF` at the second check it returns `true` with 11 in `TRX_STATE` too. -/
theorem forced_idle_command_not_issued :
    CMD_FORCE_TRX_OFF = 3 ∧ TRX_OFF = 8 ∧
      (∀ s : RfState, (s.TRX_STATUS 0 % 256) &&& 0x1F ≠ TRX_OFF →
        (_rf_off_state s).2.TRX_STATE &&& 0x1F = 11) ∧
      stuckRadio.TRX_STATE = 6 ∧ (_rf_off_state stuckRadio).1 = false ∧
      (_rf_off_state stuckRadio).2.TRX_STATE = 11 ∧
      (_rf_off_state { stuckRadio with TRX_STATUS := fun n => if n = 0 then 0 else 8 }).1 =
        true ∧
      (_rf_off_state
        { stuckRadio with TRX_STATUS := fun n => if n = 0 then 0 else 8 }).2.TRX_STATE = 11 :=
  ⟨rfl, rfl, fun s h0 => (rf_off_state_command s h0).1, rfl, by decide, by decide, by decide,
    by decide⟩

/-! ## Radio: the states between calls -/

/-- The wait for the end of a state transition only consumes reads of `TRX_STATUS`. -/
theorem waitTransition_keeps (fuel : Nat) (s t : RfState) (h : waitTransition fuel s = some t) :
    t._rf_obj = s._rf_obj ∧ ∃ j, t.TRX_STATUS = fun n => s.TRX_STATUS (n + j) := by
  induction fuel generalizing s with
  | zero => simp [waitTransition] at h
  | succ fuel ih =>
    rw [waitTransition] at h
    by_cases hb : (readStatus s).1 = STATE_TRANSITION_IN_PROGRESS
    · simp only [hb, if_true] at h
      obtain ⟨h1, j, h2⟩ := ih (readStatus s).2 h
      refine ⟨h1, j + 1, ?_⟩
      rw [h2]
      funext n
      simp only [readStatus, Nat.add_assoc]
    · simp only [hb, if_false, Option.some.injEq] at h
      rw [← h]
      exact ⟨rfl, 1, rfl⟩

/-- The force-to-idle sequence consumes one, two or three reads of `TRX_STATUS`. -/
theorem rf_off_state_status (s : RfState) :
    ∃ j, (_rf_off_state s).2.TRX_STATUS = fun n => s.TRX_STATUS (n + j) := by
  simp only [_rf_off_state, readStatus]
  split
  · split
    · split
      · exact ⟨3, rfl⟩
      · exact ⟨3, rfl⟩
    · exact ⟨2, rfl⟩
  · exact ⟨1, rfl⟩

/-- A successful `rfInit` leaves both buffers empty and bound to their storage, and has
only consumed reads of `TRX_STATUS`. -/
theorem rfInit_active (fuel : Nat) (s t : RfState) (channel : uint8_t)
    (h : rfInit fuel s channel = some t) (hact : t._rf_obj.inited ≠ 0) :
    t.Wf ∧ t._rf_obj.txBuffer.length = 0 ∧ t._rf_obj.rxBuffer.length = 0 ∧
      ∃ j, t.TRX_STATUS = fun n => s.TRX_STATUS (n + j) := by
  rw [rfInit_eq] at h
  cases hw : waitTransition fuel (rfInit_reset s) with
  | none => rw [hw] at h; simp at h
  | some s1 =>
    rw [hw] at h
    simp only at h
    obtain ⟨k1, j1, k2⟩ := waitTransition_keeps fuel _ _ hw
    obtain ⟨w1, -, w3, -, -⟩ := rfInit_wake_frame s1
    obtain ⟨j2, o2⟩ := rf_off_state_status (rfInit_wake s1)
    have o1 := rf_off_state_obj (rfInit_wake s1)
    have hst : (_rf_off_state (rfInit_wake s1)).2.TRX_STATUS =
        fun n => s.TRX_STATUS (n + (j2 + 1 + j1)) := by
      rw [o2, w1, k2]
      funext n
      show s.TRX_STATUS (n + j2 + 1 + j1) = _
      simp only [Nat.add_assoc]
    by_cases hb : (!(_rf_off_state (rfInit_wake s1)).1) = true
    · simp only [hb, if_true, Option.some.injEq] at h
      exfalso
      apply hact
      rw [← h, o1, w3, k1]
      rfl
    · simp only [hb, if_false, Option.some.injEq, Bool.false_eq_true] at h
      have hobj : t._rf_obj = { (rfInit_reset s)._rf_obj with
          rxOverflow := 0, txIdle := 1, inited := rfInit_channel channel } := by
        rw [← h, (rfInit_finish_frame _ _).1, o1, w3, k1]
      have hrx : t._rf_obj.rxBuffer =
          bufferReset s._rf_obj.rxBuffer s._rf_obj.rxBuffer.data RF_RX_BUFFER_SIZE := by
        rw [hobj]; rfl
      have htx : t._rf_obj.txBuffer =
          bufferReset s._rf_obj.txBuffer s._rf_obj.txBuffer.data RF_TX_BUFFER_SIZE := by
        rw [hobj]; rfl
      refine ⟨⟨?_, ?_, ?_, ?_⟩, by rw [htx]; rfl, by rw [hrx]; rfl, j2 + 1 + j1, ?_⟩
      · rw [hrx]
        show 0 < RF_RX_BUFFER_SIZE ∧ RF_RX_BUFFER_SIZE < USHORT ∧ 0 ≤ RF_RX_BUFFER_SIZE ∧
          0 < RF_RX_BUFFER_SIZE
        decide
      · rw [hrx]; rfl
      · rw [htx]
        show 0 < RF_TX_BUFFER_SIZE ∧ RF_TX_BUFFER_SIZE < USHORT ∧ 0 ≤ RF_TX_BUFFER_SIZE ∧
          0 < RF_TX_BUFFER_SIZE
        decide
      · rw [htx]; rfl
      · rw [← h]; exact hst

/-- A frame sent from a well-formed instance: the transmit buffer loses its first 126
bytes, or all it holds, and the rest of the instance stays as it is. -/
theorem RF_TX_FRAME_ready (fuel : Nat) (s t : RfState) (h : RF_TX_FRAME fuel s = some t)
    (hwf : s.Wf) :
    t.Wf ∧ t._rf_obj.inited = s._rf_obj.inited ∧
      t._rf_obj.txBuffer.length =
        s._rf_obj.txBuffer.length - min 126 s._rf_obj.txBuffer.length := by
  have ho := RF_TX_FRAME_obj fuel s t h
  obtain ⟨hrx, hrs, htx, hts⟩ := hwf
  obtain ⟨-, -, -, -, -, -, p7, p8, p9⟩ := RF_LOAD_FRAME_spec s htx
  have hobj := RF_LOAD_FRAME_obj s
  have e1 : t._rf_obj.rxBuffer = s._rf_obj.rxBuffer := by rw [ho, hobj]
  have e2 : t._rf_obj.txBuffer = (RF_LOAD_FRAME s)._rf_obj.txBuffer := by rw [ho]
  have e3 : t._rf_obj.inited = s._rf_obj.inited := by rw [ho, hobj]
  exact ⟨⟨by rw [e1]; exact hrx, by rw [e1]; exact hrs, by rw [e2]; exact p8,
    by rw [e2, p9]; exact hts⟩, e3, by rw [e2, p7]⟩

/-- While the PLL keeps locking, `RF_TX_FRAME` returns, and the PLL keeps locking
afterwards. -/
theorem RF_TX_FRAME_returns (fuel : Nat) (s : RfState) (hp : pllLocks fuel s) :
    ∃ t, RF_TX_FRAME fuel s = some t ∧ pllLocks fuel t := by
  have h0 : ∃ m, m < fuel ∧ (s.TRX_STATUS m % 256) &&& PLL_ON ≠ 0 := by
    obtain ⟨m, hm, hb⟩ := hp 0
    rw [Nat.zero_add] at hb
    exact ⟨m, hm, hb⟩
  obtain ⟨k, hk⟩ := waitPllLock_some fuel
    { s with TRX_STATE := ((s.TRX_STATE &&& 0xE0) ||| PLL_ON) % 256 } h0
  rw [RF_TX_FRAME_eq, hk]
  refine ⟨_, rfl, ?_⟩
  intro i
  obtain ⟨m, hm, hb⟩ := hp (i + k)
  refine ⟨m, hm, ?_⟩
  show (s.TRX_STATUS (i + m + k) % 256) &&& PLL_ON ≠ 0
  have e : i + m + k = i + k + m := by omega
  rw [e]
  exact hb

theorem bufferGet_size (b : cBuffer) : (bufferGet b).2.size = b.size := by
  simp only [bufferGet]
  split <;> rfl

theorem rfGetBuffer_loop_inv (n i : Nat) (rx : cBuffer) (data : Nat → uint8_t) (h : rx.Inv) :
    (rfGetBuffer_loop n i rx data).1.Inv ∧ (rfGetBuffer_loop n i rx data).1.size = rx.size := by
  induction n generalizing i rx data with
  | zero => exact ⟨h, rfl⟩
  | succ n ih =>
    rw [rfGetBuffer_loop]
    obtain ⟨a, b⟩ := ih (i + 1) (bufferGet rx).2 (store data i (toU8 (bufferGet rx).1))
      (bufferGet_inv rx h)
    exact ⟨a, by rw [b, bufferGet_size]⟩

/-- `rfTransmitNow()` on a running radio with fewer than `HW_FRAME_TX_SIZE` bytes queued
leaves the transmit buffer empty. -/
theorem rfTransmitNow_ready (fuel : Nat) (s t : RfState) (h : rfTransmitNow fuel s = some t)
    (hwf : s.Wf) (hact : s._rf_obj.inited ≠ 0) (hlen : s._rf_obj.txBuffer.length ≤ 126) :
    t.Wf ∧ t._rf_obj.inited ≠ 0 ∧ t._rf_obj.txBuffer.length = 0 := by
  simp only [rfTransmitNow, hact, if_false] at h
  obtain ⟨a, b, c⟩ := RF_TX_FRAME_ready fuel s t h hwf
  exact ⟨a, by rw [b]; exact hact, by rw [c]; omega⟩

/-- `rfPutByte(b)` on a running radio with fewer than `HW_FRAME_TX_SIZE` bytes queued finds
room, returns `b` and leaves fewer than `HW_FRAME_TX_SIZE` bytes queued. -/
theorem rfPutByte_ready (fuel : Nat) (s : RfState) (b : uint8_t) (r : Int × RfState)
    (h : rfPutByte fuel s b = some r)
    (hwf : s.Wf) (hact : s._rf_obj.inited ≠ 0) (hlen : s._rf_obj.txBuffer.length ≤ 126) :
    (bufferPut s._rf_obj.txBuffer b).1 = (b.val : Int) ∧ r.1 = (b.val : Int) ∧
      r.2.Wf ∧ r.2._rf_obj.inited ≠ 0 ∧ r.2._rf_obj.txBuffer.length ≤ 126 := by
  obtain ⟨hrx, hrs, htx, hts⟩ := hwf
  have hroom : s._rf_obj.txBuffer.length < s._rf_obj.txBuffer.size := by
    rw [hts]; unfold RF_TX_BUFFER_SIZE HW_FRAME_TX_SIZE; omega
  have hput := bufferPut_room s._rf_obj.txBuffer b hroom
  have hpi := bufferPut_inv s._rf_obj.txBuffer b htx
  have hm : (s._rf_obj.txBuffer.length + 1) % USHORT = s._rf_obj.txBuffer.length + 1 :=
    Nat.mod_eq_of_lt (by unfold USHORT; omega)
  have hpl : (bufferPut s._rf_obj.txBuffer b).2.length = s._rf_obj.txBuffer.length + 1 := by
    rw [hput]; exact hm
  have hps : (bufferPut s._rf_obj.txBuffer b).2.size = RF_TX_BUFFER_SIZE := by
    rw [hput]; exact hts
  have hp1 : (bufferPut s._rf_obj.txBuffer b).1 = (b.val : Int) := by rw [hput]
  have hwf2 : ({ s with _rf_obj := { s._rf_obj with
      txBuffer := (bufferPut s._rf_obj.txBuffer b).2 } } : RfState).Wf := ⟨hrx, hrs, hpi, hps⟩
  rw [rfPutByte_active fuel s b hact] at h
  by_cases hge : (bufferPut s._rf_obj.txBuffer b).2.length ≥ HW_FRAME_TX_SIZE
  · rw [if_pos hge] at h
    obtain ⟨w, hw, hr⟩ := Option.map_eq_some'.mp h
    obtain ⟨a, e, c⟩ := RF_TX_FRAME_ready fuel _ w hw hwf2
    rw [← hr]
    refine ⟨hp1, hp1, a, by rw [e]; exact hact, ?_⟩
    rw [c]
    show (bufferPut s._rf_obj.txBuffer b).2.length -
      min 126 (bufferPut s._rf_obj.txBuffer b).2.length ≤ 126
    omega
  · rw [if_neg hge] at h
    simp only [Option.some.injEq] at h
    rw [← h]
    refine ⟨hp1, hp1, hwf2, hact, ?_⟩
    show (bufferPut s._rf_obj.txBuffer b).2.length ≤ 126
    unfold HW_FRAME_TX_SIZE at hge
    omega

/-- `rfPutBuffer(data, len)` on a running radio leaves fewer than `HW_FRAME_TX_SIZE` bytes
queued. -/
theorem rfPutBuffer_ready (fuel : Nat) (s : RfState) (data : Nat → uint8_t) (len : uint8_t)
    (r : Int × RfState × (Nat → uint8_t)) (h : rfPutBuffer fuel s data len = some r)
    (hwf : s.Wf) (hact : s._rf_obj.inited ≠ 0) :
    r.2.1.Wf ∧ r.2.1._rf_obj.inited ≠ 0 ∧ r.2.1._rf_obj.txBuffer.length ≤ 126 := by
  obtain ⟨hrx, hrs, htx, hts⟩ := hwf
  obtain ⟨xs, hxs⟩ : ∃ xs, xs = (List.range len.val).map data := ⟨_, rfl⟩
  have hri := run_inv (xs.map BufOp.put) s._rf_obj.txBuffer htx
  have hwf2 : (pushed s xs).Wf := ⟨hrx, hrs, hri.1, hri.2.1.trans hts⟩
  have hL : (pushed s xs)._rf_obj.txBuffer.length ≤ 128 := by
    have h3 := hri.1.2.2.1
    rw [hri.2.1, hts] at h3
    exact h3
  rw [rfPutBuffer_active fuel s data len hact, ← hxs] at h
  by_cases hge : (pushed s xs)._rf_obj.txBuffer.length ≥ HW_FRAME_TX_SIZE
  · rw [if_pos hge] at h
    obtain ⟨w, hw, hr⟩ := Option.map_eq_some'.mp h
    obtain ⟨a, e, c⟩ := RF_TX_FRAME_ready fuel _ w hw hwf2
    rw [← hr]
    refine ⟨a, by rw [e]; exact hact, ?_⟩
    show w._rf_obj.txBuffer.length ≤ 126
    rw [c]
    omega
  · rw [if_neg hge] at h
    simp only [Option.some.injEq] at h
    rw [← h]
    refine ⟨hwf2, hact, ?_⟩
    show (pushed s xs)._rf_obj.txBuffer.length ≤ 126
    unfold HW_FRAME_TX_SIZE at hge
    omega

/-- Every call and every interrupt keeps a running radio well formed, active, and with
fewer than `HW_FRAME_TX_SIZE` bytes queued for transmission. -/
theorem call_keeps (fuel : Nat) (c : RfCall) (s t : RfState) (h : c.apply fuel s = some t)
    (hwf : s.Wf) (hact : s._rf_obj.inited ≠ 0) (hlen : s._rf_obj.txBuffer.length ≤ 126) :
    t.Wf ∧ t._rf_obj.inited ≠ 0 ∧ t._rf_obj.txBuffer.length ≤ 126 := by
  cases c with
  | putByte b =>
    obtain ⟨r, hr, e⟩ := Option.map_eq_some'.mp h
    rw [← e]
    exact (rfPutByte_ready fuel s b r hr hwf hact hlen).2.2
  | putBuffer data len =>
    obtain ⟨r, hr, e⟩ := Option.map_eq_some'.mp h
    rw [← e]
    exact rfPutBuffer_ready fuel s data len r hr hwf hact
  | putString data n =>
    obtain ⟨r, hr, e⟩ := Option.map_eq_some'.mp h
    rw [← e]
    simp only [rfPutString, hact, if_false] at hr
    cases hb : rfPutBuffer fuel s data (Fin.ofNat (strlen data n 0)) with
    | none => rw [hb] at hr; simp at hr
    | some q =>
      rw [hb] at hr
      simp only at hr
      obtain ⟨q1, q2, q3⟩ := rfPutBuffer_ready fuel s data _ q hb hwf hact
      cases hn : rfTransmitNow fuel q.2.1 with
      | none => rw [hn] at hr; simp at hr
      | some w =>
        rw [hn] at hr
        simp only [Option.some.injEq] at hr
        rw [← hr]
        obtain ⟨a1, a2, a3⟩ := rfTransmitNow_ready fuel q.2.1 w hn q1 q2 q3
        exact ⟨a1, a2, by show w._rf_obj.txBuffer.length ≤ 126; omega⟩
  | transmitNow =>
    obtain ⟨a1, a2, a3⟩ := rfTransmitNow_ready fuel s t h hwf hact hlen
    exact ⟨a1, a2, by omega⟩
  | available =>
    simp only [RfCall.apply, Option.some.injEq] at h
    rw [← h]; exact ⟨hwf, hact, hlen⟩
  | getByte =>
    simp only [RfCall.apply, Option.some.injEq] at h
    rw [← h]
    obtain ⟨hrx, hrs, htx, hts⟩ := hwf
    simp only [rfGetByte, hact, if_false]
    exact ⟨⟨bufferGet_inv _ hrx, (bufferGet_size _).trans hrs, htx, hts⟩, hact, hlen⟩
  | getBuffer data maxlen =>
    simp only [RfCall.apply, Option.some.injEq] at h
    rw [← h]
    obtain ⟨hrx, hrs, htx, hts⟩ := hwf
    simp only [rfGetBuffer, hact, if_false]
    obtain ⟨a, b⟩ := rfGetBuffer_loop_inv
      (if rfAvailable s > (maxlen.val : Int) then (maxlen.val : Int) else rfAvailable s).toNat 0
      s._rf_obj.rxBuffer (fun i => if i < maxlen.val then 0 else data i) hrx
    exact ⟨⟨a, b.trans hrs, htx, hts⟩, hact, hlen⟩
  | flushReceiveBuffer =>
    simp only [RfCall.apply, Option.some.injEq] at h
    rw [← h]
    obtain ⟨hrx, hrs, htx, hts⟩ := hwf
    exact ⟨⟨⟨hrx.1, hrx.2.1, Nat.zero_le _, hrx.2.2.2⟩, hrs, htx, hts⟩, hact, hlen⟩
  | receiveBufferOverflow =>
    simp only [RfCall.apply, Option.some.injEq] at h
    rw [← h]; exact ⟨hwf, hact, hlen⟩
  | inited =>
    simp only [RfCall.apply, Option.some.injEq] at h
    rw [← h]; exact ⟨hwf, hact, hlen⟩
  | rxStart rssi =>
    simp only [RfCall.apply, Option.some.injEq] at h
    rw [← h]; exact ⟨hwf, hact, hlen⟩
  | rxEnd length frame =>
    simp only [RfCall.apply, Option.some.injEq] at h
    rw [← h]
    obtain ⟨hrx, hrs, htx, hts⟩ := hwf
    simp only [TRX24_RX_END_vect]
    split
    · obtain ⟨-, -, r3, r4, -, -, -, r8, r9, -, -⟩ :=
        rxEndLoop_spec (fun i => if i < length.val then frame i else 0)
          (((length.val : Int) - 2).toNat) 0 s._rf_obj hrx
          (by rw [hrs]; decide)
      refine ⟨⟨r3, r4.trans hrs, ?_, ?_⟩, ?_, ?_⟩
      · show (rxEndLoop _ _ 0 s._rf_obj).txBuffer.Inv
        rw [r8]; exact htx
      · show (rxEndLoop _ _ 0 s._rf_obj).txBuffer.size = _
        rw [r8]; exact hts
      · show (rxEndLoop _ _ 0 s._rf_obj).inited ≠ 0
        rw [r9]; exact hact
      · show (rxEndLoop _ _ 0 s._rf_obj).txBuffer.length ≤ 126
        rw [r8]; exact hlen
    · exact ⟨⟨hrx, hrs, htx, hts⟩, hact, hlen⟩
  | txEnd =>
    simp only [RfCall.apply, Option.some.injEq] at h
    rw [← h]; exact ⟨hwf, hact, hlen⟩

/-- While the PLL keeps locking, every call returns, and the PLL keeps locking
afterwards. -/
theorem call_returns (fuel : Nat) (c : RfCall) (s : RfState) (hp : pllLocks fuel s) :
    ∃ t, c.apply fuel s = some t ∧ pllLocks fuel t := by
  have hput : ∀ b, ∃ r, rfPutByte fuel s b = some r ∧ pllLocks fuel r.2 := by
    intro b
    simp only [rfPutByte]
    split
    · exact ⟨_, rfl, hp⟩
    · split
      · obtain ⟨w, hw, hq⟩ := RF_TX_FRAME_returns fuel
          { s with _rf_obj := { s._rf_obj with
            txBuffer := (bufferPut s._rf_obj.txBuffer b).2 } } hp
        rw [hw]
        exact ⟨_, rfl, hq⟩
      · exact ⟨_, rfl, hp⟩
  have hbuf : ∀ data len, ∃ r, rfPutBuffer fuel s data len = some r ∧ pllLocks fuel r.2.1 := by
    intro data len
    simp only [rfPutBuffer]
    split
    · exact ⟨_, rfl, hp⟩
    · split
      · obtain ⟨w, hw, hq⟩ := RF_TX_FRAME_returns fuel
          { s with _rf_obj := { s._rf_obj with
            txBuffer := rfPutBuffer_loop data len.val 0 s._rf_obj.txBuffer } } hp
        rw [hw]
        exact ⟨_, rfl, hq⟩
      · exact ⟨_, rfl, hp⟩
  have hnow : ∀ u : RfState, pllLocks fuel u →
      ∃ r, rfTransmitNow fuel u = some r ∧ pllLocks fuel r := by
    intro u hu
    simp only [rfTransmitNow]
    split
    · exact ⟨_, rfl, hu⟩
    · exact RF_TX_FRAME_returns fuel u hu
  cases c with
  | putByte b =>
    obtain ⟨r, hr, hq⟩ := hput b
    exact ⟨r.2, by simp only [RfCall.apply, hr, Option.map_some'], hq⟩
  | putBuffer data len =>
    obtain ⟨r, hr, hq⟩ := hbuf data len
    exact ⟨r.2.1, by simp only [RfCall.apply, hr, Option.map_some'], hq⟩
  | putString data n =>
    simp only [RfCall.apply, rfPutString]
    split
    · exact ⟨_, rfl, hp⟩
    · obtain ⟨r, hr, hq⟩ := hbuf data (Fin.ofNat (strlen data n 0))
      obtain ⟨w, hw, hq2⟩ := hnow r.2.1 hq
      rw [hr]
      simp only [hw, Option.map_some']
      exact ⟨_, rfl, hq2⟩
  | transmitNow => exact hnow s hp
  | available => exact ⟨_, rfl, hp⟩
  | getByte =>
    refine ⟨_, rfl, ?_⟩
    simp only [rfGetByte]
    split <;> exact hp
  | getBuffer data maxlen =>
    refine ⟨_, rfl, ?_⟩
    simp only [rfGetBuffer]
    split <;> exact hp
  | flushReceiveBuffer => exact ⟨_, rfl, hp⟩
  | receiveBufferOverflow => exact ⟨_, rfl, hp⟩
  | inited => exact ⟨_, rfl, hp⟩
  | rxStart rssi => exact ⟨_, rfl, hp⟩
  | rxEnd length frame =>
    refine ⟨_, rfl, ?_⟩
    simp only [TRX24_RX_END_vect]
    split <;> exact hp
  | txEnd => exact ⟨_, rfl, hp⟩

/-- Every sequence of calls and interrupts keeps a running radio well formed, active, and
with fewer than `HW_FRAME_TX_SIZE` bytes queued for transmission. -/
theorem run_keeps (fuel : Nat) (cs : List RfCall) (s t : RfState)
    (h : runCalls fuel cs s = some t)
    (hwf : s.Wf) (hact : s._rf_obj.inited ≠ 0) (hlen : s._rf_obj.txBuffer.length ≤ 126) :
    t.Wf ∧ t._rf_obj.inited ≠ 0 ∧ t._rf_obj.txBuffer.length ≤ 126 := by
  induction cs generalizing s with
  | nil =>
    simp only [runCalls, Option.some.injEq] at h
    rw [← h]; exact ⟨hwf, hact, hlen⟩
  | cons c cs ih =>
    rw [runCalls] at h
    cases hc : c.apply fuel s with
    | none => rw [hc] at h; simp at h
    | some u =>
      rw [hc] at h
      obtain ⟨a1, a2, a3⟩ := call_keeps fuel c s u hc hwf hact hlen
      exact ih u h a1 a2 a3

/-- While the PLL keeps locking, every sequence of calls and interrupts returns. -/
theorem run_returns (fuel : Nat) (cs : List RfCall) (s : RfState) (hp : pllLocks fuel s) :
    ∃ t, runCalls fuel cs s = some t ∧ pllLocks fuel t := by
  induction cs generalizing s with
  | nil => exact ⟨s, rfl, hp⟩
  | cons c cs ih =>
    obtain ⟨u, hu, hq⟩ := call_returns fuel c s hp
    obtain ⟨t, ht, hq2⟩ := ih u hq
    refine ⟨t, ?_, hq2⟩
    rw [runCalls, hu]
    exact ht

/-- C28: in every state reached from a successful `rfInit` by a sequence of calls of
`rfPutByte`, `rfPutBuffer`, `rfPutString`, `rfTransmitNow`, the read and flush calls and
interrupts, each of which has returned, the transmit buffer holds at most 126 bytes, fewer
than `HW_FRAME_TX_SIZE`.  So in such a state `rfPutByte(b)` finds room and returns `b`, and
`rfTransmitNow()` leaves the transmit buffer empty.  The calls do return while the PLL
keeps locking: then the whole sequence returns, and so do `rfPutByte` and `rfTransmitNow`
after it. -/
theorem tx_buffer_below_frame_size (fuel0 fuel : Nat) (s0 s : RfState) (channel : uint8_t)
    (hinit : rfInit fuel0 s0 channel = some s) (hact : s._rf_obj.inited ≠ 0)
    (calls : List RfCall) :
    (∀ t, runCalls fuel calls s = some t →
      t._rf_obj.txBuffer.length ≤ 126 ∧ t._rf_obj.txBuffer.length < HW_FRAME_TX_SIZE ∧
      t._rf_obj.txBuffer.length < t._rf_obj.txBuffer.size ∧ t._rf_obj.inited ≠ 0 ∧
      (∀ b r, rfPutByte fuel t b = some r →
        (bufferPut t._rf_obj.txBuffer b).1 = (b.val : Int) ∧ r.1 = (b.val : Int) ∧
          r.2._rf_obj.txBuffer.length ≤ 126) ∧
      (∀ r, rfTransmitNow fuel t = some r → r._rf_obj.txBuffer.length = 0) ∧
      (pllLocks fuel t →
        (∀ b, ∃ r, rfPutByte fuel t b = some r ∧ r.1 = (b.val : Int)) ∧
        (∃ r, rfTransmitNow fuel t = some r ∧ r._rf_obj.txBuffer.length = 0))) ∧
    (pllLocks fuel s → ∃ t, runCalls fuel calls s = some t) := by
  obtain ⟨hwf, hl0, -, -⟩ := rfInit_active fuel0 s0 s channel hinit hact
  constructor
  · intro t ht
    obtain ⟨twf, tact, tlen⟩ := run_keeps fuel calls s t ht hwf hact (by omega)
    have hsz := twf.2.2.2
    refine ⟨tlen, by unfold HW_FRAME_TX_SIZE; omega,
      by rw [hsz]; unfold RF_TX_BUFFER_SIZE HW_FRAME_TX_SIZE; omega, tact, ?_, ?_, ?_⟩
    · intro b r hr
      obtain ⟨a1, a2, -, -, a5⟩ := rfPutByte_ready fuel t b r hr twf tact tlen
      exact ⟨a1, a2, a5⟩
    · intro r hr
      exact (rfTransmitNow_ready fuel t r hr twf tact tlen).2.2
    · intro hp
      constructor
      · intro b
        obtain ⟨u, hu, -⟩ := call_returns fuel (RfCall.putByte b) t hp
        obtain ⟨r, hr, -⟩ := Option.map_eq_some'.mp hu
        exact ⟨r, hr, (rfPutByte_ready fuel t b r hr twf tact tlen).2.1⟩
      · obtain ⟨r, hr, -⟩ := call_returns fuel RfCall.transmitNow t hp
        exact ⟨r, hr, (rfTransmitNow_ready fuel t r hr twf tact tlen).2.2⟩
  · intro hp
    obtain ⟨t, ht, -⟩ := run_returns fuel calls s hp
    exact ⟨t, ht⟩

/-- Witness of C28: `rfInit(3)` succeeds on the radio whose transceiver reads `TRX_OFF`
after one busy read; then a block of 200 bytes is queued, a frame arrives, a byte is read
and two bytes are queued: every call returns and at most 126 bytes are left queued, none
after a call of `rfTransmitNow`. -/
theorem tx_buffer_below_frame_size_witness :
    rfInit 2 readyRadio 3 = some startedRadio ∧ startedRadio._rf_obj.inited ≠ 0 ∧
      pllLocks 1 startedRadio ∧
      ∃ t, runCalls 1 [RfCall.putBuffer longString 200,
          RfCall.rxStart 0x8A, RfCall.rxEnd 5 validFrame.TRXFB, RfCall.getByte,
          RfCall.putByte 7, RfCall.putByte 9] startedRadio = some t ∧
        t._rf_obj.txBuffer.length ≤ 126 ∧
        ∃ r, rfTransmitNow 1 t = some r ∧ r._rf_obj.txBuffer.length = 0 := by
  have hinit : rfInit 2 readyRadio 3 = some startedRadio := by rfl
  have hact : startedRadio._rf_obj.inited ≠ 0 := by decide
  have hp : pllLocks 1 startedRadio := by
    obtain ⟨-, -, -, j, hj⟩ := rfInit_active 2 readyRadio _ 3 hinit hact
    intro k
    refine ⟨0, by decide, ?_⟩
    rw [hj]
    show (readyRadio.TRX_STATUS (k + 0 + j) % 256) &&& PLL_ON ≠ 0
    by_cases hz : k + 0 + j = 0
    · rw [hz]; decide
    · have e : readyRadio.TRX_STATUS (k + 0 + j) = 8 := by
        simp only [readyRadio, hz, if_false]
      rw [e]; decide
  obtain ⟨t, ht⟩ := (tx_buffer_below_frame_size 2 1 readyRadio _ 3 hinit hact
    [RfCall.putBuffer longString 200,
      RfCall.rxStart 0x8A, RfCall.rxEnd 5 validFrame.TRXFB, RfCall.getByte,
      RfCall.putByte 7, RfCall.putByte 9]).2 hp
  have hq : pllLocks 1 t := by
    obtain ⟨u, hu, hq⟩ := run_returns 1 [RfCall.putBuffer longString 200,
      RfCall.rxStart 0x8A, RfCall.rxEnd 5 validFrame.TRXFB, RfCall.getByte,
      RfCall.putByte 7, RfCall.putByte 9] _ hp
    rw [ht] at hu
    simp only [Option.some.injEq] at hu
    rw [hu]; exact hq
  have hres := (tx_buffer_below_frame_size 2 1 readyRadio _ 3 hinit hact
    [RfCall.putBuffer longString 200,
      RfCall.rxStart 0x8A, RfCall.rxEnd 5 validFrame.TRXFB, RfCall.getByte,
      RfCall.putByte 7, RfCall.putByte 9]).1 t ht
  exact ⟨hinit, hact, hp, t, ht, hres.1, (hres.2.2.2.2.2.2 hq).2⟩

end Srxe
